import Mathlib

/-!
Verification development for the insight-readiness-analyzer correction engine.

This file gives a shallow embedding, in Lean 4, of the core of the
policy-driven data-correction pipeline: the five correction phases
(`apply_standardization`, `apply_parsing`, `apply_validity`,
`drop_critical_missing`, `apply_imputation`), the orchestrator
`run_correction_pipeline`, the audit logger (`AuditLogger` as a state
machine), and the readiness scorer (`calculate_readiness_score`).

Modelling conventions (Python/pandas semantics mapped to Lean):
  * Text values are `List Char`; column names are `String`.
  * Machine floats are modelled by exact rationals `Rat`.  A float NaN stored
    in a float64 column is observationally a missing value (`pd.isna`), so it
    is modelled by `Cell.null`; infinite floats get their own constructor
    `Cell.inf` because `_is_effectively_missing` tests `np.isinf`.
  * Python `str(float)` is modelled by `ratToPyStr`, an exact decimal
    rendering; Python guarantees `float(repr(x)) == x` and for every value
    the pipeline produces the rendering below is the exact decimal that
    round-trips.  (Scientific notation for extreme magnitudes is not
    modelled.)
  * `float(s)` is modelled by `pyFloatOfChars` on the grammar fragment
    `[sign](digits[.digits] | .digits)[(e|E)[sign]digits]` plus the
    inf / infinity / nan words, case-insensitively, with surrounding
    whitespace stripped (underscore digit separators are not modelled).
  * Exceptions that abort a run (the missing `_row_id` precondition) are
    modelled by `Option`.
  * Timestamps come from an injected logical clock, modelled as a function
    from the number of clock calls made so far (`Nat`) to a timestamp
    string; every phase threads the call counter exactly where the source
    calls `clk()`.
  * pandas column dtypes are modelled explicitly by `DType`: string-likeness
    (`object`), numeric (`float64`), `boolean` and `datetime64` drive the
    same branches as in the source.
-/

namespace IRA

/-! ## Text primitives (Python string operations on `List Char`) -/

/-- Whitespace characters recognised by Python `str.strip` / the `\s` regex
class, restricted to the characters that can survive into the pipeline
(ASCII whitespace, NBSP, thin space, line / paragraph separators). -/
def isSpaceC (c : Char) : Bool :=
  c = ' ' ∨ c = '\t' ∨ c = '\n' ∨ c = '\r' ∨ c = '\x0b' ∨ c = '\x0c' ∨
  c = ' ' ∨ c = ' ' ∨ c = ' ' ∨ c = ' '

/-- Python `str.strip()`: drop leading and trailing whitespace. -/
def trimChars (s : List Char) : List Char :=
  ((s.dropWhile isSpaceC).reverse.dropWhile isSpaceC).reverse

/-- Lowercase a text value (Python `str.lower`, ASCII fragment). -/
def lowerChars (s : List Char) : List Char := s.map Char.toLower

/-- Uppercase a text value (Python `str.upper`, ASCII fragment). -/
def upperChars (s : List Char) : List Char := s.map Char.toUpper

/-- Python `str.title()`: a cased character starting a run of cased
characters is uppercased, the rest of the run is lowercased. -/
def titleCharsGo : Bool → List Char → List Char
  | _, [] => []
  | prevAlpha, c :: rest =>
      (if c.isAlpha then (if prevAlpha then c.toLower else c.toUpper) else c)
        :: titleCharsGo c.isAlpha rest

def titleChars (s : List Char) : List Char := titleCharsGo false s

/-- Replace every maximal run of whitespace by a single space
(the pandas `str.replace(r'\s+', ' ', regex=True)` call).  Fuel-based
structural recursion so that the kernel can evaluate it; the fuel
`s.length` always suffices. -/
def collapseWsGo : Nat → List Char → List Char
  | 0, _ => []
  | f + 1, s =>
      match s with
      | [] => []
      | c :: rest =>
          if isSpaceC c then ' ' :: collapseWsGo f (rest.dropWhile isSpaceC)
          else c :: collapseWsGo f rest

def collapseWsChars (s : List Char) : List Char := collapseWsGo s.length s

/-- NFKC normalisation, restricted to the compatibility mappings that matter
here: full-width ASCII variants U+FF01..U+FF5E collapse to ASCII, and the
ideographic space U+3000 becomes a plain space.  Other characters are fixed
points of the modelled map. -/
def nfkcChar (c : Char) : Char :=
  if 0xFF01 ≤ c.toNat ∧ c.toNat ≤ 0xFF5E then Char.ofNat (c.toNat - 0xFEE0)
  else if c.toNat = 0x3000 then ' '
  else c

/-- Characters removed by the strip-nonprinting regex: C0 controls and DEL,
zero-width and direction marks, line / paragraph separators, BOM, invisible
operators. -/
def isStrippedC (c : Char) : Bool :=
  (c.toNat ≤ 0x08) ∨ (c.toNat = 0x0b) ∨ (c.toNat = 0x0c) ∨
  (0x0e ≤ c.toNat ∧ c.toNat ≤ 0x1f) ∨ (c.toNat = 0x7f) ∨
  (0x200b ≤ c.toNat ∧ c.toNat ≤ 0x200f) ∨
  (c.toNat = 0x2028) ∨ (c.toNat = 0x2029) ∨ (c.toNat = 0xfeff) ∨
  (0x2060 ≤ c.toNat ∧ c.toNat ≤ 0x2064)

/-- NBSP and thin space are mapped to a regular space after stripping. -/
def nbspToSpace (c : Char) : Char :=
  if c.toNat = 0xa0 ∨ c.toNat = 0x2009 then ' ' else c

/-- The `strip_nonprinting` helper: NFKC subset, then remove control /
zero-width characters, then NBSP and thin space become plain spaces. -/
def stripNonprintingChars (s : List Char) : List Char :=
  ((s.map nfkcChar).filter (fun c => ¬ isStrippedC c)).map nbspToSpace

/-- Replace every occurrence of a character (Python `str.replace` with a
one-character needle and empty replacement is a filter; with a one-character
replacement it is a map). -/
def removeChar (c : Char) (s : List Char) : List Char := s.filter (· ≠ c)

def startsWithChars (pre s : List Char) : Bool := s.take pre.length = pre

def endsWithChars (suf s : List Char) : Bool := s.reverse.take suf.length = suf.reverse

def containsSub (needle : List Char) : List Char → Bool
  | [] => needle.isEmpty
  | c :: rest => startsWithChars needle (c :: rest) || containsSub needle rest

/-! ## Digits and Python float strings -/

def digitChar (d : Nat) : Char := Char.ofNat (48 + d)

def isDigitC (c : Char) : Bool := 48 ≤ c.toNat ∧ c.toNat ≤ 57

def digitVal (c : Char) : Nat := c.toNat - 48

/-- Decimal digits of a natural number, most significant first
(fuel-based structural recursion; `natDigits n` uses fuel `n`). -/
def natDigitsGo : Nat → Nat → List Char
  | 0, _ => []
  | f + 1, n =>
      if n < 10 then [digitChar n]
      else natDigitsGo f (n / 10) ++ [digitChar (n % 10)]

def natDigits (n : Nat) : List Char := natDigitsGo (n + 1) n

/-- Value of a list of digit characters (no validity checking; callers
tokenise with `isDigitC` first). -/
def digitsVal (s : List Char) : Nat := s.foldl (fun acc c => acc * 10 + digitVal c) 0

/-- Multiplicity of `p` in `n` (0 for `n = 0`), by fuel recursion. -/
def multiplicityGo (p : Nat) : Nat → Nat → Nat
  | 0, _ => 0
  | f + 1, n => if 2 ≤ p ∧ 2 ≤ n ∧ n % p = 0 then multiplicityGo p f (n / p) + 1 else 0

def multiplicityOf (p n : Nat) : Nat := multiplicityGo p n n

/-- Smallest exponent `k` with `q.den ∣ 10 ^ k`, for rationals whose
denominator is of the form `2^a * 5^b`. -/
def decExp (q : ℚ) : Nat := max (multiplicityOf 2 q.den) (multiplicityOf 5 q.den)

/-- Render a nonnegative rational with denominator dividing `10 ^ k` using
exactly `k` fractional digits (or `.0` when `k = 0`), as Python `str(float)`
does on such values. -/
def ratDigitsStr (n k : Nat) : List Char :=
  if k = 0 then natDigits n ++ ['.', '0']
  else
    natDigits (n / 10 ^ k) ++ '.' ::
      (List.replicate (k - (natDigits (n % 10 ^ k)).length) '0' ++ natDigits (n % 10 ^ k))

/-- Python `str()` of a float value, modelled on exact rationals: the exact
decimal expansion with the minimal number of fractional digits.  Rationals
without a terminating decimal expansion (which the pipeline never produces
from text) are rendered with `decExp` digits of their truncation. -/
def ratToPyStr (q : ℚ) : List Char :=
  let k := decExp q
  let n := (q.num.natAbs * 10 ^ k) / q.den
  if q < 0 then '-' :: ratDigitsStr n k else ratDigitsStr n k

/-- Python float values: finite (exact rational model), infinities, NaN. -/
inductive PyVal where
  | fin (q : ℚ)
  | inf (neg : Bool)
  | nan
deriving DecidableEq, Repr

def readSign : List Char → Bool × List Char
  | '-' :: rest => (true, rest)
  | '+' :: rest => (false, rest)
  | s => (false, s)

/-- Mantissa-and-exponent part of the Python float grammar, after the sign:
`digits[.digits] | .digits`, optionally followed by `(e|E)[sign]digits`;
the whole input must be consumed and at least one mantissa digit present. -/
def parsePyMantissa (neg : Bool) (s : List Char) : Option PyVal :=
  let ip := s.takeWhile isDigitC
  let r1 := s.drop ip.length
  let fpAndRest : List Char × List Char :=
    match r1 with
    | '.' :: r => (r.takeWhile isDigitC, r.drop (r.takeWhile isDigitC).length)
    | _ => ([], r1)
  let fp := fpAndRest.1
  let r2 := fpAndRest.2
  if ip.length = 0 ∧ fp.length = 0 then none
  else
    let base : ℚ := (digitsVal ip : ℚ) + (digitsVal fp : ℚ) / (10 ^ fp.length : ℚ)
    let signed : ℚ → PyVal := fun v => PyVal.fin (if neg then -v else v)
    match r2 with
    | [] => some (signed base)
    | e :: r3 =>
        if e = 'e' ∨ e = 'E' then
          let sr := readSign r3
          let ed := sr.2.takeWhile isDigitC
          if ed.length = 0 ∨ (sr.2.drop ed.length).length ≠ 0 then none
          else if sr.1 then some (signed (base / 10 ^ digitsVal ed))
          else some (signed (base * 10 ^ digitsVal ed))
        else none

/-- Python `float(s)`: strip whitespace, read a sign, accept the
inf / infinity / nan words case-insensitively, otherwise parse a decimal
mantissa with optional exponent.  `none` models `ValueError`. -/
def pyFloatOfChars (s : List Char) : Option PyVal :=
  let t := trimChars s
  if t.isEmpty then none
  else
    let sr := readSign t
    let low := lowerChars sr.2
    if low = [ 'i', 'n', 'f' ] ∨ low = [ 'i', 'n', 'f', 'i', 'n', 'i', 't', 'y' ] then
      some (PyVal.inf sr.1)
    else if low = [ 'n', 'a', 'n' ] then some PyVal.nan
    else parsePyMantissa sr.1 sr.2

/-- Round to nearest integer, ties to even (Python `round` semantics on the
exact value). -/
def roundHalfEven (q : ℚ) : ℤ :=
  let f := ⌊q⌋
  let r := q - (f : ℚ)
  if r < 1/2 then f
  else if 1/2 < r then f + 1
  else if Even f then f else f + 1

/-- Python `round(x, 2)`. -/
def pyRound2 (q : ℚ) : ℚ := (roundHalfEven (q * 100) : ℚ) / 100

/-- Python `format(x, '.4f')`: fixed four fractional digits, rounding ties
to even on the exact value. -/
def format4 (q : ℚ) : List Char :=
  let n := roundHalfEven (q * 10000)
  let a := n.natAbs
  let body :=
    natDigits (a / 10000) ++ '.' ::
      (List.replicate (4 - (natDigits (a % 10000)).length) '0' ++ natDigits (a % 10000))
  if n < 0 then '-' :: body else body

/-! ## Calendar / timestamp model

Timestamps are calendar tuples `(y, m, d, h, mi, s)` packed into a single
natural number by a mixed-radix encoding; only equality, rendering and
bounded construction are needed by the pipeline.  The pandas nanosecond
range restriction (`~1677..2262`) is modelled by accepting years
`1678..2261` and treating everything else as an out-of-range parse failure
(pandas returns `NaT` under `errors="coerce"`). -/

def isLeapYear (y : Nat) : Bool := (y % 4 = 0 ∧ y % 100 ≠ 0) ∨ y % 400 = 0

def daysInMonth (y m : Nat) : Nat :=
  if m = 2 then (if isLeapYear y then 29 else 28)
  else if m = 4 ∨ m = 6 ∨ m = 9 ∨ m = 11 then 30
  else 31

def packTs (y m d h mi s : Nat) : Nat :=
  ((((y * 13 + m) * 32 + d) * 24 + h) * 60 + mi) * 60 + s

def tsSecond (v : Nat) : Nat := v % 60
def tsMinute (v : Nat) : Nat := (v / 60) % 60
def tsHour (v : Nat) : Nat := (v / 3600) % 24
def tsDay (v : Nat) : Nat := (v / 86400) % 32
def tsMonth (v : Nat) : Nat := (v / (86400 * 32)) % 13
def tsYear (v : Nat) : Nat := v / (86400 * 32 * 13)

def padDigits (w : Nat) (n : Nat) : List Char :=
  List.replicate (w - (natDigits n).length) '0' ++ natDigits n

/-- Python `str(pd.Timestamp(...))`: `YYYY-MM-DD HH:MM:SS`. -/
def renderTimestamp (v : Nat) : List Char :=
  padDigits 4 (tsYear v) ++ '-' :: padDigits 2 (tsMonth v) ++ '-' :: padDigits 2 (tsDay v) ++
    ' ' :: padDigits 2 (tsHour v) ++ ':' :: padDigits 2 (tsMinute v) ++
    ':' :: padDigits 2 (tsSecond v)

/-- Validate calendar fields and the pandas representable range, returning
the packed timestamp. -/
def mkTimestamp (y m d h mi s : Nat) : Option Nat :=
  if 1678 ≤ y ∧ y ≤ 2261 ∧ 1 ≤ m ∧ m ≤ 12 ∧ 1 ≤ d ∧ d ≤ daysInMonth y m ∧
      h < 24 ∧ mi < 60 ∧ s < 60 then
    some (packTs y m d h mi s)
  else none

/-! ## Cells, dtypes, tables -/

/-- A table cell.  `null` models every `pd.isna` value (None, NaN, NaT,
pd.NA); `num` models finite floats as exact rationals; `inf` models the
infinite float sentinels (`_is_effectively_missing` tests `np.isinf`);
`dt` is a packed timestamp. -/
inductive Cell where
  | null
  | str (s : List Char)
  | num (q : ℚ)
  | bool (b : Bool)
  | dt (v : Nat)
  | inf (neg : Bool)
deriving DecidableEq, Repr

/-- Python `str()` of a cell value (null cells are only ever rendered behind
`pd.notna` guards in the source; `"None"` is the unused placeholder). -/
def pyStrCell : Cell → List Char
  | .null => [ 'N', 'o', 'n', 'e' ]
  | .str s => s
  | .num q => ratToPyStr q
  | .bool b => if b then [ 'T', 'r', 'u', 'e' ] else [ 'F', 'a', 'l', 's', 'e' ]
  | .dt v => renderTimestamp v
  | .inf neg => if neg then [ '-', 'i', 'n', 'f' ] else [ 'i', 'n', 'f' ]

/-- The canonical null-token table of `_is_effectively_missing`. -/
def missingTokens : List (List Char) :=
  [ [], "nan".toList, "null".toList, "none".toList, "na".toList, "n/a".toList,
    "inf".toList, "-inf".toList, "infinity".toList, "-infinity".toList ]

/-- Shared helper `_is_effectively_missing` of parsing.py / missing.py:
true nulls, infinite numeric sentinels, and the common null tokens after
trimming and lowercasing. -/
def is_effectively_missing (x : Cell) : Bool :=
  match x with
  | .null => true
  | .inf _ => true
  | c => missingTokens.contains (lowerChars (trimChars (pyStrCell c)))

/-- pandas column dtypes, as far as the pipeline's branches observe them. -/
inductive DType where
  | object
  | float64
  | int64
  | boolean
  | datetime64
deriving DecidableEq, Repr

/-- The `pd.api.types.is_numeric_dtype` test as used by the phases. -/
def isNumericDtype : DType → Bool
  | .float64 => true
  | .int64 => true
  | _ => false

/-- The `_is_string_like` test of standardize.py (object or string dtype). -/
def isStringLike : DType → Bool
  | .object => true
  | _ => false

def isDatetimeDtype : DType → Bool
  | .datetime64 => true
  | _ => false

structure Column where
  name : String
  dtype : DType
  cells : List Cell
deriving DecidableEq, Repr

/-- A table is its ordered list of columns; rows are positions (pandas index
labels only ever surface through sorted iteration, which coincides with
positional order for every table the pipeline builds). -/
abbrev Table := List Column

def colNames (t : Table) : List String := t.map Column.name

def getColumn (t : Table) (name : String) : Option Column :=
  t.find? (fun c => c.name = name)

def hasColumn (t : Table) (name : String) : Bool := (getColumn t name).isSome

def colCells (t : Table) (name : String) : List Cell :=
  match getColumn t name with
  | some c => c.cells
  | none => []

def colDtype (t : Table) (name : String) : Option DType :=
  (getColumn t name).map Column.dtype

/-- The `df[col] = out` assignment: replace the cells (and dtype) of an
existing column. -/
def setColumn (t : Table) (name : String) (dtype : DType) (cells : List Cell) : Table :=
  t.map fun c => if c.name = name then { c with dtype := dtype, cells := cells } else c

/-- Keep the rows whose mask entry is `true` (mask aligned by position). -/
def filterCells (keep : List Bool) (cells : List Cell) : List Cell :=
  ((cells.zip keep).filter (fun p => p.2)).map (fun p => p.1)

def filterRows (t : Table) (keep : List Bool) : Table :=
  t.map fun c => { c with cells := filterCells keep c.cells }

def maskOr (a b : List Bool) : List Bool := (a.zip b).map fun p => p.1 || p.2

def maskAny (m : List Bool) : Bool := m.contains true

def maskCount (m : List Bool) : Nat := (m.filter id).length

/-- Positions (ascending) at which the mask holds. -/
def maskIdxs (m : List Bool) : List Nat :=
  ((List.range m.length).zip m).filterMap fun p => if p.2 then some p.1 else none

/-! ## Audit events -/

/-- An audit event dictionary.  `Option` fields model keys that are absent
or `None` in some event shapes (validity events carry no `row_id` and may
carry a `None` timestamp; aggregate-only fields like `violation_count`
appear only on validity events). -/
structure Event where
  event_type : String
  row_id : Option Cell := none
  column : Option String := none
  old_value : Option (List Char) := none
  new_value : Option (List Char) := none
  reason : String
  policy_section : String
  timestamp : Option String := none
  count : Option Nat := none
  violation_count : Option Nat := none
deriving DecidableEq, Repr

/-- `log_value_change` events always carry their full field set. -/
def mkValueChange (etype : String) (rid : Cell) (column : String)
    (oldv newv : Option (List Char)) (reason sect ts : String) : Event :=
  { event_type := etype, row_id := some rid, column := some column,
    old_value := oldv, new_value := newv, reason := reason,
    policy_section := sect, timestamp := some ts }

/-! ## Policy model

Each structure mirrors exactly the dictionary reads (`policy.get(...)`)
performed by the correction phases, with the same fallback defaults; an
absent key and a key equal to its fallback are indistinguishable to the
source, so plain fields with those defaults model arbitrary policy
dictionaries.  Regex patterns are modelled by their match predicate
(`pandas str.match`, anchored at the start). -/

structure RolesCfg where
  critical_columns : List String := []
  protected_columns : List String := []

structure BoolCfg where
  true_values : List (List Char) := []
  false_values : List (List Char) := []
  on_failure : String := "null"

structure NumCfg where
  allow_commas : Bool := true
  allow_currency_symbols : Bool := true
  allow_percent_symbol : Bool := true
  percent_scale : String := "auto"
  on_failure : String := "null"

structure DtCfg where
  dayfirst : Bool := false
  yearfirst : Bool := false
  allowed_formats : List String := []
  on_failure : String := "null"

structure ParsingCfg where
  column_types : List (String × String) := []
  boolean : BoolCfg := {}
  numeric : NumCfg := {}
  datetime : DtCfg := {}

structure StdCfg where
  strip_nonprinting : Bool := false
  global_trim_whitespace : Bool := false
  global_collapse_whitespace : Bool := false
  casefold : String := "none"
  mappings : List (String × List (List Char × List Char)) := []

structure BucketCfg where
  default : String := "none"
  constants : List (String × Cell) := []
  allow_if_missing_pct_leq : ℚ := 1

structure ImputeCfg where
  numeric : Option BucketCfg := none
  categorical : Option BucketCfg := none
  datetime : Option BucketCfg := none

structure MissingCfg where
  enabled : Bool := true
  drop_if_missing_critical : Bool := true
  imputation : Option ImputeCfg := none

structure RangeRule where
  min : Option ℚ := none
  max : Option ℚ := none

structure ValidityCfg where
  enabled : Bool := true
  ranges : List (String × RangeRule) := []
  allowed_values : List (String × List Cell) := []
  regex : List (String × String × (List Char → Bool)) := []
  non_negative_columns : List String := []
  on_violation : String := "flag"

structure Policy where
  roles : RolesCfg := {}
  parsing : ParsingCfg := {}
  standardization : StdCfg := {}
  missing_data : MissingCfg := {}
  validity_rules : ValidityCfg := {}

/-- Association-list lookup (Python dict `.get`). -/
def alistGet (l : List (String × α)) (k : String) : Option α :=
  (l.find? (fun p => p.1 = k)).map Prod.snd

/-- A logical clock: the timestamp string returned by the n-th `clk()`
call of the run. -/
def ClockT := Nat → String

/-- Insertion sort by a boolean `le`, used for Python `sorted(...)`. -/
def insertLe (le : α → α → Bool) (x : α) : List α → List α
  | [] => [x]
  | y :: rest => if le x y then x :: y :: rest else y :: insertLe le x rest

def sortLe (le : α → α → Bool) : List α → List α
  | [] => []
  | x :: rest => insertLe le x (sortLe le rest)

/-- Python `sorted` on strings (code-point lexicographic). -/
def sortStrs (l : List String) : List String :=
  sortLe (fun a b => a < b ∨ a = b) l

/-- Python `sorted` on naturals. -/
def sortNats (l : List Nat) : List Nat := sortLe (fun a b => a ≤ b) l

/-- Add an index to a sorted duplicate-free index list (set semantics of
`rows_to_drop`). -/
def insertIdx (i : Nat) : List Nat → List Nat
  | [] => [i]
  | j :: rest =>
      if i < j then i :: j :: rest
      else if i = j then j :: rest
      else j :: insertIdx i rest

/-! ## Standardizer (standardize.py) -/

/-- Apply a text transformation to string cells only (`mask =
s.map(lambda x: isinstance(x, str))` discipline: non-strings and nulls pass
through untouched). -/
def mapStrCell (f : List Char → List Char) : Cell → Cell
  | .str s => .str (f s)
  | c => c

/-- `apply_mappings`: literal value remapping on non-null values (mapping
keys are strings, so only string cells can change). -/
def applyMappingCell (mapping : List (List Char × List Char)) : Cell → Cell
  | .str s =>
      match (mapping.find? (fun p => p.1 = s)).map Prod.snd with
      | some v => .str v
      | none => .str s
  | c => c

/-- `trim_whitespace` on a cell. -/
def trimCell : Cell → Cell := mapStrCell trimChars

/-- `collapse_whitespace` on a cell. -/
def collapseCell : Cell → Cell := mapStrCell collapseWsChars

/-- `strip_nonprinting` on a cell. -/
def stripNonprintingCell : Cell → Cell := mapStrCell stripNonprintingChars

/-- `apply_casefold` on a cell (unknown casefold values change nothing,
matching the if/elif chain). -/
def casefoldCell (cf : String) : Cell → Cell :=
  mapStrCell fun s =>
    if cf = "lower" then lowerChars s
    else if cf = "upper" then upperChars s
    else if cf = "title" then titleChars s
    else s

/-- `_audit_change`: one `standardization_change` event per changed cell
(null-safe comparison), all sharing the single `clock()` timestamp taken
for the column. -/
def auditChangeEvents (column : String) (rowIds oldCells newCells : List Cell)
    (reason sect ts : String) : List Event :=
  ((rowIds.zip (oldCells.zip newCells)).filter (fun p => p.2.1 ≠ p.2.2)).map fun p =>
    mkValueChange "standardization_change" p.1 column
      (if p.2.1 = .null then none else some (pyStrCell p.2.1))
      (if p.2.2 = .null then none else some (pyStrCell p.2.2))
      reason sect ts

/-- One standardization pass over a list of column names: skip protected and
non-string-like columns, apply the cell transform, and audit-and-assign only
when the column actually changed (consuming one clock tick per changed
column, as `_audit_change` calls `clock()` once). -/
def stdPass (prot : List String) (rowIds : List Cell) (f : Cell → Cell)
    (reason sect : String) (clk : ClockT) :
    List String → Table → Nat → Table × List Event × Nat
  | [], df, n => (df, [], n)
  | name :: rest, df, n =>
      match getColumn df name with
      | none => stdPass prot rowIds f reason sect clk rest df n
      | some col =>
          if prot.contains name ∨ ¬ isStringLike col.dtype then
            stdPass prot rowIds f reason sect clk rest df n
          else
            let newCells := col.cells.map f
            if newCells = col.cells then
              stdPass prot rowIds f reason sect clk rest df n
            else
              let ts := clk n
              let evs := auditChangeEvents name rowIds col.cells newCells reason sect ts
              let df2 := setColumn df name col.dtype newCells
              let r := stdPass prot rowIds f reason sect clk rest df2 (n + 1)
              (r.1, evs ++ r.2.1, r.2.2)

/-- The mapping pass iterates the policy's `mappings` dictionary instead of
the table's columns, skipping absent and protected columns. -/
def stdMappingPass (prot : List String) (rowIds : List Cell) (clk : ClockT) :
    List (String × List (List Char × List Char)) → Table → Nat → Table × List Event × Nat
  | [], df, n => (df, [], n)
  | (name, mapping) :: rest, df, n =>
      match getColumn df name with
      | none => stdMappingPass prot rowIds clk rest df n
      | some col =>
          if prot.contains name ∨ ¬ isStringLike col.dtype then
            stdMappingPass prot rowIds clk rest df n
          else
            let newCells := col.cells.map (applyMappingCell mapping)
            if newCells = col.cells then
              stdMappingPass prot rowIds clk rest df n
            else
              let ts := clk n
              let evs := auditChangeEvents name rowIds col.cells newCells
                "value_mapping" "standardization.mappings" ts
              let df2 := setColumn df name col.dtype newCells
              let r := stdMappingPass prot rowIds clk rest df2 (n + 1)
              (r.1, evs ++ r.2.1, r.2.2)

/-- `apply_standardization`: the five fixed sub-steps in order, each gated
by its policy flag, each iterating the table's columns in order. -/
def apply_standardization (df : Table) (p : Policy) (clock : Option ClockT)
    (env : ClockT) (n : Nat) : Table × List Event × Nat :=
  let clk := clock.getD env
  let prot := p.roles.protected_columns
  let rowIds := colCells df "_row_id"
  let std := p.standardization
  let step1 :=
    if std.strip_nonprinting then
      stdPass prot rowIds stripNonprintingCell "strip_nonprinting"
        "standardization.strip_nonprinting" clk (colNames df) df n
    else (df, [], n)
  let step2 :=
    if std.global_trim_whitespace then
      stdPass prot rowIds trimCell "trim_whitespace"
        "standardization.global_trim_whitespace" clk (colNames step1.1) step1.1 step1.2.2
    else (step1.1, [], step1.2.2)
  let step3 :=
    if std.global_collapse_whitespace then
      stdPass prot rowIds collapseCell "collapse_whitespace"
        "standardization.global_collapse_whitespace" clk (colNames step2.1) step2.1 step2.2.2
    else (step2.1, [], step2.2.2)
  let step4 :=
    if std.casefold ≠ "none" then
      stdPass prot rowIds (casefoldCell std.casefold) ("casefold_" ++ std.casefold)
        "standardization.casefold" clk (colNames step3.1) step3.1 step3.2.2
    else (step3.1, [], step3.2.2)
  let step5 := stdMappingPass prot rowIds clk std.mappings step4.1 step4.2.2
  (step5.1, step1.2.1 ++ step2.2.1 ++ step3.2.1 ++ step4.2.1 ++ step5.2.1, step5.2.2)

/-! ## Parser (parsing.py) -/

/-- Remove a single space flanked by digits (the lookaround substitution
`re.sub(r'(?<=\d) (?=\d)', '', s)`), by fuel-based structural recursion. -/
def removeDigitSpacesGo : Nat → List Char → List Char
  | 0, s => s
  | f + 1, s =>
      match s with
      | [] => []
      | [c] => [c]
      | a :: b :: rest =>
          if isDigitC a && (b == ' ') &&
              (match rest with | c :: _ => isDigitC c | [] => false) then
            a :: removeDigitSpacesGo f rest
          else a :: removeDigitSpacesGo f (b :: rest)

def removeDigitSpaces (s : List Char) : List Char := removeDigitSpacesGo s.length s

/-- Currency codes recognised by `_strip_currency_and_commas`, in source
order. -/
def currencyCodes : List (List Char) :=
  [ "USD".toList, "EUR".toList, "GBP".toList, "INR".toList, "JPY".toList,
    "AUD".toList, "CAD".toList, "CHF".toList, "CNY".toList, "MXN".toList,
    "BRL".toList, "KRW".toList, "SGD".toList, "HKD".toList, "NZD".toList,
    "RS.".toList, "RS".toList ]

def lstripChars (s : List Char) : List Char := s.dropWhile isSpaceC

def rstripChars (s : List Char) : List Char := (s.reverse.dropWhile isSpaceC).reverse

/-- The code loop of `_strip_currency_and_commas`: first code matching as a
prefix (with a nonempty remainder) or as a suffix wins; no match leaves the
string as it was. -/
def stripCurrencyCodes (sStripped : List Char) : List (List Char) → Option (List Char)
  | [] => none
  | code :: rest =>
      let sUpper := upperChars sStripped
      let pre := lstripChars (sStripped.drop code.length)
      let suf := rstripChars (sStripped.take (sStripped.length - code.length))
      if startsWithChars code sUpper ∧ pre ≠ [] then some pre
      else if endsWithChars code sUpper ∧ suf ≠ [] then some suf
      else stripCurrencyCodes sStripped rest

/-- `_strip_currency_and_commas`. -/
def stripCurrencyAndCommas (text : List Char) (allowCommas allowCurrency : Bool) :
    List Char :=
  let s0 := if allowCommas then removeChar ',' text else text
  let s1 :=
    if allowCurrency then
      let noSyms := removeChar '¥' (removeChar '₹' (removeChar '£' (removeChar '€'
        (removeChar '$' s0))))
      match stripCurrencyCodes (trimChars noSyms) currencyCodes with
      | some r => r
      | none => noSyms
    else s0
  trimChars s1

/-- Spellings of NaN / infinity rejected by `_normalize_numeric_string`
(compared lowercased with interior spaces removed). -/
def nanInfSpellings : List (List Char) :=
  [ "nan".toList, "-nan".toList, "+nan".toList, "inf".toList, "-inf".toList,
    "+inf".toList, "infinity".toList, "-infinity".toList, "+infinity".toList ]

/-- `_normalize_numeric_string`; `none` models the
`ValueError("nan_or_infinity_token")` raise. -/
def normalizeNumericChars (raw : List Char) : Option (List Char) :=
  let s := trimChars raw
  if nanInfSpellings.contains (removeChar ' ' (lowerChars s)) then none
  else
    let s1 :=
      if startsWithChars ['('] s ∧ endsWithChars [')'] s then '-' :: (s.drop 1).dropLast
      else s
    let s2 :=
      match s1 with
      | c :: rest => if c = '–' ∨ c = '—' then '-' :: rest else s1
      | [] => s1
    let s3 :=
      match s2 with
      | '+' :: c :: rest => if c ≠ '+' then c :: rest else s2
      | _ => s2
    some (removeDigitSpaces s3)

/-- The `ValueError` text of a failed `float()` call (single-quote `repr`
form). -/
def floatErrMsg (s : List Char) : List Char :=
  "could not convert string to float: ".toList ++ '\x27' :: (s ++ ['\x27'])

/-- Outcome of parsing a single cell: either a resulting cell, or a failure
with the output cell chosen by the failure mode, a row-drop flag, and the
audit reason. -/
inductive ParseOut where
  | ok (out : Cell)
  | fail (out : Cell) (drop : Bool) (reason : String)
deriving DecidableEq, Repr

/-- Output cell and drop flag for a parse failure, per the shared
`on_failure` branch structure (`drop_row` leaves the buffer entry — raw in
keep-raw mode, typed-null otherwise; unknown modes behave like `null`). -/
def failureOut (onFailure : String) (val : Cell) : Cell × Bool :=
  if onFailure = "drop_row" then
    ((if onFailure = "keep_raw" then val else Cell.null), true)
  else if onFailure = "null" then (.null, false)
  else if onFailure = "keep_raw" then (val, false)
  else (.null, false)

/-- Boolean parsing of one cell. -/
def booleanCellStep (cfg : BoolCfg) (val : Cell) : ParseOut :=
  if is_effectively_missing val then .ok .null
  else
    let sval := lowerChars (trimChars (pyStrCell val))
    let trueVals := cfg.true_values.map (fun v => lowerChars (trimChars v))
    let falseVals := cfg.false_values.map (fun v => lowerChars (trimChars v))
    if trueVals.contains sval then .ok (.bool true)
    else if falseVals.contains sval then .ok (.bool false)
    else
      let o := failureOut cfg.on_failure val
      .fail o.1 o.2 "invalid_boolean"

/-- Numeric parsing of one cell: percent handling, currency / comma
stripping, string normalisation with NaN / infinity rejection, `float()`
conversion with rejection of non-finite results, and percent scaling. -/
def numericCellStep (cfg : NumCfg) (val : Cell) : ParseOut :=
  let keepRaw := cfg.on_failure = "keep_raw"
  if is_effectively_missing val then .ok (if keepRaw then val else .null)
  else
    let raw := trimChars (pyStrCell val)
    let rawNormalized := collapseWsChars raw
    let isPct := cfg.allow_percent_symbol ∧ rawNormalized.contains '%'
    let rawNum0 := if isPct then trimChars (removeChar '%' rawNormalized) else raw
    let rawNum1 := stripCurrencyAndCommas rawNum0 cfg.allow_commas cfg.allow_currency_symbols
    let rawNum2 := (normalizeNumericChars rawNum1).getD rawNum1
    let failWith : String → ParseOut := fun reason =>
      let o := failureOut cfg.on_failure val
      .fail o.1 o.2 reason
    match pyFloatOfChars rawNum2 with
    | some (.fin q) =>
        let v :=
          if isPct then
            if cfg.percent_scale = "0_1" then q / 100
            else if cfg.percent_scale = "0_100" then q
            else if cfg.percent_scale = "auto" then q / 100
            else q
          else q
        .ok (.num v)
    | some _ => failWith "infinite_or_nan_value"
    | none =>
        let msg := floatErrMsg rawNum2
        failWith
          (if containsSub "infinite".toList msg ∨ containsSub "nan".toList msg then
            String.mk msg
          else "invalid_numeric")

/-- Minimal strptime state (CPython defaults: 1900-01-01 00:00:00). -/
structure StFields where
  y : Nat := 1900
  mo : Nat := 1
  d : Nat := 1
  h : Nat := 0
  mi : Nat := 0
  s : Nat := 0

/-- Mini-strptime over the directives the policies use
(`%Y %y %m %d %H %M %S`, `%%`, literals); an unsupported directive fails
the format, modelling only the fragment exercised here. -/
def strptimeGo : List Char → List Char → StFields → Option StFields
  | [], [], f => some f
  | [], _ :: _, _ => none
  | '%' :: d :: fmtRest, input, f =>
      let takeNum : Nat → Option (Nat × List Char) := fun w =>
        let ds := (input.takeWhile isDigitC).take w
        if ds.isEmpty then none else some (digitsVal ds, input.drop ds.length)
      match d with
      | 'Y' => match takeNum 4 with
        | some (v, rest) => strptimeGo fmtRest rest { f with y := v }
        | none => none
      | 'y' => match takeNum 2 with
        | some (v, rest) =>
            strptimeGo fmtRest rest { f with y := if v ≤ 68 then 2000 + v else 1900 + v }
        | none => none
      | 'm' => match takeNum 2 with
        | some (v, rest) => strptimeGo fmtRest rest { f with mo := v }
        | none => none
      | 'd' => match takeNum 2 with
        | some (v, rest) => strptimeGo fmtRest rest { f with d := v }
        | none => none
      | 'H' => match takeNum 2 with
        | some (v, rest) => strptimeGo fmtRest rest { f with h := v }
        | none => none
      | 'M' => match takeNum 2 with
        | some (v, rest) => strptimeGo fmtRest rest { f with mi := v }
        | none => none
      | 'S' => match takeNum 2 with
        | some (v, rest) => strptimeGo fmtRest rest { f with s := v }
        | none => none
      | '%' => match input with
        | c :: rest => if c = '%' then strptimeGo fmtRest rest f else none
        | [] => none
      | _ => none
  | ['%'], _, _ => none
  | fc :: fmtRest, c :: rest, f => if fc = c then strptimeGo fmtRest rest f else none
  | _ :: _, [], _ => none

def strptimeChars (fmt input : List Char) : Option Nat :=
  match strptimeGo fmt input {} with
  | some f => mkTimestamp f.y f.mo f.d f.h f.mi f.s
  | none => none

/-- `_try_formats`: first explicit format that parses `str(value).strip()`
(field-range and representable-range errors count as format failures, as
the `except Exception: continue` does). -/
def tryFormats (val : Cell) (formats : List String) : Option Nat :=
  let text := trimChars (pyStrCell val)
  formats.firstM fun fmt => strptimeChars fmt.toList text

def splitOnChars (sep : Char → Bool) (s : List Char) : List (List Char) :=
  let rec go : List Char → List Char → List (List Char)
    | [], acc => [acc.reverse]
    | c :: rest, acc => if sep c then acc.reverse :: go rest [] else go rest (c :: acc)
  go s []

/-- Fallback permissive parsing of a date-time text
(`pd.to_datetime(..., errors="coerce")`), modelled on the fragment of the
dateutil grammar the data exercises: `Y-M-D` / `Y/M/D` / `D-M-Y`-style
dates with four-digit years, optional `HH:MM[:SS]` time after a space or
`T`, optional `Z` suffix (already UTC).  `dayfirst` disambiguates
two-small-component forms. -/
def parseDtText (dayfirst : Bool) (t : List Char) : Option Nat :=
  let t := trimChars t
  let t := if endsWithChars ['Z'] t then t.dropLast else t
  let parts := splitOnChars (fun c => c = ' ' ∨ c = 'T') t
  match parts with
  | [] => none
  | datePart :: restParts =>
      let timePart := if restParts.isEmpty then [] else restParts.headD []
      if restParts.length ≥ 2 then none
      else
        let dc := splitOnChars (fun c => c = '-' ∨ c = '/') datePart
        let allDigits : List Char → Bool := fun l => ¬ l.isEmpty ∧ l.all isDigitC
        match dc with
        | [a, b, c] =>
            if ¬ (allDigits a ∧ allDigits b ∧ allDigits c) then none
            else
              let ymd : Option (Nat × Nat × Nat) :=
                if a.length = 4 then some (digitsVal a, digitsVal b, digitsVal c)
                else if c.length = 4 then
                  if dayfirst then some (digitsVal c, digitsVal b, digitsVal a)
                  else some (digitsVal c, digitsVal a, digitsVal b)
                else none
              match ymd with
              | none => none
              | some (y, mo, d) =>
                  let hms : Option (Nat × Nat × Nat) :=
                    if timePart.isEmpty then some (0, 0, 0)
                    else
                      match splitOnChars (· = ':') timePart with
                      | [hh, mm] =>
                          if allDigits hh ∧ allDigits mm then
                            some (digitsVal hh, digitsVal mm, 0)
                          else none
                      | [hh, mm, ss] =>
                          if allDigits hh ∧ allDigits mm ∧ allDigits ss then
                            some (digitsVal hh, digitsVal mm, digitsVal ss)
                          else none
                      | _ => none
                  match hms with
                  | none => none
                  | some (h, mi, s) => mkTimestamp y mo d h mi s
        | _ => none

/-- Fallback `pd.to_datetime(val, errors="coerce", ...)` on a cell: an
already-typed timestamp passes through, text is parsed, and other values
coerce to `NaT` in the modelled fragment. -/
def parseDatetimeFallback (dayfirst : Bool) (val : Cell) : Option Nat :=
  match val with
  | .dt v => some v
  | .str s => parseDtText dayfirst s
  | _ => none

/-- Datetime parsing of one cell: explicit formats first, then the
permissive fallback. -/
def datetimeCellStep (cfg : DtCfg) (val : Cell) : ParseOut :=
  let keepRaw := cfg.on_failure = "keep_raw"
  if is_effectively_missing val then .ok (if keepRaw then val else .null)
  else
    let viaFormats := if cfg.allowed_formats.isEmpty then none else tryFormats val cfg.allowed_formats
    let parsed :=
      match viaFormats with
      | some v => some v
      | none => parseDatetimeFallback cfg.dayfirst val
    match parsed with
    | none =>
        let o := failureOut cfg.on_failure val
        .fail o.1 o.2 "invalid_datetime"
    | some v => .ok (.dt v)

/-- Process the cells of one declared column: successful cells go to the
output buffer, failures emit one `parsing_failure` event (consuming one
clock tick each) and accumulate drop indices. -/
def parseColGo (step : Cell → ParseOut) (name sect : String) (rowIds : List Cell)
    (clk : ClockT) :
    List Cell → Nat → Nat → List Nat → List Cell × List Event × List Nat × Nat
  | [], _, n, drops => ([], [], drops, n)
  | c :: rest, idx, n, drops =>
      match step c with
      | .ok out =>
          let r := parseColGo step name sect rowIds clk rest (idx + 1) n drops
          (out :: r.1, r.2.1, r.2.2.1, r.2.2.2)
      | .fail out dropFlag reason =>
          let ts := clk n
          let ev := mkValueChange "parsing_failure" (rowIds.getD idx .null) name
            (some (pyStrCell c)) none reason sect ts
          let drops2 := if dropFlag then insertIdx idx drops else drops
          let r := parseColGo step name sect rowIds clk rest (idx + 1) (n + 1) drops2
          (out :: r.1, ev :: r.2.1, r.2.2.1, r.2.2.2)

/-- Process a sorted list of declared columns of one type. -/
def parseCols (step : Cell → ParseOut) (sect : String) (dtypeOut : DType)
    (rowIds : List Cell) (clk : ClockT) :
    List String → Table → Nat → List Nat → Table × List Event × List Nat × Nat
  | [], df, n, drops => (df, [], drops, n)
  | name :: rest, df, n, drops =>
      let r := parseColGo step name sect rowIds clk (colCells df name) 0 n drops
      let df2 := setColumn df name dtypeOut r.1
      let r2 := parseCols step sect dtypeOut rowIds clk rest df2 r.2.2.2 r.2.2.1
      (r2.1, r.2.1 ++ r2.2.1, r2.2.2.1, r2.2.2.2)

def numRows (t : Table) : Nat :=
  match t with
  | [] => 0
  | c :: _ => c.cells.length

/-- Apply the accumulated row drops once, after all columns: one
`row_dropped` event per dropped row (keyed by its original `_row_id`
value), all sharing one clock tick, then remove those rows from every
column. -/
def parsingDropPhase (df : Table) (rowIds : List Cell) (clk : ClockT)
    (drops : List Nat) (n : Nat) : Table × List Event × Nat :=
  if drops.isEmpty then (df, [], n)
  else
    let ts := clk n
    let evs := drops.map fun i =>
      mkValueChange "row_dropped" (rowIds.getD i .null) "__row__"
        (some "row_present".toList) none "parsing_on_failure_drop_row"
        "parsing.on_failure.drop_row" ts
    let keep := (List.range (numRows df)).map fun i => ! drops.contains i
    (filterRows df keep, evs, n + 1)

/-- Declared columns of the given type tags, present in the table and not
protected, in Python `sorted` order. -/
def declaredCols (p : Policy) (df : Table) (tags : List String) : List String :=
  sortStrs ((p.parsing.column_types.filter fun pr =>
    tags.contains pr.2 ∧ hasColumn df pr.1 ∧ ¬ p.roles.protected_columns.contains pr.1).map
      Prod.fst)

/-- `apply_parsing`: boolean, numeric and datetime sections in order, then
the single batched row-drop. -/
def apply_parsing (df0 : Table) (p : Policy) (clock : Option ClockT) (env : ClockT)
    (n : Nat) : Table × List Event × Nat :=
  let clk := clock.getD env
  let rowIds := colCells df0 "_row_id"
  let bcfg := p.parsing.boolean
  let ncfg := p.parsing.numeric
  let dcfg := p.parsing.datetime
  let boolCols := declaredCols p df0 ["boolean"]
  let numCols := declaredCols p df0 ["numeric", "integer", "float"]
  let dtCols := declaredCols p df0 ["datetime", "date", "timestamp"]
  let boolDtype := if bcfg.on_failure = "keep_raw" then DType.object else DType.boolean
  let numDtype := if ncfg.on_failure = "keep_raw" then DType.object else DType.float64
  let dtDtype := if dcfg.on_failure = "keep_raw" then DType.object else DType.datetime64
  let rb := parseCols (booleanCellStep bcfg) "parsing.boolean" boolDtype rowIds clk
    boolCols df0 n []
  let rn := parseCols (numericCellStep ncfg) "parsing.numeric" numDtype rowIds clk
    numCols rb.1 rb.2.2.2 rb.2.2.1
  let rd := parseCols (datetimeCellStep dcfg) "parsing.datetime" dtDtype rowIds clk
    dtCols rn.1 rn.2.2.2 rn.2.2.1
  let dr := parsingDropPhase rd.1 rowIds clk rd.2.2.1 rd.2.2.2
  (dr.1, rb.2.1 ++ rn.2.1 ++ rd.2.1 ++ dr.2.1, dr.2.2)

/-! ## ValidityEnforcer (validity.py) -/

/-- pandas `series < x` entrywise on a numeric-dtype column (null compares
false, `-inf` is below every finite bound). -/
def cellLtQ (c : Cell) (x : ℚ) : Bool :=
  match c with
  | .num q => q < x
  | .inf neg => neg
  | _ => false

def cellGtQ (c : Cell) (x : ℚ) : Bool :=
  match c with
  | .num q => x < q
  | .inf neg => ¬ neg
  | _ => false

/-- Python `str()` of a policy-file number (YAML integers print without a
decimal point, floats as their decimal form). -/
def pyNumLit (q : ℚ) : List Char :=
  if q.den = 1 then
    (if q < 0 then '-' :: natDigits q.num.natAbs else natDigits q.num.natAbs)
  else ratToPyStr q

def natStr (n : Nat) : String := String.mk (natDigits n)

/-- Deduplicate preserving first occurrence (Python `set(...)` over the
rule's column list, modelled with insertion iteration order). -/
def dedupStrsGo (seen : List String) : List String → List String
  | [] => []
  | x :: rest =>
      if seen.contains x then dedupStrsGo seen rest
      else x :: dedupStrsGo (x :: seen) rest

def dedupStrs (l : List String) : List String := dedupStrsGo [] l

/-- `_handle_violation`: one aggregate event per violated rule group, then
apply the action (`drop_row` accumulates, `null` blanks the masked cells,
`flag` only logs).  Only the regex call site passes the clock through, so
the other rule groups always carry a `None` timestamp. -/
def handleViolation (df : Table) (mask : List Bool) (col : String)
    (reasonCode message action : String) (drops : List Bool)
    (clockArg : Option ClockT) (n : Nat) :
    Table × List Bool × List Event × Nat :=
  let count := maskCount mask
  if count = 0 then (df, drops, [], n)
  else
    let tsn : Option String × Nat :=
      match clockArg with
      | some c => (some (c n), n + 1)
      | none => (none, n)
    let ev : Event :=
      { event_type := "validity_" ++ action, column := some col,
        reason := reasonCode ++ ": " ++ message ++ " (" ++ natStr count ++ " rows)",
        policy_section := "validity_rules", timestamp := tsn.1,
        violation_count := some count }
    let df2 :=
      if action = "null" then
        match getColumn df col with
        | some c =>
            setColumn df col c.dtype
              (((c.cells.zip mask).map fun p => if p.2 then Cell.null else p.1))
        | none => df
      else df
    let drops2 := if action = "drop_row" then maskOr drops mask else drops
    (df2, drops2, [ev], tsn.2)

/-- State threaded through the validity rule groups. -/
structure VState where
  df : Table
  drops : List Bool
  evs : List Event
  n : Nat

def vstep (st : VState) (col : String) (mask : List Bool)
    (reasonCode message action : String) (clockArg : Option ClockT) : VState :=
  if ¬ maskAny mask then st
  else
    let r := handleViolation st.df mask col reasonCode message action st.drops clockArg st.n
    { df := r.1, drops := r.2.1, evs := st.evs ++ r.2.2.1, n := r.2.2.2 }

/-- `apply_validity`: non-negative columns, ranges (min then max), allowed
values, regex patterns, then the single batched row drop with one
`validity_drop` aggregate event. -/
def apply_validity (df0 : Table) (p : Policy) (clock : Option ClockT) (n0 : Nat) :
    Table × List Event × Nat :=
  let rules := p.validity_rules
  if ¬ rules.enabled then (df0, [], n0)
  else
    let action := rules.on_violation
    let st0 : VState :=
      { df := df0, drops := List.replicate (numRows df0) false, evs := [], n := n0 }
    let st1 := (dedupStrs rules.non_negative_columns).foldl (fun st col =>
      match getColumn st.df col with
      | none => st
      | some c =>
          if ¬ isNumericDtype c.dtype then st
          else vstep st col (c.cells.map (fun x => cellLtQ x 0)) "non_negative"
            "Value must be >= 0" action none) st0
    let st2 := rules.ranges.foldl (fun st pr =>
      match getColumn st.df pr.1 with
      | none => st
      | some c =>
          if ¬ isNumericDtype c.dtype then st
          else
            let stA :=
              match pr.2.min with
              | some mn => vstep st pr.1 (c.cells.map (fun x => cellLtQ x mn)) "range_min"
                  ("Value < " ++ String.mk (pyNumLit mn)) action none
              | none => st
            match pr.2.max with
            | some mx =>
                match getColumn stA.df pr.1 with
                | some c2 => vstep stA pr.1 (c2.cells.map (fun x => cellGtQ x mx)) "range_max"
                    ("Value > " ++ String.mk (pyNumLit mx)) action none
                | none => stA
            | none => stA) st1
    let st3 := rules.allowed_values.foldl (fun st pr =>
      match getColumn st.df pr.1 with
      | none => st
      | some c =>
          let mask := c.cells.map fun x => decide (x ≠ Cell.null) && ! pr.2.contains x
          vstep st pr.1 mask "allowed_values" "Value not in allowed list" action none) st2
    let st4 := rules.regex.foldl (fun st pr =>
      match getColumn st.df pr.1 with
      | none => st
      | some c =>
          let mask := c.cells.map fun x => decide (x ≠ Cell.null) && ! pr.2.2 (pyStrCell x)
          vstep st pr.1 mask "regex_mismatch"
            ("Value does not match pattern " ++ "\x27" ++ pr.2.1 ++ "\x27") action clock) st3
    if maskAny st4.drops then
      let dropCount := maskCount st4.drops
      let tsn : Option String × Nat :=
        match clock with
        | some c => (some (c st4.n), st4.n + 1)
        | none => (none, st4.n)
      let ev : Event :=
        { event_type := "validity_drop",
          reason := "Dropped " ++ natStr dropCount ++ " rows due to validity violations",
          policy_section := "validity_rules", timestamp := tsn.1,
          count := some dropCount }
      (filterRows st4.df (st4.drops.map not), st4.evs ++ [ev], tsn.2)
    else (st4.df, st4.evs, st4.n)

/-! ## MissingHandler (missing.py) -/

def rowIdAt (rowIds : List Cell) (i : Nat) : Cell := rowIds.getD i .null

/-- `drop_critical_missing`: remove every row with an effectively-missing
value in any critical column, auditing each dropped row individually. -/
def drop_critical_missing (df : Table) (p : Policy) (clock : Option ClockT)
    (env : ClockT) (n : Nat) : Table × List Event × Nat :=
  let mc := p.missing_data
  if ¬ mc.enabled ∨ ¬ mc.drop_if_missing_critical then (df, [], n)
  else
    let crit := sortStrs p.roles.critical_columns
    if crit.isEmpty then (df, [], n)
    else
      let mask := crit.foldl (fun m col =>
        match getColumn df col with
        | some c => maskOr m (c.cells.map is_effectively_missing)
        | none => m) (List.replicate (numRows df) false)
      if ¬ maskAny mask then (df, [], n)
      else
        let clk := clock.getD env
        let ts := clk n
        let rowIds := colCells df "_row_id"
        let evs := (maskIdxs mask).map fun i =>
          mkValueChange "row_dropped" (rowIdAt rowIds i) "__row__"
            (some "row_present".toList) none "missing_critical_column"
            "missing_data.drop_if_missing_critical" ts
        (filterRows df (mask.map not), evs, n + 1)

/-! ### Imputation helpers -/

def numericTypeTags : List String := ["numeric", "integer", "float"]
def datetimeTypeTags : List String := ["datetime", "date", "timestamp"]

/-- Bucket membership of a column: a nonempty policy type tag decides,
otherwise the pandas dtype does; protected columns and `_row_id` are never
eligible. -/
def inBucket (p : Policy) (df : Table) (bucket : String) (col : String) : Bool :=
  if p.roles.protected_columns.contains col ∨ col = "_row_id" then false
  else
    match (alistGet p.parsing.column_types col).bind
        (fun t => if t = "" then none else some t) with
    | some typ =>
        if bucket = "numeric" then numericTypeTags.contains typ
        else if bucket = "datetime" then datetimeTypeTags.contains typ
        else if bucket = "categorical" then
          ¬ numericTypeTags.contains typ ∧ ¬ datetimeTypeTags.contains typ ∧ typ ≠ "boolean"
        else false
    | none =>
        match colDtype df col with
        | some dt =>
            if bucket = "numeric" then isNumericDtype dt
            else if bucket = "datetime" then isDatetimeDtype dt
            else if bucket = "categorical" then ¬ isNumericDtype dt ∧ ¬ isDatetimeDtype dt
            else false
        | none => false

def bucketCols (p : Policy) (df : Table) (bucket : String) : List String :=
  sortStrs ((colNames df).filter (inBucket p df bucket))

def nonNullCells (cells : List Cell) : List Cell := cells.filter (· ≠ Cell.null)

/-- pandas `Series.mean()` on a float column (skips NaN, propagates
infinities; an empty or `inf - inf` mean is NaN, modelled as `none`). -/
def cellMean (cells : List Cell) : Option Cell :=
  let vals := nonNullCells cells
  if vals.isEmpty then none
  else
    let hasP := vals.contains (Cell.inf false)
    let hasN := vals.contains (Cell.inf true)
    if hasP ∧ hasN then none
    else if hasP then some (.inf false)
    else if hasN then some (.inf true)
    else
      let qs := vals.filterMap fun c => match c with | .num q => some q | _ => none
      if qs.isEmpty then none else some (.num (qs.sum / (qs.length : ℚ)))

/-- Total order used to model the stable value ordering of pandas
(`mode()` returns values sorted ascending; ties in `median` sorting).
Across heterogeneous cell kinds the constructor rank decides (pandas would
raise there; no claim depends on mixed-kind columns). -/
def cellRank : Cell → Nat
  | .null => 0
  | .inf true => 1
  | .bool _ => 2
  | .num _ => 3
  | .dt _ => 4
  | .str _ => 5
  | .inf false => 6

def cellLeB (a b : Cell) : Bool :=
  match a, b with
  | .num q, .num r => q ≤ r
  | .str s, .str t => s.map Char.toNat ≤ t.map Char.toNat
  | .bool x, .bool y => x ≤ y
  | .dt v, .dt w => v ≤ w
  | x, y => cellRank x ≤ cellRank y

/-- pandas `Series.median()` (skips NaN; infinities sort to the extremes;
a NaN result — empty input or `inf` cancellation — is `none`). -/
def cellMedian (cells : List Cell) : Option Cell :=
  let vals := sortLe cellLeB (nonNullCells cells)
  let len := vals.length
  if len = 0 then none
  else if len % 2 = 1 then vals.get? (len / 2)
  else
    match vals.get? (len / 2 - 1), vals.get? (len / 2) with
    | some (.num a), some (.num b) => some (.num ((a + b) / 2))
    | some (.inf true), some (.inf false) => none
    | some (.inf s), some (.inf t) => if s = t then some (.inf s) else none
    | some (.inf s), some (.num _) => some (.inf s)
    | some (.num _), some (.inf s) => some (.inf s)
    | _, _ => none

/-- pandas `mode()` tie-break: the smallest most-frequent value. -/
def cellModeList (vals : List Cell) : Option Cell :=
  match vals with
  | [] => none
  | _ =>
      let counts := vals.map fun v => (v, (vals.filter (· = v)).length)
      let maxCount := (counts.map Prod.snd).foldl max 0
      let cands := (counts.filter fun p => p.2 = maxCount).map Prod.fst
      (sortLe cellLeB cands).head?

/-- `pd.Timestamp(literal)` for datetime constant fills (modelled with the
same permissive text fragment as the fallback parser; `Z` is already UTC). -/
def pdTimestampParse (s : List Char) : Option Nat := parseDtText false s

/-- State threaded through the imputation loop. -/
structure IState where
  df : Table
  evs : List Event
  n : Nat

/-- Impute one eligible column of one bucket. -/
def imputeColumn (bucket : String) (cfg : BucketCfg) (rowIds : List Cell)
    (clk : ClockT) (st : IState) (col : String) : IState :=
  match getColumn st.df col with
  | none => st
  | some c =>
      let s := c.cells
      let missingMask := s.map is_effectively_missing
      if ¬ maskAny missingMask then st
      else
        let missingPct : ℚ := (maskCount missingMask : ℚ) / (s.length : ℚ)
        if cfg.allow_if_missing_pct_leq < missingPct then
          let ev : Event :=
            { event_type := "imputation_skipped_threshold", column := some col,
              reason := "missing_pct_" ++ String.mk (format4 missingPct) ++ "_gt_" ++
                String.mk (format4 cfg.allow_if_missing_pct_leq),
              policy_section := "missing_data.imputation." ++ bucket,
              timestamp := some (clk st.n) }
          { st with evs := st.evs ++ [ev], n := st.n + 1 }
        else
          let constantVal := alistGet cfg.constants col
          let sf : Option (String × Option Cell) :=
            match constantVal with
            | some cv => some ("constant", some cv)
            | none =>
                if cfg.default = "mean" ∧ isNumericDtype c.dtype then
                  some ("mean", cellMean s)
                else if cfg.default = "median" ∧ isNumericDtype c.dtype then
                  some ("median", cellMedian s)
                else if cfg.default = "mode" ∧ bucket = "categorical" then
                  some ("mode",
                    cellModeList (((s.zip missingMask).filter (fun p => ¬ p.2)).map Prod.fst))
                else none
          match sf with
          | none => st
          | some (strategy, fillOpt) =>
              match fillOpt with
              | none => st
              | some fill0 =>
                  let fill :=
                    match fill0 with
                    | .str fs =>
                        if isDatetimeDtype c.dtype then
                          match pdTimestampParse fs with
                          | some v => Cell.dt v
                          | none => fill0
                        else fill0
                    | f => f
                  let ts := clk st.n
                  let newCells := (s.zip missingMask).map fun p => if p.2 then fill else p.1
                  let evs := (maskIdxs missingMask).map fun i =>
                    mkValueChange "imputation_fill" (rowIdAt rowIds i) col
                      (match s.getD i .null with
                        | .null => none
                        | old => some (pyStrCell old))
                      (some (pyStrCell fill)) ("imputation_" ++ strategy)
                      ("missing_data.imputation." ++ bucket) ts
                  { df := setColumn st.df col c.dtype newCells,
                    evs := st.evs ++ evs, n := st.n + 1 }

/-- One bucket of the imputation loop: skipped when unconfigured
(`not cfg or (default none and no constants)`), else folded over the
bucket's sorted eligible columns. -/
def runBucket (p : Policy) (rowIds : List Cell) (clk : ClockT) (st : IState)
    (pr : String × Option BucketCfg) : IState :=
  match pr.2 with
  | none => st
  | some cfg =>
      if cfg.default = "none" ∧ cfg.constants.isEmpty then st
      else (bucketCols p st.df pr.1).foldl (imputeColumn pr.1 cfg rowIds clk) st

/-- `apply_imputation`: buckets in the source's dictionary order (numeric,
datetime, categorical), each over its sorted eligible columns. -/
def apply_imputation (df0 : Table) (p : Policy) (clock : Option ClockT)
    (env : ClockT) (n0 : Nat) : Table × List Event × Nat :=
  let mc := p.missing_data
  if ¬ mc.enabled then (df0, [], n0)
  else
    match mc.imputation with
    | none => (df0, [], n0)
    | some impute =>
        let clk := clock.getD env
        let rowIds := colCells df0 "_row_id"
        let stF := [("numeric", impute.numeric), ("datetime", impute.datetime),
          ("categorical", impute.categorical)].foldl (runBucket p rowIds clk)
          { df := df0, evs := [], n := n0 }
        (stF.df, stF.evs, stF.n)

/-! ## CorrectionPipeline (pipeline.py) -/

/-- `run_correction_pipeline`: the five phases in fixed order.  The
`_require_row_id` precondition of the phases is modelled once at entry
(`none` models the raised `ValueError`; phases never remove columns, so the
checks inside later phases cannot fire independently). -/
def run_correction_pipeline (df : Table) (p : Policy) (clock : Option ClockT)
    (env : ClockT) (n : Nat) : Option (Table × List Event × Nat) :=
  if ¬ hasColumn df "_row_id" then none
  else
    let s1 := apply_standardization df p clock env n
    let s2 := apply_parsing s1.1 p clock env s1.2.2
    let s3 := apply_validity s2.1 p clock s2.2.2
    let s4 := drop_critical_missing s3.1 p clock env s3.2.2
    let s5 := apply_imputation s4.1 p clock env s4.2.2
    some (s5.1, s1.2.1 ++ s2.2.1 ++ s3.2.1 ++ s4.2.1 ++ s5.2.1, s5.2.2)

/-! ## AuditSink (audit.py) -/

/-- The aggregation key `(event_type, column, reason)`; a missing column
aggregates under the empty string. -/
def aggKey (e : Event) : String × String × String :=
  (e.event_type, e.column.getD "", e.reason)

structure AggEntry where
  key : String × String × String
  count : Nat
  samples : List Event
deriving DecidableEq, Repr

/-- One record of the JSON-lines audit stream. -/
inductive Record where
  | ev (e : Event)
  | agg (event_type column reason : String) (count : Nat) (samples : List Event)
  | jobSummary (detail : String) (total_events : Nat)
      (event_type_counts : List (String × Nat)) (unique_columns_touched : Nat)
      (timestamp_start timestamp_end : Option String)
      (job_context : List (String × String))
deriving DecidableEq, Repr

/-- The logger's mutable state: output lines written so far, the running
aggregate (insertion-ordered, as a Python dict), the observed event time
window, the job context, and the open/sealed flag. -/
structure AuditState where
  detail : String
  opened : Bool := true
  lines : List Record := []
  aggs : List AggEntry := []
  timestamp_start : Option String := none
  timestamp_end : Option String := none
  context : List (String × String) := []
deriving DecidableEq, Repr

def mkAuditState (detail : String) (ctx : List (String × String)) : AuditState :=
  { detail := detail, context := ctx }

/-- `_aggregate`: bump the key's count and append to its sample list while
under the 25-sample cap. -/
def aggregate (aggs : List AggEntry) (e : Event) : List AggEntry :=
  if (aggs.find? (fun a => a.key = aggKey e)).isSome then
    aggs.map fun a =>
      if a.key = aggKey e then
        { a with
          count := a.count + 1
          samples := if a.samples.length < 25 then a.samples ++ [e] else a.samples }
      else a
  else aggs ++ [{ key := aggKey e, count := 1, samples := [e] }]

/-- `AuditLogger.log` for events carrying the four mandatory keys (the
modelled `Event` structure always does, so the `ValueError` path cannot
fire): track the event time window, aggregate always, and additionally
write the raw event in detailed mode while the file is open. -/
def logEvent (st : AuditState) (e : Event) : AuditState :=
  let st2 :=
    { st with
      timestamp_start :=
        if st.timestamp_start.isNone then e.timestamp else st.timestamp_start
      timestamp_end := e.timestamp
      aggs := aggregate st.aggs e }
  if st.detail = "detailed" ∧ st.opened then { st2 with lines := st2.lines ++ [.ev e] }
  else st2

def strLeB (a b : String) : Bool := a < b ∨ a = b

def keyLeB (a b : String × String × String) : Bool :=
  a.1 < b.1 ∨ (a.1 = b.1 ∧ (a.2.1 < b.2.1 ∨ (a.2.1 = b.2.1 ∧ strLeB a.2.2 b.2.2)))

def pairLeB (a b : String × Nat) : Bool := strLeB a.1 b.1

def ctxLeB (a b : String × String) : Bool := strLeB a.1 b.1

/-- Per-event-type totals, accumulated over the aggregate in insertion
order and then sorted by key (`dict(sorted(by_event_type.items()))`). -/
def byEventTypeCounts (aggs : List AggEntry) : List (String × Nat) :=
  let raw := aggs.foldl (fun acc a =>
    if (acc.find? (fun p => p.1 = a.key.1)).isSome then
      acc.map fun p => if p.1 = a.key.1 then (p.1, p.2 + a.count) else p
    else acc ++ [(a.key.1, a.count)]) ([] : List (String × Nat))
  sortLe pairLeB raw

/-- Distinct non-synthetic touched columns: every aggregate key's column
except `None`, the empty string and the `__row__` sentinel. -/
def touchedColumns (aggs : List AggEntry) : List String :=
  dedupStrs ((aggs.map (fun a => a.key.2.1)).filter fun c => c ≠ "" ∧ c ≠ "__row__")

/-- `AuditLogger.close`: a no-op when already sealed; otherwise write the
per-group aggregates (summary mode only, sorted by key), then the single
job-summary footer built from the full aggregate, and mark the logger
sealed. -/
def closeAudit (st : AuditState) : AuditState :=
  if ¬ st.opened then st
  else
    let sortedAggs := sortLe (fun a b => keyLeB a.key b.key) st.aggs
    let aggRecords :=
      if st.detail = "summary" then
        sortedAggs.map fun a => Record.agg a.key.1 a.key.2.1 a.key.2.2 a.count a.samples
      else []
    let total := (st.aggs.map AggEntry.count).sum
    let footer := Record.jobSummary st.detail total (byEventTypeCounts st.aggs)
      (touchedColumns st.aggs).length st.timestamp_start st.timestamp_end
      (sortLe ctxLeB st.context)
    { st with lines := st.lines ++ aggRecords ++ [footer], opened := false }

def isJobSummary : Record → Bool
  | .jobSummary _ _ _ _ _ _ _ => true
  | _ => false

def recTotalEvents : Record → Option Nat
  | .jobSummary _ t _ _ _ _ _ => some t
  | _ => none

def recColumnsTouched : Record → Option Nat
  | .jobSummary _ _ _ u _ _ _ => some u
  | _ => none

/-- Complete audit stream of a run: log every event in order into a fresh
logger, then seal it. -/
def auditRun (detail : String) (ctx : List (String × String)) (evs : List Event) :
    AuditState :=
  closeAudit (evs.foldl logEvent (mkAuditState detail ctx))

/-- Deterministic serialisations (the JSON-lines writer uses
`json.dumps(..., sort_keys=True)` on each record; any injective rendering
witnesses byte-level equality, so the derived `Repr` is used). -/
def serializeTable (t : Table) : String := reprStr t

def serializeAuditLines (l : List Record) : String := reprStr l

/-! ## ReadinessScorer (scoring/readiness.py) -/

/-- Per-column profile statistics, as read by the scorer.  An absent
`invalid_type_pct` key models a column without a declared target type (the
profiler emits `None` exactly then). -/
structure ColStats where
  role : Option String := none
  effective_missing_pct : ℚ := 0
  invalid_type_pct : Option ℚ := none
  is_mixed_type : Bool := false
deriving DecidableEq, Repr

structure DupStats where
  exact_row_dupe_count : Nat := 0
  pk_dupe_count : Option Nat := none
deriving DecidableEq, Repr

structure Profile where
  columns : List (String × ColStats) := []
  row_count : Nat := 0
  duplicates : DupStats := {}
deriving DecidableEq, Repr

structure ScoreResult where
  score : ℚ
  completeness : ℚ
  validity : ℚ
  uniqueness : ℚ
  consistency : ℚ
deriving DecidableEq, Repr

/-- `calculate_readiness_score`, transcribed from the source. -/
def calculate_readiness_score (profile : Profile) : ScoreResult :=
  if profile.row_count = 0 then
    { score := 0, completeness := 0, validity := 0, uniqueness := 0, consistency := 0 }
  else
    let cols := profile.columns
    let compWeight : ColStats → ℚ := fun st => if st.role = some "critical" then 2 else 1
    let compTotalWeight := (cols.map fun pr => compWeight pr.2).sum
    let compWeightedSum := (cols.map fun pr => (1 - pr.2.effective_missing_pct) * compWeight pr.2).sum
    let completeness := if 0 < compTotalWeight then compWeightedSum / compTotalWeight else 1
    let validCols := cols.filter fun pr => pr.2.invalid_type_pct.isSome
    let validSum := (validCols.map fun pr => 1 - pr.2.invalid_type_pct.getD 0).sum
    let validity := if 0 < validCols.length then validSum / (validCols.length : ℚ) else 1
    let rc : ℚ := (profile.row_count : ℚ)
    let exactDupePct := (profile.duplicates.exact_row_dupe_count : ℚ) / rc
    let uniqueness :=
      match profile.duplicates.pk_dupe_count with
      | some pk => 1 - max exactDupePct ((pk : ℚ) / rc)
      | none => 1 - exactDupePct
    let mixedCount := (cols.filter fun pr => pr.2.is_mixed_type).length
    let consistency :=
      if 0 < cols.length then 1 - (mixedCount : ℚ) / (cols.length : ℚ) else 1
    let base := completeness * 40 + validity * 30 + uniqueness * 20 + consistency * 10
    let hasCriticalIssue := cols.any fun pr =>
      pr.2.role == some "critical" &&
        (decide (0 < pr.2.effective_missing_pct) ||
          (match pr.2.invalid_type_pct with
            | some v => decide (0 < v)
            | none => false))
    let final0 := if hasCriticalIssue then base - 10 else base
    let final := max 0 (min 100 final0)
    { score := pyRound2 final,
      completeness := pyRound2 (completeness * 40),
      validity := pyRound2 (validity * 30),
      uniqueness := pyRound2 (uniqueness * 20),
      consistency := pyRound2 (consistency * 10) }

/-- The readiness formula as the specification states it, written
independently of the source: score = 40·completeness + 30·validity +
20·uniqueness + 10·consistency, minus a flat 10-point penalty if any
critical column has nonzero effective-missing or invalid-type ratio,
clamped to [0, 100] and rounded to 2 decimals; completeness weights
critical columns twice, validity averages only columns that declare a
target type, uniqueness is one minus the larger duplicate ratio,
consistency is the fraction of columns that are not mixed-type.  (Empty
averages default to 1, matching the profiler's conventions.) -/
def spec_readiness_formula (profile : Profile) : ScoreResult :=
  let cols := profile.columns
  let rc : ℚ := (profile.row_count : ℚ)
  let weightOf : ColStats → ℚ := fun st => if st.role = some "critical" then 2 else 1
  let completeness :=
    if cols.isEmpty then 1
    else (cols.map fun pr => weightOf pr.2 * (1 - pr.2.effective_missing_pct)).sum /
      (cols.map fun pr => weightOf pr.2).sum
  let typedCols := cols.filter fun pr => pr.2.invalid_type_pct.isSome
  let validity :=
    if typedCols.isEmpty then 1
    else (typedCols.map fun pr => 1 - pr.2.invalid_type_pct.getD 0).sum /
      (typedCols.length : ℚ)
  let dupRatio :=
    match profile.duplicates.pk_dupe_count with
    | some pk => max ((profile.duplicates.exact_row_dupe_count : ℚ) / rc) ((pk : ℚ) / rc)
    | none => (profile.duplicates.exact_row_dupe_count : ℚ) / rc
  let uniqueness := 1 - dupRatio
  let consistency :=
    if cols.isEmpty then 1
    else ((cols.filter fun pr => ¬ pr.2.is_mixed_type).length : ℚ) / (cols.length : ℚ)
  let penalty : ℚ :=
    if cols.any (fun pr => pr.2.role = some "critical" ∧
        (0 < pr.2.effective_missing_pct ∨ 0 < pr.2.invalid_type_pct.getD 0)) then 10 else 0
  let raw := 40 * completeness + 30 * validity + 20 * uniqueness + 10 * consistency - penalty
  { score := pyRound2 (max 0 (min 100 raw)),
    completeness := pyRound2 (40 * completeness),
    validity := pyRound2 (30 * validity),
    uniqueness := pyRound2 (20 * uniqueness),
    consistency := pyRound2 (10 * consistency) }

/-! ## Derived notions used by the verified properties -/

/-- A table as pandas produces it: uniform column lengths and unique column
names. -/
def Wellformed (t : Table) : Prop :=
  (∀ c ∈ t, c.cells.length = numRows t) ∧ (colNames t).Nodup

instance (t : Table) : Decidable (Wellformed t) := by
  unfold Wellformed; infer_instance

/-- Effective-missing ratio of a column (`missing_mask.mean()`). -/
def missingRatio (df : Table) (col : String) : ℚ :=
  let cells := colCells df col
  ((cells.filter is_effectively_missing).length : ℚ) / (cells.length : ℚ)

/-- Two tables with the same column names and dtypes (cells may differ);
imputation preserves this shape, and bucket eligibility sees only it. -/
def ShapeEq (t₁ t₂ : Table) : Prop :=
  colNames t₁ = colNames t₂ ∧ ∀ x, colDtype t₁ x = colDtype t₂ x

/-- Rationals with a terminating decimal expansion — exactly the values
numeric parsing can produce. -/
def IsDec (q : ℚ) : Prop := ∃ k : ℕ, (q.den : ℕ) ∣ 10 ^ k

/-- Distinct non-synthetic column names among a run's events (order of
first occurrence). -/
def distinctTouched (evs : List Event) : Nat :=
  (dedupStrs ((evs.map fun e => e.column.getD "").filter
    fun c => c ≠ "" ∧ c ≠ "__row__")).length

/-- The bucket list exactly as `apply_imputation` iterates it. -/
def bucketList (imp : ImputeCfg) : List (String × Option BucketCfg) :=
  [("numeric", imp.numeric), ("datetime", imp.datetime), ("categorical", imp.categorical)]

/-! ## Concrete fixtures (tables, policies, clocks) for witnesses and
counterexamples -/

/-- A constant injected logical clock, as the repository's tests use. -/
def fixedClock : ClockT := fun _ => "2026-01-01T00:00:00+00:00"

/-- A distinct environment wall clock (only consulted when no logical clock
is injected). -/
def wallClockA : ClockT := fun n => "wallA-" ++ natStr n
def wallClockB : ClockT := fun n => "wallB-" ++ natStr n

/-- Threshold-gate fixture: a numeric column, 50% effectively missing. -/
def thresholdDf : Table :=
  [ { name := "_row_id", dtype := .int64, cells := [.num 1, .num 2, .num 3, .num 4] },
    { name := "val", dtype := .float64, cells := [.num 10, .null, .null, .num 40] } ]

def thresholdPolicy : Policy :=
  { roles := { critical_columns := ["_row_id"] }
    parsing := { column_types := [("val", "numeric")] }
    missing_data :=
      { imputation := some
          { numeric := some { default := "mean", allow_if_missing_pct_leq := 1/4 } } } }

/-- The fixture's imputation policy objects, named for the C3 witness. -/
def thrCfg : BucketCfg := { default := "mean", allow_if_missing_pct_leq := 1/4 }

def thrImp : ImputeCfg := { numeric := some thrCfg }

/-- Protected-column fixture: a validity rule targets the protected numeric
column `score` with the `null` action. -/
def protectedDf : Table :=
  [ { name := "_row_id", dtype := .int64, cells := [.num 1] },
    { name := "score", dtype := .float64, cells := [.num (-5)] } ]

def protectedPolicy : Policy :=
  { roles := { protected_columns := ["score"] }
    validity_rules := { non_negative_columns := ["score"], on_violation := "null" } }

/-- Idempotence counterexample fixture: parsing leaves the column 50%
missing, mean imputation is gated at 25%, so the threshold-skip event
recurs on every run. -/
def idemDf : Table :=
  [ { name := "_row_id", dtype := .int64, cells := [.num 1, .num 2, .num 3, .num 4] },
    { name := "v", dtype := .object,
      cells := [.str "1".toList, .str "2".toList, .str "".toList, .str "".toList] } ]

def idemPolicy : Policy :=
  { parsing := { column_types := [("v", "numeric")] }
    missing_data :=
      { imputation := some
          { numeric := some { default := "mean", allow_if_missing_pct_leq := 1/4 } } } }

/-- Critical-column imputation fixture: the critical column `a` has a
missing cell and the critical-row drop is disabled. -/
def criticalDf : Table :=
  [ { name := "_row_id", dtype := .int64, cells := [.num 1, .num 2] },
    { name := "a", dtype := .float64, cells := [.null, .num 3] } ]

def criticalPolicy : Policy :=
  { roles := { critical_columns := ["a"] }
    missing_data := { drop_if_missing_critical := false
                      imputation := some { numeric := some { default := "mean" } } } }

/-- A policy protecting column `a` while mean-imputation is configured,
for the C8 amended-claim witness. -/
def protImpPolicy : Policy :=
  { roles := { protected_columns := ["a"] }
    missing_data := { drop_if_missing_critical := false
                      imputation := some { numeric := some { default := "mean" } } } }

/-- Batched-drop fixture: two drop-mode columns fail on overlapping rows. -/
def dropDf : Table :=
  [ { name := "_row_id", dtype := .int64, cells := [.num 10, .num 20, .num 30] },
    { name := "a", dtype := .object,
      cells := [.str "x".toList, .str "1".toList, .str "2".toList] },
    { name := "b", dtype := .object,
      cells := [.str "yes".toList, .str "zz".toList, .str "no".toList] } ]

def dropPolicy : Policy :=
  { parsing := { column_types := [("a", "numeric"), ("b", "boolean")]
                 numeric := { on_failure := "drop_row" }
                 boolean := { true_values := ["yes".toList]
                              false_values := ["no".toList]
                              on_failure := "drop_row" } }
    missing_data := { enabled := false } }

/-- NaN-token fixture: a literal `NaN` and a `+Inf` spelling in a numeric
column. -/
def nanDf : Table :=
  [ { name := "_row_id", dtype := .int64, cells := [.num 1, .num 2] },
    { name := "z", dtype := .object, cells := [.str "NaN".toList, .str "+Inf".toList] } ]

def nanPolicy : Policy :=
  { parsing := { column_types := [("z", "numeric")] }
    missing_data := { enabled := false } }

/-- A flawless profile: no missingness, no invalid values, no duplicates,
no mixed-type columns. -/
def perfectProfile : Profile :=
  { columns := [("id", { role := some "critical", invalid_type_pct := some 0 }),
                ("x", { invalid_type_pct := some 0 })]
    row_count := 10
    duplicates := { exact_row_dupe_count := 0, pk_dupe_count := some 0 } }

def zeroRowProfile : Profile := { columns := [("a", {})], row_count := 0 }

/-- Cells a non-keep-raw numeric parse can leave in its output buffer. -/
def CleanCell (c : Cell) : Prop := c = .null ∨ ∃ v, c = .num v ∧ IsDec v

/-- Clean one-row fixture satisfying every side condition of the amended
idempotence theorem. -/
def idemWDf : Table :=
  [ { name := "_row_id", dtype := .int64, cells := [.num 1] },
    { name := "a", dtype := .float64, cells := [.num 2] } ]

def idemWPolicy : Policy :=
  { parsing := { column_types := [("a", "numeric")] }
    missing_data := { enabled := false }
    validity_rules := { enabled := false } }

/-! # Theorems -/

/-- C10: for every profile whose metadata row count is 0 (an absent
`row_count` reads as the `.get` default 0), `calculate_readiness_score`
returns score 0.0 with an all-zero breakdown, without evaluating the
weighted formula — an empty table scores zero, not 100. -/
theorem readiness_zero_rows (p : Profile) (h : p.row_count = 0) :
    calculate_readiness_score p =
      { score := 0, completeness := 0, validity := 0, uniqueness := 0, consistency := 0 } := by
  unfold calculate_readiness_score
  rw [if_pos h]

theorem readiness_zero_rows_witness :
    zeroRowProfile.row_count = 0 ∧
      calculate_readiness_score zeroRowProfile =
        { score := 0, completeness := 0, validity := 0, uniqueness := 0,
          consistency := 0 } :=
  ⟨rfl, readiness_zero_rows zeroRowProfile rfl⟩

unseal Rat.add Rat.mul Rat.inv Rat.sub in
/-- C1 (code bug): the protected-column invariant is broken by the validity
phase.  `apply_validity` never consults the protected set, and the policy
validator only forbids protected columns in standardization mappings and
imputation constants, so a structurally valid policy that puts a validity
rule with the `null` action on a protected column makes the pipeline
replace a protected cell: on `protectedDf` (protected numeric column
`score` holding -5) with `protectedPolicy` (non-negative rule on `score`,
`on_violation = "null"`), the pipeline nulls the protected cell and logs a
`validity_null` event naming the protected column, so the touched-column
count for the run is 1, not 0. -/
theorem protected_column_mutated_by_validity :
    "score" ∈ protectedPolicy.roles.protected_columns ∧
    colCells protectedDf "score" = [Cell.num (-5)] ∧
    (run_correction_pipeline protectedDf protectedPolicy (some fixedClock) wallClockA 0).map
        (fun r => colCells r.1 "score") = some [Cell.null] ∧
    (run_correction_pipeline protectedDf protectedPolicy (some fixedClock) wallClockA 0).map
        (fun r => (r.2.1.map Event.event_type, r.2.1.map Event.column, distinctTouched r.2.1)) =
      some (["validity_null"], [some "score"], 1) := by
  refine ⟨by decide, by decide, by decide, by decide⟩

/-- C9: determinism under an injected fixed logical clock.  The pipeline's
only environmental input is the wall clock, consulted solely when no
logical clock is injected; with `clock = some c` the run, its audit event
stream, the sealed audit lines and the serialized artifacts are the same
function of (table, policy, clock) under any two environments.  (Python
set iteration over `non_negative_columns` is modelled with deterministic
insertion order; the repository's determinism tests rerun in one process,
where that order is fixed.) -/
theorem pipeline_deterministic_under_fixed_clock (df : Table) (p : Policy) (c : ClockT)
    (n : Nat) (detail : String) (ctx : List (String × String)) :
    run_correction_pipeline df p (some c) wallClockA n =
        run_correction_pipeline df p (some c) wallClockB n ∧
      (run_correction_pipeline df p (some c) wallClockA n).map
          (fun r => serializeTable r.1) =
        (run_correction_pipeline df p (some c) wallClockB n).map
          (fun r => serializeTable r.1) ∧
      (run_correction_pipeline df p (some c) wallClockA n).map
          (fun r => serializeAuditLines (auditRun detail ctx r.2.1).lines) =
        (run_correction_pipeline df p (some c) wallClockB n).map
          (fun r => serializeAuditLines (auditRun detail ctx r.2.1).lines) := by
  have henv : ∀ env1 env2 : ClockT,
      run_correction_pipeline df p (some c) env1 n =
        run_correction_pipeline df p (some c) env2 n := by
    intro env1 env2
    unfold run_correction_pipeline apply_standardization apply_parsing
      drop_critical_missing apply_imputation
    rfl
  exact ⟨henv wallClockA wallClockB, by rw [henv wallClockA wallClockB],
    by rw [henv wallClockA wallClockB]⟩

unseal Rat.add Rat.mul Rat.inv Rat.sub in
/-- C2 counterexample: on `idemDf` / `idemPolicy` the second pipeline run
over the first run's own output produces an identical table, but its audit
footer reports `total_events = 1`, not 0 — the `imputation_skipped_threshold`
event recurs on every run while the column stays above its ceiling. -/
theorem idempotence_counterexample :
    (run_correction_pipeline idemDf idemPolicy (some fixedClock) wallClockA 0).bind
        (fun r1 => (run_correction_pipeline r1.1 idemPolicy (some fixedClock) wallClockA
            0).map
          (fun r2 => (decide (r2.1 = r1.1), r2.2.1.map Event.event_type,
            (auditRun "summary" [] r2.2.1).lines.getLast?.bind recTotalEvents))) =
      some (true, ["imputation_skipped_threshold"], some 1) := by
  decide

unseal Rat.add Rat.mul Rat.inv Rat.sub in
/-- C4 counterexample: in a numeric column holding the literal token `NaN`
and the spelling `+Inf`, `apply_parsing` audits a `parsing_failure` only
for `+Inf`; the `NaN` cell is recognised by the effectively-missing
predicate, becomes typed-null, and no failure mode is applied and no
parsing failure is audited for it — contradicting the claim that such
tokens are rejected as audited parse failures. -/
theorem nan_token_counterexample :
    colCells (apply_parsing nanDf nanPolicy (some fixedClock) wallClockA 0).1 "z" =
        [Cell.null, Cell.null] ∧
      (apply_parsing nanDf nanPolicy (some fixedClock) wallClockA 0).2.1.map
          (fun e => (e.event_type, e.old_value)) =
        [("parsing_failure", some "+Inf".toList)] := by
  exact ⟨by decide, by decide⟩

unseal Rat.add Rat.mul Rat.inv Rat.sub in
/-- C8 counterexample: `apply_imputation` does not exclude critical
columns.  On `criticalDf` / `criticalPolicy` (critical numeric column `a`
with a missing cell, critical-row dropping disabled), the imputation phase
fills the missing critical cell with the bucket mean and logs an
`imputation_fill` event for the critical column. -/
theorem critical_imputation_counterexample :
    "a" ∈ criticalPolicy.roles.critical_columns ∧
      colCells criticalDf "a" = [Cell.null, Cell.num 3] ∧
      colCells (apply_imputation criticalDf criticalPolicy (some fixedClock) wallClockA 0).1
          "a" = [Cell.num 3, Cell.num 3] ∧
      (apply_imputation criticalDf criticalPolicy (some fixedClock) wallClockA 0).2.1.map
          (fun e => (e.event_type, e.column)) = [("imputation_fill", some "a")] := by
  exact ⟨by decide, by decide, by decide, by decide⟩

theorem pyRound2_congr {x y : ℚ} (h : x = y) :
    ((roundHalfEven (x * 100) : ℚ)) / 100 = ((roundHalfEven (y * 100) : ℚ)) / 100 := by
  rw [h]

theorem clampQ_congr {x y : ℚ} (h : x = y) :
    max (0:ℚ) (min 100 x) = max 0 (min 100 y) := by rw [h]

theorem weightSumPos (l : List (String × ColStats)) (h : l ≠ []) :
    0 < (l.map fun pr => if pr.2.role = some "critical" then (2:ℚ) else 1).sum := by
  refine List.sum_pos _ ?_ ?_
  · intro x hx
    simp only [List.mem_map] at hx
    obtain ⟨pr, _, rfl⟩ := hx
    split <;> norm_num
  · simpa using h

unseal Rat.add Rat.mul Rat.inv Rat.sub in
set_option maxHeartbeats 2000000 in
/-- C7: for every profile with at least one row, `calculate_readiness_score`
computes exactly the specification formula: 40·completeness +
30·validity + 20·uniqueness + 10·consistency, minus a flat 10-point
penalty when any critical column has nonzero effective-missing or
invalid-type ratio, clamped to [0, 100] and rounded to 2 decimals, with
completeness weighting critical columns twice and validity averaging only
columns that declare a target type; and the flawless `perfectProfile`
scores exactly 100.0 with breakdown (40.00, 30.00, 20.00, 10.00). -/
theorem readiness_score_formula (p : Profile) (h : p.row_count ≠ 0) :
    calculate_readiness_score p = spec_readiness_formula p ∧
      calculate_readiness_score perfectProfile =
        { score := 100, completeness := 40, validity := 30, uniqueness := 20,
          consistency := 10 } := by
  refine ⟨?_, by decide⟩
  unfold calculate_readiness_score spec_readiness_formula
  rw [if_neg h]
  by_cases hc : p.columns = []
  · rcases hpk : p.duplicates.pk_dupe_count with _ | pk <;>
      simp only [hc, hpk] <;> simp <;> constructor <;> (congr 1; ring)
  · have hne : p.columns.isEmpty = false := by
      simpa [List.isEmpty_iff] using hc
    have hw := weightSumPos p.columns hc
    simp only [hne, Bool.false_eq_true, if_false, if_pos hw]
    have hlen : 0 < p.columns.length := List.length_pos.mpr hc
    have hlenQ : ((p.columns.length : ℚ)) ≠ 0 := by positivity
    have hsum : (p.columns.map fun pr => (1 - pr.2.effective_missing_pct) *
          (if pr.2.role = some "critical" then (2:ℚ) else 1)).sum =
        (p.columns.map fun pr => (if pr.2.role = some "critical" then (2:ℚ) else 1) *
          (1 - pr.2.effective_missing_pct)).sum := by
      congr 1
      exact List.map_congr_left (fun pr _ => mul_comm _ _)
    rw [hsum]
    -- consistency: 1 - mixed/len = notMixed/len
    have hsplit := List.length_eq_length_filter_add (l := p.columns)
      (fun pr => pr.2.is_mixed_type)
    have hcons : 1 - ((p.columns.filter fun pr => pr.2.is_mixed_type).length : ℚ) /
          (p.columns.length : ℚ) =
        ((p.columns.filter fun pr => ¬ pr.2.is_mixed_type).length : ℚ) /
          (p.columns.length : ℚ) := by
      have hnot : (p.columns.filter fun pr => ¬ pr.2.is_mixed_type) =
          (p.columns.filter fun pr => ! pr.2.is_mixed_type) := by
        simp
      rw [hnot]
      field_simp
      have := hsplit
      push_cast [this]
      ring
    -- penalty predicate agreement
    have hpen : (p.columns.any fun pr =>
          pr.2.role == some "critical" &&
            (decide (0 < pr.2.effective_missing_pct) ||
              (match pr.2.invalid_type_pct with
                | some v => decide (0 < v)
                | none => false))) =
        (p.columns.any fun pr => decide (pr.2.role = some "critical" ∧
          (0 < pr.2.effective_missing_pct ∨ 0 < pr.2.invalid_type_pct.getD 0))) := by
      congr 1
      funext pr
      rcases hiv : pr.2.invalid_type_pct with _ | v <;>
        by_cases hr : pr.2.role = some "critical" <;>
          simp [hiv, hr, decide_eq_true_eq]
    rw [hpen, hcons]
    by_cases hv : 0 < (p.columns.filter fun pr => pr.2.invalid_type_pct.isSome).length
    · have hv2 : (p.columns.filter fun pr => pr.2.invalid_type_pct.isSome).isEmpty
          = false := by
        cases hfe : (p.columns.filter fun pr => pr.2.invalid_type_pct.isSome) with
        | nil => rw [hfe] at hv; exact absurd hv (by simp)
        | cons a t => simp [hfe]
      rw [if_pos hv]
      simp only [hv2, Bool.false_eq_true, if_false]
      rcases hpk : p.duplicates.pk_dupe_count with _ | pk <;>
        rcases hany : (p.columns.any fun pr => decide (pr.2.role = some "critical" ∧
            (0 < pr.2.effective_missing_pct ∨ 0 < pr.2.invalid_type_pct.getD 0))) <;>
          simp only [hpk, hany, if_true, if_false, Bool.false_eq_true, if_pos hlen,
            sub_zero, ScoreResult.mk.injEq] <;>
          exact ⟨pyRound2_congr (clampQ_congr (by ring)), pyRound2_congr (by ring),
            pyRound2_congr (by ring), pyRound2_congr (by ring), pyRound2_congr (by ring)⟩
    · have hv0 : (p.columns.filter fun pr => pr.2.invalid_type_pct.isSome) = [] := by
        cases hfe : (p.columns.filter fun pr => pr.2.invalid_type_pct.isSome) with
        | nil => rfl
        | cons a t => rw [hfe] at hv; exact absurd (by simp) hv
      rw [if_neg hv]
      simp only [hv0, List.isEmpty_nil, if_true]
      rcases hpk : p.duplicates.pk_dupe_count with _ | pk <;>
        rcases hany : (p.columns.any fun pr => decide (pr.2.role = some "critical" ∧
            (0 < pr.2.effective_missing_pct ∨ 0 < pr.2.invalid_type_pct.getD 0))) <;>
          simp only [hpk, hany, if_true, if_false, Bool.false_eq_true, if_pos hlen,
            sub_zero, ScoreResult.mk.injEq] <;>
          exact ⟨pyRound2_congr (clampQ_congr (by ring)), pyRound2_congr (by ring),
            pyRound2_congr (by ring), pyRound2_congr (by ring), pyRound2_congr (by ring)⟩


theorem readiness_score_formula_witness :
    perfectProfile.row_count ≠ 0 ∧
      calculate_readiness_score perfectProfile = spec_readiness_formula perfectProfile ∧
      calculate_readiness_score perfectProfile =
        { score := 100, completeness := 40, validity := 30, uniqueness := 20,
          consistency := 10 } :=
  ⟨by decide, (readiness_score_formula perfectProfile (by decide)).1,
    (readiness_score_formula perfectProfile (by decide)).2⟩

theorem mem_dedupStrsGo (seen l : List String) (c : String) :
    c ∈ dedupStrsGo seen l ↔ c ∈ l ∧ c ∉ seen := by
  induction l generalizing seen with
  | nil => simp [dedupStrsGo]
  | cons x rest ih =>
      by_cases hx : seen.contains x
      · rw [dedupStrsGo, if_pos hx, ih]
        have hxs : x ∈ seen := by simpa using hx
        constructor
        · rintro ⟨h1, h2⟩; exact ⟨List.mem_cons_of_mem _ h1, h2⟩
        · rintro ⟨h1, h2⟩
          rcases List.mem_cons.1 h1 with h | h
          · exact absurd (h ▸ hxs) h2
          · exact ⟨h, h2⟩
      · rw [dedupStrsGo, if_neg hx]
        have hxs : x ∉ seen := by simpa using hx
        constructor
        · intro h
          rcases List.mem_cons.1 h with h | h
          · exact ⟨h ▸ List.mem_cons_self _ _, h ▸ hxs⟩
          · rcases (ih (x :: seen)).1 h with ⟨h1, h2⟩
            refine ⟨List.mem_cons_of_mem _ h1, fun hc => h2 (List.mem_cons_of_mem _ hc)⟩
        · rintro ⟨h1, h2⟩
          rcases List.mem_cons.1 h1 with h | h
          · exact h ▸ List.mem_cons_self _ _
          · by_cases hcx : c = x
            · exact hcx ▸ List.mem_cons_self _ _
            · exact List.mem_cons_of_mem _ ((ih (x :: seen)).2
                ⟨h, fun hc => (List.mem_cons.1 hc).elim hcx h2⟩)

theorem dedupStrsGo_nodup (seen l : List String) : (dedupStrsGo seen l).Nodup := by
  induction l generalizing seen with
  | nil => simp [dedupStrsGo]
  | cons x rest ih =>
      by_cases hx : seen.contains x
      · rw [dedupStrsGo, if_pos hx]; exact ih seen
      · rw [dedupStrsGo, if_neg hx]
        refine List.nodup_cons.2 ⟨fun hc => ?_, ih (x :: seen)⟩
        exact ((mem_dedupStrsGo _ _ _).1 hc).2 (List.mem_cons_self _ _)

theorem mem_dedupStrs (l : List String) (c : String) : c ∈ dedupStrs l ↔ c ∈ l := by
  rw [dedupStrs, mem_dedupStrsGo]; simp

theorem dedupStrs_nodup (l : List String) : (dedupStrs l).Nodup := dedupStrsGo_nodup [] l

theorem dedupStrs_length_congr (l₁ l₂ : List String)
    (h : ∀ c, c ∈ l₁ ↔ c ∈ l₂) : (dedupStrs l₁).length = (dedupStrs l₂).length := by
  rw [← List.toFinset_card_of_nodup (dedupStrs_nodup l₁),
    ← List.toFinset_card_of_nodup (dedupStrs_nodup l₂)]
  congr 1
  ext c
  simp only [List.mem_toFinset, mem_dedupStrs]
  exact h c

theorem aggregate_cols (aggs : List AggEntry) (e : Event) (c : String) :
    c ∈ (aggregate aggs e).map (fun a => a.key.2.1) ↔
      c ∈ aggs.map (fun a => a.key.2.1) ∨ c = e.column.getD "" := by
  by_cases hf : (aggs.find? (fun a => a.key = aggKey e)).isSome
  · rw [aggregate, if_pos hf]
    have hcols : (aggs.map fun a =>
        if a.key = aggKey e then
          { a with count := a.count + 1
                   samples := if a.samples.length < 25 then a.samples ++ [e] else a.samples }
        else a).map (fun a => a.key.2.1) = aggs.map (fun a => a.key.2.1) := by
      rw [List.map_map]
      refine List.map_congr_left fun a _ => ?_
      by_cases hk : a.key = aggKey e <;> simp [hk]
    rw [hcols]
    constructor
    · exact Or.inl
    · rintro (h | h)
      · exact h
      · rcases List.find?_isSome.1 hf with ⟨a, ha, hk⟩
        have hk' : a.key = aggKey e := by simpa using hk
        have : e.column.getD "" = a.key.2.1 := by rw [hk']; rfl
        exact h ▸ this ▸ List.mem_map_of_mem _ ha
  · rw [aggregate, if_neg hf, List.map_append]
    simp [aggKey]

theorem logEvent_aggs (st : AuditState) (e : Event) :
    (logEvent st e).aggs = aggregate st.aggs e := by
  rw [logEvent]
  by_cases h : st.detail = "detailed" ∧ st.opened <;> simp [h]

theorem logEvent_opened (st : AuditState) (e : Event) :
    (logEvent st e).opened = st.opened := by
  rw [logEvent]
  by_cases h : st.detail = "detailed" ∧ st.opened <;> simp [h]

theorem logEvent_lines_filter (st : AuditState) (e : Event) :
    ((logEvent st e).lines.filter isJobSummary) = st.lines.filter isJobSummary := by
  rw [logEvent]
  by_cases h : st.detail = "detailed" ∧ st.opened <;>
    simp [h, List.filter_append, isJobSummary]

theorem foldl_logEvent_opened (evs : List Event) (st : AuditState) :
    (evs.foldl logEvent st).opened = st.opened := by
  induction evs generalizing st with
  | nil => rfl
  | cons e rest ih => rw [List.foldl_cons, ih, logEvent_opened]

theorem foldl_logEvent_lines_filter (evs : List Event) (st : AuditState) :
    ((evs.foldl logEvent st).lines.filter isJobSummary) =
      st.lines.filter isJobSummary := by
  induction evs generalizing st with
  | nil => rfl
  | cons e rest ih => rw [List.foldl_cons, ih, logEvent_lines_filter]

theorem foldl_logEvent_cols (evs : List Event) (st : AuditState) (c : String) :
    c ∈ (evs.foldl logEvent st).aggs.map (fun a => a.key.2.1) ↔
      c ∈ st.aggs.map (fun a => a.key.2.1) ∨
        c ∈ evs.map (fun e => e.column.getD "") := by
  induction evs generalizing st with
  | nil => simp
  | cons e rest ih =>
      rw [List.foldl_cons, ih, logEvent_aggs, aggregate_cols]
      simp only [List.map_cons, List.mem_cons]
      tauto

theorem aggMap_filter_none (l : List AggEntry) :
    ((l.map fun a => Record.agg a.key.1 a.key.2.1 a.key.2.2 a.count a.samples).filter
      isJobSummary) = [] := by
  induction l with
  | nil => rfl
  | cons a t ih => simp [isJobSummary, ih]

/-- C6: for every event sequence and either detail mode, sealing the audit
logger writes exactly one `job_summary` record, it is the final record of
the stream, its `unique_columns_touched` counts the distinct event columns
excluding the synthetic `__row__` name (and the empty/global marker), and
sealing a second time changes nothing. -/
theorem audit_footer_contract (detail : String) (ctx : List (String × String))
    (evs : List Event) :
    ((auditRun detail ctx evs).lines.filter isJobSummary).length = 1 ∧
    (auditRun detail ctx evs).lines.getLast?.map isJobSummary = some true ∧
    (auditRun detail ctx evs).lines.getLast?.bind recColumnsTouched =
      some (distinctTouched evs) ∧
    closeAudit (auditRun detail ctx evs) = auditRun detail ctx evs := by
  have hopen : (evs.foldl logEvent (mkAuditState detail ctx)).opened = true := by
    rw [foldl_logEvent_opened]; rfl
  have hrun : auditRun detail ctx evs =
      closeAudit (evs.foldl logEvent (mkAuditState detail ctx)) := rfl
  set st := evs.foldl logEvent (mkAuditState detail ctx) with hst
  have hlines0 : st.lines.filter isJobSummary = [] := by
    rw [hst, foldl_logEvent_lines_filter]; rfl
  have hcols0 : ∀ c : String,
      c ∈ st.aggs.map (fun a => a.key.2.1) ↔
        c ∈ evs.map (fun e => e.column.getD "") := by
    intro c
    rw [hst, foldl_logEvent_cols]
    simp [mkAuditState]
  have htouch : (touchedColumns st.aggs).length = distinctTouched evs := by
    rw [touchedColumns, distinctTouched]
    refine dedupStrs_length_congr _ _ fun c => ?_
    simp only [List.mem_filter]
    rw [hcols0 c]
  have hclose : closeAudit st =
      { st with
        lines := st.lines ++
          (if st.detail = "summary" then
            (sortLe (fun a b => keyLeB a.key b.key) st.aggs).map fun a =>
              Record.agg a.key.1 a.key.2.1 a.key.2.2 a.count a.samples
          else []) ++
          [Record.jobSummary st.detail ((st.aggs.map AggEntry.count).sum)
            (byEventTypeCounts st.aggs) (touchedColumns st.aggs).length
            st.timestamp_start st.timestamp_end (sortLe ctxLeB st.context)]
        opened := false } := by
    rw [closeAudit, if_neg (by simp [hopen])]
  refine ⟨?_, ?_, ?_, ?_⟩
  · rw [hrun, hclose]
    simp only [List.filter_append, hlines0]
    by_cases hd : st.detail = "summary" <;>
      simp [hd, aggMap_filter_none, isJobSummary]
  · rw [hrun, hclose]
    simp only [← List.append_assoc]
    rw [List.getLast?_concat]
    rfl
  · rw [hrun, hclose]
    simp only [← List.append_assoc]
    rw [List.getLast?_concat]
    simp [recColumnsTouched, htouch]
  · have h4 : (closeAudit st).opened = false := by rw [hclose]
    rw [hrun]
    conv_lhs => rw [closeAudit]
    rw [if_pos (by simp [h4])]

theorem colNames_setColumn (t : Table) (nm : String) (d : DType) (cells : List Cell) :
    colNames (setColumn t nm d cells) = colNames t := by
  simp only [colNames, setColumn, List.map_map]
  refine List.map_congr_left fun a _ => ?_
  by_cases h : a.name = nm <;> simp [h]

theorem getColumn_setColumn_ne (t : Table) (nm c : String) (d : DType)
    (cells : List Cell) (h : c ≠ nm) :
    getColumn (setColumn t nm d cells) c = getColumn t c := by
  induction t with
  | nil => rfl
  | cons col rest ih =>
      show getColumn ((if col.name = nm then { col with dtype := d, cells := cells }
        else col) :: setColumn rest nm d cells) c = _
      by_cases h1 : col.name = nm
      · rw [if_pos h1]
        have h2 : ¬ col.name = c := fun hc => h (hc.symm.trans h1)
        rw [getColumn, List.find?_cons_of_neg _ (by simpa using h2), getColumn,
          List.find?_cons_of_neg _ (by simpa using h2)]
        exact ih
      · rw [if_neg h1]
        by_cases h2 : col.name = c
        · rw [getColumn, List.find?_cons_of_pos _ (by simpa using h2), getColumn,
            List.find?_cons_of_pos _ (by simpa using h2)]
        · rw [getColumn, List.find?_cons_of_neg _ (by simpa using h2), getColumn,
            List.find?_cons_of_neg _ (by simpa using h2)]
          exact ih

theorem getColumn_setColumn_self (t : Table) (nm : String) (d : DType)
    (cells : List Cell) (c0 : Column) (h : getColumn t nm = some c0) :
    getColumn (setColumn t nm d cells) nm =
      some { c0 with dtype := d, cells := cells } := by
  induction t with
  | nil => simp [getColumn] at h
  | cons col rest ih =>
      show getColumn ((if col.name = nm then { col with dtype := d, cells := cells }
        else col) :: setColumn rest nm d cells) nm = _
      by_cases h1 : col.name = nm
      · have h' : col = c0 := by
          rw [getColumn, List.find?_cons_of_pos _ (by simpa using h1)] at h
          exact Option.some.inj h
        rw [if_pos h1, getColumn, List.find?_cons_of_pos _ (by simpa using h1), h']
      · have h' : getColumn rest nm = some c0 := by
          rw [getColumn, List.find?_cons_of_neg _ (by simpa using h1)] at h
          exact h
        rw [if_neg h1, getColumn, List.find?_cons_of_neg _ (by simpa using h1)]
        exact ih h'

theorem mem_colNames_of_getColumn (t : Table) (c : String) (col : Column)
    (h : getColumn t c = some col) : c ∈ colNames t := by
  rw [getColumn] at h
  have hm : col ∈ t := List.mem_of_find?_eq_some h
  have hp := List.find?_some h
  simp only [decide_eq_true_eq] at hp
  exact hp ▸ List.mem_map_of_mem _ hm

theorem colCells_eq_of_getColumn (t : Table) (c : String) (col : Column)
    (h : getColumn t c = some col) : colCells t c = col.cells := by
  rw [colCells, h]

theorem getColumn_isSome_iff (t : Table) (c : String) :
    (getColumn t c).isSome ↔ c ∈ colNames t := by
  constructor
  · intro h
    rcases Option.isSome_iff_exists.1 h with ⟨col, hcol⟩
    exact mem_colNames_of_getColumn t c col hcol
  · intro h
    rcases List.mem_map.1 h with ⟨col, hmem, hname⟩
    exact List.find?_isSome.2 ⟨col, hmem, by simpa using hname⟩

theorem perm_insertLe (le : α → α → Bool) (x : α) (l : List α) :
    List.Perm (insertLe le x l) (x :: l) := by
  induction l with
  | nil => rfl
  | cons y t ih =>
      rw [insertLe]
      by_cases h : le x y
      · simp [h]
      · simp only [h, if_false, Bool.false_eq_true]
        exact (ih.cons y).trans (List.Perm.swap x y t)

theorem perm_sortLe (le : α → α → Bool) (l : List α) : List.Perm (sortLe le l) l := by
  induction l with
  | nil => rfl
  | cons y t ih => exact (perm_insertLe le y (sortLe le t)).trans (ih.cons y)

theorem maskCount_map (l : List Cell) (f : Cell → Bool) :
    maskCount (l.map f) = (l.filter f).length := by
  rw [maskCount, List.filter_map]
  simp [Function.comp]

theorem maskAny_of_pos (m : List Bool) (h : 0 < maskCount m) : maskAny m = true := by
  rw [maskCount] at h
  rcases List.exists_mem_of_length_pos h with ⟨x, hx⟩
  rcases List.mem_filter.1 hx with ⟨hm, hid⟩
  have hxt : x = true := by simpa using hid
  subst hxt
  simp [maskAny]
  exact hm

theorem shapeEq_refl (t : Table) : ShapeEq t t := ⟨rfl, fun _ => rfl⟩

theorem shapeEq_trans {t₁ t₂ t₃ : Table} (h₁ : ShapeEq t₁ t₂) (h₂ : ShapeEq t₂ t₃) :
    ShapeEq t₁ t₃ := ⟨h₁.1.trans h₂.1, fun x => (h₁.2 x).trans (h₂.2 x)⟩

theorem inBucket_congr (p : Policy) {t₁ t₂ : Table} (b col : String)
    (h : ShapeEq t₁ t₂) : inBucket p t₁ b col = inBucket p t₂ b col := by
  rw [inBucket, inBucket, h.2 col]

theorem bucketCols_congr (p : Policy) {t₁ t₂ : Table} (b : String)
    (h : ShapeEq t₁ t₂) : bucketCols p t₁ b = bucketCols p t₂ b := by
  rw [bucketCols, bucketCols, h.1]
  congr 1
  refine List.filter_congr fun c _ => ?_
  exact inBucket_congr p b c h

theorem inBucket_unique (p : Policy) (df : Table) (col : String) :
    (inBucket p df "numeric" col = true →
      inBucket p df "datetime" col = false ∧ inBucket p df "categorical" col = false) ∧
    (inBucket p df "datetime" col = true →
      inBucket p df "numeric" col = false ∧ inBucket p df "categorical" col = false) ∧
    (inBucket p df "categorical" col = true →
      inBucket p df "numeric" col = false ∧ inBucket p df "datetime" col = false) := by
  by_cases hprot : (p.roles.protected_columns.contains col ∨ col = "_row_id")
  · have hf : ∀ b, inBucket p df b col = false := fun b => by rw [inBucket, if_pos hprot]
    simp [hf]
  · rcases hE : (alistGet p.parsing.column_types col).bind
        (fun t => if t = "" then none else some t) with _ | typ
    · rcases hD : colDtype df col with _ | dt
      · simp [inBucket, hprot, hE, hD]
      · cases dt <;> simp [inBucket, hprot, hE, hD, isNumericDtype, isDatetimeDtype]
    · by_cases hn : numericTypeTags.contains typ
      · have htyp : typ = "numeric" ∨ typ = "integer" ∨ typ = "float" := by
          simpa [numericTypeTags] using hn
        have hd : datetimeTypeTags.contains typ = false := by
          rcases htyp with h | h | h <;> subst h <;> decide
        have hn' : typ ∈ numericTypeTags := by simpa using hn
        have hd' : typ ∉ datetimeTypeTags := by simpa using hd
        simp only [inBucket, hprot, hE]
        simp
        tauto
      · by_cases hd : datetimeTypeTags.contains typ
        · have hn' : typ ∉ numericTypeTags := by simpa using hn
          have hd' : typ ∈ datetimeTypeTags := by simpa using hd
          simp only [inBucket, hprot, hE]
          simp
          tauto
        · have hn' : typ ∉ numericTypeTags := by simpa using hn
          have hd' : typ ∉ datetimeTypeTags := by simpa using hd
          simp only [inBucket, hprot, hE]
          simp
          tauto

theorem colCells_setColumn_ne (t : Table) (nm x : String) (d : DType)
    (cells : List Cell) (h : x ≠ nm) :
    colCells (setColumn t nm d cells) x = colCells t x := by
  rw [colCells, colCells, getColumn_setColumn_ne t nm x d cells h]

theorem shapeEq_setColumn (t : Table) (nm : String) (c0 : Column)
    (cells : List Cell) (h : getColumn t nm = some c0) :
    ShapeEq (setColumn t nm c0.dtype cells) t := by
  refine ⟨colNames_setColumn _ _ _ _, fun x => ?_⟩
  by_cases hx : x = nm
  · subst hx
    rw [colDtype, colDtype, getColumn_setColumn_self t x c0.dtype cells c0 h, h]
    rfl
  · rw [colDtype, colDtype, getColumn_setColumn_ne t nm x c0.dtype cells hx]

theorem imputeColumn_shape (b : String) (cfg : BucketCfg) (rid : List Cell)
    (clk : ClockT) (st : IState) (c' : String) :
    ShapeEq (imputeColumn b cfg rid clk st c').df st.df := by
  rcases hget : getColumn st.df c' with _ | c
  · unfold imputeColumn
    rw [hget]
    exact shapeEq_refl st.df
  · unfold imputeColumn
    rw [hget]
    dsimp only
    split
    · exact shapeEq_refl st.df
    · split
      · exact shapeEq_refl st.df
      · split
        · exact shapeEq_refl st.df
        · split
          · exact shapeEq_refl st.df
          · exact shapeEq_setColumn st.df c' c _ hget

theorem imputeColumn_cells_ne (b : String) (cfg : BucketCfg) (rid : List Cell)
    (clk : ClockT) (st : IState) (c' x : String) (hx : x ≠ c') :
    colCells (imputeColumn b cfg rid clk st c').df x = colCells st.df x := by
  rcases hget : getColumn st.df c' with _ | c
  · unfold imputeColumn
    rw [hget]
  · unfold imputeColumn
    rw [hget]
    dsimp only
    split
    · rfl
    · split
      · rfl
      · split
        · rfl
        · split
          · rfl
          · exact colCells_setColumn_ne st.df c' x _ _ hx

theorem imputeColumn_evs (b : String) (cfg : BucketCfg) (rid : List Cell)
    (clk : ClockT) (st : IState) (c' : String) :
    ∃ new, (imputeColumn b cfg rid clk st c').evs = st.evs ++ new ∧
      ∀ e ∈ new, e.column = some c' := by
  rcases hget : getColumn st.df c' with _ | c
  · unfold imputeColumn
    rw [hget]
    exact ⟨[], by simp, by simp⟩
  · unfold imputeColumn
    rw [hget]
    dsimp only
    split
    · exact ⟨[], by simp, by simp⟩
    · split
      · refine ⟨[_], rfl, ?_⟩
        intro e he
        rcases List.mem_singleton.1 he with rfl
        rfl
      · split
        · exact ⟨[], by simp, by simp⟩
        · split
          · exact ⟨[], by simp, by simp⟩
          · refine ⟨_, rfl, ?_⟩
            intro e he
            rcases List.mem_map.1 he with ⟨i, _, rfl⟩
            rfl

theorem imputeColumn_skip (b : String) (cfg : BucketCfg) (rid : List Cell)
    (clk : ClockT) (st : IState) (col : String) (c : Column)
    (hget : getColumn st.df col = some c)
    (hany : maskAny (c.cells.map is_effectively_missing) = true)
    (hthr : cfg.allow_if_missing_pct_leq <
      (maskCount (c.cells.map is_effectively_missing) : ℚ) / (c.cells.length : ℚ)) :
    imputeColumn b cfg rid clk st col =
      { st with
        evs := st.evs ++
          [{ event_type := "imputation_skipped_threshold", column := some col,
             reason := "missing_pct_" ++
               String.mk (format4 ((maskCount (c.cells.map is_effectively_missing) : ℚ) /
                 (c.cells.length : ℚ))) ++ "_gt_" ++
               String.mk (format4 cfg.allow_if_missing_pct_leq),
             policy_section := "missing_data.imputation." ++ b,
             timestamp := some (clk st.n) }]
        n := st.n + 1 } := by
  unfold imputeColumn
  rw [hget]
  dsimp only
  rw [if_neg (by simp [hany]), if_pos hthr]

theorem foldl_imputeColumn_frame (b : String) (cfg : BucketCfg) (rid : List Cell)
    (clk : ClockT) (cols : List String) (st : IState) :
    ShapeEq (cols.foldl (imputeColumn b cfg rid clk) st).df st.df ∧
    (∀ x, x ∉ cols →
      colCells (cols.foldl (imputeColumn b cfg rid clk) st).df x = colCells st.df x) ∧
    ∃ new, (cols.foldl (imputeColumn b cfg rid clk) st).evs = st.evs ++ new ∧
      ∀ e ∈ new, ∃ c' ∈ cols, e.column = some c' := by
  induction cols generalizing st with
  | nil => exact ⟨shapeEq_refl _, fun _ _ => rfl, [], by simp, by simp⟩
  | cons c0 rest ih =>
      rw [List.foldl_cons]
      rcases ih (imputeColumn b cfg rid clk st c0) with ⟨hsh, hcells, new, hevs, hnew⟩
      refine ⟨shapeEq_trans hsh (imputeColumn_shape b cfg rid clk st c0), ?_, ?_⟩
      · intro x hx
        rw [hcells x (fun h => hx (List.mem_cons_of_mem _ h)),
          imputeColumn_cells_ne b cfg rid clk st c0 x
            (fun h => hx (h ▸ List.mem_cons_self _ _))]
      · rcases imputeColumn_evs b cfg rid clk st c0 with ⟨new0, hevs0, hnew0⟩
        refine ⟨new0 ++ new, by rw [hevs, hevs0, List.append_assoc], ?_⟩
        intro e he
        rcases List.mem_append.1 he with h | h
        · exact ⟨c0, List.mem_cons_self _ _, hnew0 e h⟩
        · rcases hnew e h with ⟨c', hc', hcol⟩
          exact ⟨c', List.mem_cons_of_mem _ hc', hcol⟩

theorem runBucket_frame (p : Policy) (rid : List Cell) (clk : ClockT) (st : IState)
    (pr : String × Option BucketCfg) :
    ShapeEq (runBucket p rid clk st pr).df st.df ∧
    (∀ x, inBucket p st.df pr.1 x = false →
      colCells (runBucket p rid clk st pr).df x = colCells st.df x) ∧
    ∃ new, (runBucket p rid clk st pr).evs = st.evs ++ new ∧
      ∀ e ∈ new, ∃ c', e.column = some c' ∧ inBucket p st.df pr.1 c' = true := by
  rcases pr with ⟨bname, _ | cfg⟩
  · exact ⟨shapeEq_refl _, fun _ _ => rfl, [], by simp [runBucket], by simp⟩
  · rw [runBucket]
    dsimp only
    split
    · exact ⟨shapeEq_refl _, fun _ _ => rfl, [], by simp, by simp⟩
    · rcases foldl_imputeColumn_frame bname cfg rid clk (bucketCols p st.df bname) st with
        ⟨hsh, hcells, new, hevs, hnew⟩
      refine ⟨hsh, ?_, new, hevs, ?_⟩
      · intro x hx
        refine hcells x fun hmem => ?_
        have : inBucket p st.df bname x = true := by
          have h1 := (perm_sortLe strLeB _).mem_iff.1 hmem
          exact (List.mem_filter.1 h1).2
        rw [this] at hx
        exact absurd hx (by simp)
      · intro e he
        rcases hnew e he with ⟨c', hc', hcol⟩
        have h1 := (perm_sortLe strLeB _).mem_iff.1 hc'
        exact ⟨c', hcol, (List.mem_filter.1 h1).2⟩

theorem runBucket_with_col (p : Policy) (rid : List Cell) (clk : ClockT) (st : IState)
    (b col : String) (cfg : BucketCfg)
    (hconf : ¬ (cfg.default = "none" ∧ cfg.constants.isEmpty))
    (hnodup : (colNames st.df).Nodup)
    (hcol : inBucket p st.df b col = true)
    (hmem : col ∈ colNames st.df)
    (hnn : 0 ≤ cfg.allow_if_missing_pct_leq)
    (hthr : cfg.allow_if_missing_pct_leq <
      (((colCells st.df col).filter is_effectively_missing).length : ℚ) /
        ((colCells st.df col).length : ℚ)) :
    colCells (runBucket p rid clk st (b, some cfg)).df col = colCells st.df col ∧
    ∃ new₁ new₂ ts,
      (runBucket p rid clk st (b, some cfg)).evs = st.evs ++ new₁ ++
        [{ event_type := "imputation_skipped_threshold", column := some col,
           reason := "missing_pct_" ++
             String.mk (format4 ((((colCells st.df col).filter
               is_effectively_missing).length : ℚ) /
               ((colCells st.df col).length : ℚ))) ++ "_gt_" ++
             String.mk (format4 cfg.allow_if_missing_pct_leq),
           policy_section := "missing_data.imputation." ++ b,
           timestamp := some ts }] ++ new₂ ∧
      (∀ e ∈ new₁, e.column ≠ some col) ∧ (∀ e ∈ new₂, e.column ≠ some col) := by
  rw [runBucket]
  dsimp only
  rw [if_neg hconf]
  have hcolmem : col ∈ bucketCols p st.df b :=
    (perm_sortLe strLeB _).mem_iff.2 (List.mem_filter.2 ⟨hmem, hcol⟩)
  have hnd : (bucketCols p st.df b).Nodup :=
    ((perm_sortLe strLeB _).nodup_iff).2 (hnodup.filter _)
  rcases List.append_of_mem hcolmem with ⟨l₁, l₂, hsplit⟩
  rw [hsplit] at hnd
  have hnotm : col ∉ l₁ ∧ col ∉ l₂ := by
    rw [List.nodup_append] at hnd
    exact ⟨fun h => hnd.2.2 h (List.mem_cons_self _ _), (List.nodup_cons.1 hnd.2.1).1⟩
  rw [hsplit, List.foldl_append, List.foldl_cons]
  rcases foldl_imputeColumn_frame b cfg rid clk l₁ st with ⟨hshA, hcellsA, newA, hevsA, hnewA⟩
  have hAcol : colCells (l₁.foldl (imputeColumn b cfg rid clk) st).df col =
      colCells st.df col := hcellsA col hnotm.1
  have hAmem : col ∈ colNames (l₁.foldl (imputeColumn b cfg rid clk) st).df := by
    rw [hshA.1]; exact hmem
  rcases Option.isSome_iff_exists.1 ((getColumn_isSome_iff _ col).2 hAmem) with ⟨cA, hgetA⟩
  have hAcells : cA.cells = colCells st.df col := by
    rw [← hAcol, colCells_eq_of_getColumn _ col cA hgetA]
  have hq : ((maskCount (cA.cells.map is_effectively_missing) : ℚ) /
      (cA.cells.length : ℚ)) =
      (((colCells st.df col).filter is_effectively_missing).length : ℚ) /
        ((colCells st.df col).length : ℚ) := by
    rw [maskCount_map, hAcells]
  have hcnt : 0 < maskCount (cA.cells.map is_effectively_missing) := by
    rw [maskCount_map]
    by_contra h
    have h0 : (cA.cells.filter is_effectively_missing).length = 0 := Nat.eq_zero_of_not_pos h
    have := lt_of_le_of_lt hnn hthr
    rw [← hAcells] at this
    rw [h0] at this
    simp at this
  have hany := maskAny_of_pos _ hcnt
  have hstep := imputeColumn_skip b cfg rid clk
    (l₁.foldl (imputeColumn b cfg rid clk) st) col cA hgetA hany (by rw [hq]; exact hthr)
  rw [hstep]
  rcases foldl_imputeColumn_frame b cfg rid clk l₂
      { (l₁.foldl (imputeColumn b cfg rid clk) st) with
        evs := (l₁.foldl (imputeColumn b cfg rid clk) st).evs ++
          [{ event_type := "imputation_skipped_threshold", column := some col,
             reason := "missing_pct_" ++
               String.mk (format4 ((maskCount (cA.cells.map is_effectively_missing) : ℚ) /
                 (cA.cells.length : ℚ))) ++ "_gt_" ++
               String.mk (format4 cfg.allow_if_missing_pct_leq),
             policy_section := "missing_data.imputation." ++ b,
             timestamp := some (clk (l₁.foldl (imputeColumn b cfg rid clk) st).n) }]
        n := (l₁.foldl (imputeColumn b cfg rid clk) st).n + 1 } with
    ⟨hshB, hcellsB, newB, hevsB, hnewB⟩
  constructor
  · rw [hcellsB col hnotm.2]
    exact hAcol
  · refine ⟨newA, newB, clk (l₁.foldl (imputeColumn b cfg rid clk) st).n, ?_, ?_, ?_⟩
    · rw [hevsB]
      dsimp only
      rw [hevsA, hq]
    · intro e he
      rcases hnewA e he with ⟨c', hc', hcol'⟩
      rw [hcol']
      intro hcc
      exact hnotm.1 ((Option.some.inj hcc) ▸ hc')
    · intro e he
      rcases hnewB e he with ⟨c', hc', hcol'⟩
      rw [hcol']
      intro hcc
      exact hnotm.2 ((Option.some.inj hcc) ▸ hc')

theorem foldl_runBucket_frame (p : Policy) (rid : List Cell) (clk : ClockT)
    (prs : List (String × Option BucketCfg)) (st : IState) :
    ShapeEq (prs.foldl (runBucket p rid clk) st).df st.df ∧
    (∀ x, (∀ pr ∈ prs, inBucket p st.df pr.1 x = false) →
      colCells (prs.foldl (runBucket p rid clk) st).df x = colCells st.df x) ∧
    ∃ new, (prs.foldl (runBucket p rid clk) st).evs = st.evs ++ new ∧
      ∀ e ∈ new, ∃ c' b', b' ∈ prs.map Prod.fst ∧ e.column = some c' ∧
        inBucket p st.df b' c' = true := by
  induction prs generalizing st with
  | nil => exact ⟨shapeEq_refl _, fun _ _ => rfl, [], by simp, by simp⟩
  | cons pr rest ih =>
      rw [List.foldl_cons]
      rcases runBucket_frame p rid clk st pr with ⟨hsh0, hcells0, new0, hevs0, hnew0⟩
      rcases ih (runBucket p rid clk st pr) with ⟨hsh, hcells, new, hevs, hnew⟩
      refine ⟨shapeEq_trans hsh hsh0, ?_, new0 ++ new, ?_, ?_⟩
      · intro x hx
        rw [hcells x ?_, hcells0 x (hx pr (List.mem_cons_self _ _))]
        intro q hq
        rw [inBucket_congr p q.1 x hsh0]
        exact hx q (List.mem_cons_of_mem _ hq)
      · rw [hevs, hevs0, List.append_assoc]
      · intro e he
        rcases List.mem_append.1 he with h | h
        · rcases hnew0 e h with ⟨c', hcol', hib⟩
          exact ⟨c', pr.1, by simp, hcol', hib⟩
        · rcases hnew e h with ⟨c', b', hb', hcol', hib⟩
          refine ⟨c', b', by simp [List.mem_map] at hb' ⊢; tauto, hcol', ?_⟩
          rw [← inBucket_congr p b' c' hsh0]
          exact hib

theorem foldl_runBucket_gate (p : Policy) (rid : List Cell) (clk : ClockT)
    (pre post : List (String × Option BucketCfg)) (st : IState) (b col : String)
    (cfg : BucketCfg)
    (hpre : ∀ pr ∈ pre, inBucket p st.df pr.1 col = false)
    (hpost : ∀ pr ∈ post, inBucket p st.df pr.1 col = false)
    (hconf : ¬ (cfg.default = "none" ∧ cfg.constants.isEmpty))
    (hnodup : (colNames st.df).Nodup)
    (hcol : inBucket p st.df b col = true)
    (hmem : col ∈ colNames st.df)
    (hnn : 0 ≤ cfg.allow_if_missing_pct_leq)
    (hthr : cfg.allow_if_missing_pct_leq <
      (((colCells st.df col).filter is_effectively_missing).length : ℚ) /
        ((colCells st.df col).length : ℚ)) :
    colCells ((pre ++ (b, some cfg) :: post).foldl (runBucket p rid clk) st).df col =
      colCells st.df col ∧
    ∃ new₁ new₂ ts,
      ((pre ++ (b, some cfg) :: post).foldl (runBucket p rid clk) st).evs =
        st.evs ++ new₁ ++
        [{ event_type := "imputation_skipped_threshold", column := some col,
           reason := "missing_pct_" ++
             String.mk (format4 ((((colCells st.df col).filter
               is_effectively_missing).length : ℚ) /
               ((colCells st.df col).length : ℚ))) ++ "_gt_" ++
             String.mk (format4 cfg.allow_if_missing_pct_leq),
           policy_section := "missing_data.imputation." ++ b,
           timestamp := some ts }] ++ new₂ ∧
      (∀ e ∈ new₁, e.column ≠ some col) ∧ (∀ e ∈ new₂, e.column ≠ some col) := by
  rw [List.foldl_append, List.foldl_cons]
  rcases foldl_runBucket_frame p rid clk pre st with ⟨hshP, hcellsP, newP, hevsP, hnewP⟩
  set stA := pre.foldl (runBucket p rid clk) st with hstA
  have hAcol : colCells stA.df col = colCells st.df col := hcellsP col hpre
  have hAnodup : (colNames stA.df).Nodup := by rw [hshP.1]; exact hnodup
  have hAin : inBucket p stA.df b col = true := by
    rw [inBucket_congr p b col hshP]; exact hcol
  have hAmem : col ∈ colNames stA.df := by rw [hshP.1]; exact hmem
  have hAthr : cfg.allow_if_missing_pct_leq <
      (((colCells stA.df col).filter is_effectively_missing).length : ℚ) /
        ((colCells stA.df col).length : ℚ) := by rw [hAcol]; exact hthr
  rcases runBucket_with_col p rid clk stA b col cfg hconf hAnodup hAin hAmem hnn hAthr with
    ⟨hBcol, new₁, new₂, ts, hBevs, hn1, hn2⟩
  set stB := runBucket p rid clk stA (b, some cfg) with hstB
  have hshB : ShapeEq stB.df stA.df := (runBucket_frame p rid clk stA (b, some cfg)).1
  rcases foldl_runBucket_frame p rid clk post stB with ⟨hshC, hcellsC, newC, hevsC, hnewC⟩
  have hpostB : ∀ pr ∈ post, inBucket p stB.df pr.1 col = false := by
    intro pr hpr
    rw [inBucket_congr p pr.1 col (shapeEq_trans hshB hshP)]
    exact hpost pr hpr
  constructor
  · rw [hcellsC col hpostB, hBcol, hAcol]
  · refine ⟨newP ++ new₁, new₂ ++ newC, ts, ?_, ?_, ?_⟩
    · rw [hevsC, hBevs, hevsP, hAcol]
      simp [List.append_assoc]
    · intro e he
      rcases List.mem_append.1 he with h | h
      · rcases hnewP e h with ⟨c', b', hb', hcol', hib⟩
        rw [hcol']
        intro hcc
        have hceq : c' = col := Option.some.inj hcc
        subst hceq
        rcases List.mem_map.1 hb' with ⟨pr, hpr, hfst⟩
        rw [← hfst] at hib
        rw [hpre pr hpr] at hib
        exact absurd hib (by simp)
      · exact hn1 e h
    · intro e he
      rcases List.mem_append.1 he with h | h
      · exact hn2 e h
      · rcases hnewC e h with ⟨c', b', hb', hcol', hib⟩
        rw [hcol']
        intro hcc
        have hceq : c' = col := Option.some.inj hcc
        subst hceq
        rcases List.mem_map.1 hb' with ⟨pr, hpr, hfst⟩
        rw [← hfst] at hib
        rw [inBucket_congr p pr.1 c' (shapeEq_trans hshB hshP)] at hib
        rw [hpost pr hpr] at hib
        exact absurd hib (by simp)

theorem filterSkipEv_nil (col : String) (l : List Event)
    (h : ∀ e ∈ l, e.column ≠ some col) :
    (l.filter fun e =>
      decide (e.event_type = "imputation_skipped_threshold" ∧ e.column = some col)) = [] := by
  refine List.filter_eq_nil_iff.2 fun e he => ?_
  simp only [decide_eq_true_eq]
  rintro ⟨-, hc2⟩
  exact h e he hc2

unseal Rat.add Rat.mul Rat.inv Rat.sub in
/-- C3: whenever an imputation-eligible column's effective-missing ratio
strictly exceeds its bucket's configured ceiling, `apply_imputation`
leaves every cell of the column unchanged and the phase emits exactly one
`imputation_skipped_threshold` event for it, whose reason encodes both
percentages to four decimals; in particular a 50%-missing numeric column
under a 0.25 ceiling stays as-is and yields the single event with reason
`missing_pct_0.5000_gt_0.2500`. -/
theorem imputation_threshold_gate (df : Table) (p : Policy) (clock : Option ClockT)
    (env : ClockT) (n0 : Nat) (imp : ImputeCfg) (b col : String) (cfg : BucketCfg)
    (hwf : Wellformed df)
    (hen : p.missing_data.enabled = true)
    (himp : p.missing_data.imputation = some imp)
    (hb : (b, some cfg) ∈ bucketList imp)
    (hconf : ¬ (cfg.default = "none" ∧ cfg.constants.isEmpty))
    (hcol : inBucket p df b col = true)
    (hnn : 0 ≤ cfg.allow_if_missing_pct_leq)
    (hthr : cfg.allow_if_missing_pct_leq < missingRatio df col) :
    (colCells (apply_imputation df p clock env n0).1 col = colCells df col ∧
      ∃ ts, ((apply_imputation df p clock env n0).2.1.filter fun e =>
          decide (e.event_type = "imputation_skipped_threshold" ∧ e.column = some col)) =
        [{ event_type := "imputation_skipped_threshold", column := some col,
           reason := "missing_pct_" ++ String.mk (format4 (missingRatio df col)) ++ "_gt_" ++
             String.mk (format4 cfg.allow_if_missing_pct_leq),
           policy_section := "missing_data.imputation." ++ b,
           timestamp := some ts }]) ∧
    ((apply_imputation thresholdDf thresholdPolicy (some fixedClock) fixedClock 0).1 =
        thresholdDf ∧
      (apply_imputation thresholdDf thresholdPolicy (some fixedClock) fixedClock 0).2.1.map
          (fun e => (e.event_type, e.column, e.reason)) =
        [("imputation_skipped_threshold", some "val", "missing_pct_0.5000_gt_0.2500")]) := by
  refine ⟨?_, by decide⟩
  have hratio : missingRatio df col =
      (((colCells df col).filter is_effectively_missing).length : ℚ) /
        ((colCells df col).length : ℚ) := rfl
  have hmem : col ∈ colNames df := by
    by_contra hnm
    have hg0 : getColumn df col = none := by
      cases hgg : getColumn df col with
      | none => rfl
      | some c => exact absurd (mem_colNames_of_getColumn df col c hgg) hnm
    have hcc : colCells df col = [] := by rw [colCells, hg0]
    have hz : missingRatio df col = 0 := by
      rw [hratio, hcc]
      simp
    rw [hz] at hthr
    exact absurd (lt_of_le_of_lt hnn hthr) (lt_irrefl 0)
  rw [apply_imputation]
  dsimp only
  rw [if_neg (by simp [hen]), himp]
  dsimp only
  simp only [bucketList, List.mem_cons, List.mem_singleton, List.not_mem_nil, or_false,
    Prod.mk.injEq] at hb
  rcases hb with ⟨hbn, hcfg⟩ | ⟨hbn, hcfg⟩ | ⟨hbn, hcfg⟩
  · subst hbn
    rw [← hcfg]
    have hg := foldl_runBucket_gate p (colCells df "_row_id") (clock.getD env)
      [] [("datetime", imp.datetime), ("categorical", imp.categorical)]
      { df := df, evs := [], n := n0 } "numeric" col cfg
      (by intro pr hpr; simp at hpr)
      (by
        intro pr hpr
        have hx := (inBucket_unique p df col).1 hcol
        simp only [List.mem_cons, List.mem_singleton, List.not_mem_nil, or_false] at hpr
        rcases hpr with h | h
        · subst h; exact hx.1
        · subst h; exact hx.2)
      hconf hwf.2 hcol hmem hnn (hratio ▸ hthr)
    simp only [List.nil_append] at hg
    rcases hg with ⟨hc, new₁, new₂, ts, hevs, hn1, hn2⟩
    refine ⟨hc, ts, ?_⟩
    rw [hevs]
    simp only [List.append_nil, List.nil_append, List.filter_append,
      filterSkipEv_nil col new₁ hn1, filterSkipEv_nil col new₂ hn2, hratio]
    simp
  · subst hbn
    rw [← hcfg]
    have hg := foldl_runBucket_gate p (colCells df "_row_id") (clock.getD env)
      [("numeric", imp.numeric)] [("categorical", imp.categorical)]
      { df := df, evs := [], n := n0 } "datetime" col cfg
      (by
        intro pr hpr
        have hx := (inBucket_unique p df col).2.1 hcol
        simp only [List.mem_singleton] at hpr
        subst hpr
        exact hx.1)
      (by
        intro pr hpr
        have hx := (inBucket_unique p df col).2.1 hcol
        simp only [List.mem_singleton] at hpr
        subst hpr
        exact hx.2)
      hconf hwf.2 hcol hmem hnn (hratio ▸ hthr)
    simp only [List.cons_append, List.nil_append] at hg
    rcases hg with ⟨hc, new₁, new₂, ts, hevs, hn1, hn2⟩
    refine ⟨hc, ts, ?_⟩
    rw [hevs]
    simp only [List.append_nil, List.nil_append, List.filter_append,
      filterSkipEv_nil col new₁ hn1, filterSkipEv_nil col new₂ hn2, hratio]
    simp
  · subst hbn
    rw [← hcfg]
    have hg := foldl_runBucket_gate p (colCells df "_row_id") (clock.getD env)
      [("numeric", imp.numeric), ("datetime", imp.datetime)] []
      { df := df, evs := [], n := n0 } "categorical" col cfg
      (by
        intro pr hpr
        have hx := (inBucket_unique p df col).2.2 hcol
        simp only [List.mem_cons, List.mem_singleton, List.not_mem_nil, or_false] at hpr
        rcases hpr with h | h
        · subst h; exact hx.1
        · subst h; exact hx.2)
      (by intro pr hpr; simp at hpr)
      hconf hwf.2 hcol hmem hnn (hratio ▸ hthr)
    simp only [List.cons_append, List.nil_append] at hg
    rcases hg with ⟨hc, new₁, new₂, ts, hevs, hn1, hn2⟩
    refine ⟨hc, ts, ?_⟩
    rw [hevs]
    simp only [List.append_nil, List.nil_append, List.filter_append,
      filterSkipEv_nil col new₁ hn1, filterSkipEv_nil col new₂ hn2, hratio]
    simp

unseal Rat.add Rat.mul Rat.inv Rat.sub in
theorem imputation_threshold_gate_witness :
    (Wellformed thresholdDf ∧ thresholdPolicy.missing_data.enabled = true ∧
      thresholdPolicy.missing_data.imputation = some thrImp ∧
      ("numeric", some thrCfg) ∈ bucketList thrImp ∧
      ¬ (thrCfg.default = "none" ∧ thrCfg.constants.isEmpty) ∧
      inBucket thresholdPolicy thresholdDf "numeric" "val" = true ∧
      0 ≤ thrCfg.allow_if_missing_pct_leq ∧
      thrCfg.allow_if_missing_pct_leq < missingRatio thresholdDf "val") ∧
    ((colCells (apply_imputation thresholdDf thresholdPolicy (some fixedClock)
        fixedClock 0).1 "val" = colCells thresholdDf "val" ∧
      ∃ ts, ((apply_imputation thresholdDf thresholdPolicy (some fixedClock)
          fixedClock 0).2.1.filter fun e =>
            decide (e.event_type = "imputation_skipped_threshold" ∧
              e.column = some "val")) =
        [{ event_type := "imputation_skipped_threshold", column := some "val",
           reason := "missing_pct_" ++
             String.mk (format4 (missingRatio thresholdDf "val")) ++ "_gt_" ++
             String.mk (format4 thrCfg.allow_if_missing_pct_leq),
           policy_section := "missing_data.imputation.numeric",
           timestamp := some ts }]) ∧
      ((apply_imputation thresholdDf thresholdPolicy (some fixedClock) fixedClock 0).1 =
          thresholdDf ∧
        (apply_imputation thresholdDf thresholdPolicy (some fixedClock) fixedClock 0).2.1.map
            (fun e => (e.event_type, e.column, e.reason)) =
          [("imputation_skipped_threshold", some "val", "missing_pct_0.5000_gt_0.2500")])) :=
  ⟨⟨by decide, rfl, rfl, List.mem_cons_self _ _, by decide, by decide, by decide, by decide⟩,
    imputation_threshold_gate thresholdDf thresholdPolicy (some fixedClock) fixedClock 0
      thrImp "numeric" "val" thrCfg (by decide) rfl rfl (List.mem_cons_self _ _) (by decide)
      (by decide) (by decide) (by decide)⟩

theorem inBucket_protected (p : Policy) (df : Table) (b col : String)
    (h : p.roles.protected_columns.contains col = true ∨ col = "_row_id") :
    inBucket p df b col = false := by
  rw [inBucket, if_pos (by simpa using h)]

/-- C8 (amended): the imputation phase's exclusion set is the protected
columns together with the synthetic `_row_id` column (not the critical
columns): a column in that set is never modified by `apply_imputation` and
no imputation event ever targets it, under any policy and clock. -/
theorem imputation_excludes_protected (df : Table) (p : Policy) (clock : Option ClockT)
    (env : ClockT) (n0 : Nat) (col : String)
    (h : p.roles.protected_columns.contains col = true ∨ col = "_row_id") :
    colCells (apply_imputation df p clock env n0).1 col = colCells df col ∧
    ∀ e ∈ (apply_imputation df p clock env n0).2.1, e.column ≠ some col := by
  rw [apply_imputation]
  dsimp only
  by_cases henb : p.missing_data.enabled
  · rw [if_neg (by simp [henb])]
    rcases himp : p.missing_data.imputation with _ | imp
    · exact ⟨rfl, by simp⟩
    · dsimp only
      rcases foldl_runBucket_frame p (colCells df "_row_id") (clock.getD env)
          [("numeric", imp.numeric), ("datetime", imp.datetime),
            ("categorical", imp.categorical)] { df := df, evs := [], n := n0 } with
        ⟨hsh, hcells, new, hevs, hnew⟩
      refine ⟨hcells col ?_, ?_⟩
      · intro pr _
        exact inBucket_protected p df pr.1 col h
      · intro e he
        rw [hevs] at he
        simp only [List.nil_append] at he
        rcases hnew e he with ⟨c', b', _, hcol', hib⟩
        rw [hcol']
        intro hcc
        rw [Option.some.inj hcc] at hib
        rw [inBucket_protected p df b' col h] at hib
        exact absurd hib (by simp)
  · rw [if_pos (by simp [henb])]
    exact ⟨rfl, by simp⟩

theorem imputation_excludes_protected_witness :
    (protImpPolicy.roles.protected_columns.contains "a" = true ∨ "a" = "_row_id") ∧
    (colCells (apply_imputation criticalDf protImpPolicy (some fixedClock) wallClockA 0).1
        "a" = colCells criticalDf "a" ∧
      ∀ e ∈ (apply_imputation criticalDf protImpPolicy (some fixedClock) wallClockA 0).2.1,
        e.column ≠ some "a") :=
  ⟨by decide,
    imputation_excludes_protected criticalDf protImpPolicy (some fixedClock) wallClockA 0 "a"
      (by decide)⟩

/-- C4 (amended): numeric parsing never accepts an infinite value — no
string cell ever parses to `ok (inf _)`; but the rejection path splits:
spellings in the shared missing-token table (`nan`, `inf`, `-inf`,
`infinity`, `-infinity`, ...) are silently treated as missing (null, or the
raw cell in keep-raw mode) with no failure, while non-finite spellings
outside that table, such as `+Inf`, fail with reason
`infinite_or_nan_value` under the per-type failure mode. -/
theorem nan_infinity_tokens_amended (cfg : NumCfg) (s : List Char) :
    (∀ b : Bool, numericCellStep cfg (.str s) ≠ .ok (.inf b)) ∧
    (missingTokens.contains (lowerChars (trimChars s)) = true →
      numericCellStep cfg (.str s) =
        .ok (if cfg.on_failure = "keep_raw" then .str s else .null)) ∧
    numericCellStep cfg (.str "+Inf".toList) =
      .fail (failureOut cfg.on_failure (.str "+Inf".toList)).1
        (failureOut cfg.on_failure (.str "+Inf".toList)).2 "infinite_or_nan_value" := by
  refine ⟨?_, ?_, ?_⟩
  · intro b
    rw [numericCellStep]
    dsimp only
    split
    · split <;> simp
    · split
      · simp
      · simp
      · simp
  · intro htok
    rw [numericCellStep]
    dsimp only
    rw [if_pos (by simpa [is_effectively_missing, pyStrCell] using htok)]
  · rcases cfg with ⟨ac, acur, ap, ps, onf⟩
    cases ac <;> cases acur <;> cases ap <;>
      · rw [numericCellStep]
        dsimp only
        rw [if_neg (by decide)]
        rfl

theorem nan_infinity_tokens_amended_witness :
    missingTokens.contains (lowerChars (trimChars "NaN".toList)) = true ∧
    ((∀ b : Bool, numericCellStep {} (.str "NaN".toList) ≠ .ok (.inf b)) ∧
      numericCellStep {} (.str "NaN".toList) =
        .ok (if ({} : NumCfg).on_failure = "keep_raw" then .str "NaN".toList else .null) ∧
      numericCellStep {} (.str "+Inf".toList) =
        .fail (failureOut ({} : NumCfg).on_failure (.str "+Inf".toList)).1
          (failureOut ({} : NumCfg).on_failure (.str "+Inf".toList)).2
          "infinite_or_nan_value") :=
  ⟨by decide,
    (nan_infinity_tokens_amended {} "NaN".toList).1,
    (nan_infinity_tokens_amended {} "NaN".toList).2.1 (by decide),
    (nan_infinity_tokens_amended {} "NaN".toList).2.2⟩

theorem mem_insertIdx (i x : Nat) (l : List Nat) :
    x ∈ insertIdx i l ↔ x = i ∨ x ∈ l := by
  induction l with
  | nil => simp [insertIdx]
  | cons j rest ih =>
      rw [insertIdx]
      by_cases h1 : i < j
      · rw [if_pos h1]
        simp only [List.mem_cons]
      · rw [if_neg h1]
        by_cases h2 : i = j
        · subst h2
          rw [if_pos rfl]
          simp only [List.mem_cons]
          tauto
        · rw [if_neg h2]
          simp only [List.mem_cons, ih]
          tauto

theorem insertIdx_sorted (i : Nat) (l : List Nat) (h : List.Pairwise (· < ·) l) :
    List.Pairwise (· < ·) (insertIdx i l) := by
  induction l with
  | nil => simp [insertIdx]
  | cons j rest ih =>
      rw [insertIdx]
      rcases List.pairwise_cons.1 h with ⟨hj, hrest⟩
      by_cases h1 : i < j
      · rw [if_pos h1]
        refine List.pairwise_cons.2 ⟨?_, h⟩
        intro y hy
        rcases List.mem_cons.1 hy with rfl | hy'
        · exact h1
        · exact h1.trans (hj y hy')
      · rw [if_neg h1]
        by_cases h2 : i = j
        · rw [if_pos h2]
          exact h
        · rw [if_neg h2]
          refine List.pairwise_cons.2 ⟨?_, ih hrest⟩
          intro y hy
          rcases (mem_insertIdx i y rest).1 hy with rfl | hy'
          · exact Nat.lt_of_le_of_ne (Nat.le_of_not_lt h1) (Ne.symm h2)
          · exact hj y hy'

theorem parseColGo_sorted (step : Cell → ParseOut) (name sect : String)
    (rowIds : List Cell) (clk : ClockT) (cells : List Cell) (idx n : Nat)
    (drops : List Nat) (h : List.Pairwise (· < ·) drops) :
    List.Pairwise (· < ·)
      (parseColGo step name sect rowIds clk cells idx n drops).2.2.1 := by
  induction cells generalizing idx n drops with
  | nil => exact h
  | cons c rest ih =>
      rw [parseColGo]
      cases hstep : step c with
      | ok out =>
          dsimp only
          exact ih (idx + 1) n drops h
      | fail out dropFlag reason =>
          dsimp only
          cases dropFlag
          · rw [if_neg (by simp)]
            exact ih (idx + 1) (n + 1) drops h
          · rw [if_pos rfl]
            exact ih (idx + 1) (n + 1) _ (insertIdx_sorted idx drops h)

theorem parseCols_sorted (step : Cell → ParseOut) (sect : String) (dtypeOut : DType)
    (rowIds : List Cell) (clk : ClockT) (names : List String) (df : Table) (n : Nat)
    (drops : List Nat) (h : List.Pairwise (· < ·) drops) :
    List.Pairwise (· < ·)
      (parseCols step sect dtypeOut rowIds clk names df n drops).2.2.1 := by
  induction names generalizing df n drops with
  | nil => exact h
  | cons nm rest ih =>
      rw [parseCols]
      exact ih _ _ _ (parseColGo_sorted step nm sect rowIds clk (colCells df nm) 0 n drops h)

theorem parseColGo_evs_failure (step : Cell → ParseOut) (name sect : String)
    (rowIds : List Cell) (clk : ClockT) (cells : List Cell) (idx n : Nat)
    (drops : List Nat) :
    ∀ e ∈ (parseColGo step name sect rowIds clk cells idx n drops).2.1,
      e.event_type = "parsing_failure" := by
  induction cells generalizing idx n drops with
  | nil => simp [parseColGo]
  | cons c rest ih =>
      rw [parseColGo]
      cases hstep : step c with
      | ok out =>
          dsimp only
          exact ih (idx + 1) n drops
      | fail out dropFlag reason =>
          dsimp only
          intro e he
          rcases List.mem_cons.1 he with rfl | he'
          · rfl
          · exact ih (idx + 1) (n + 1) _ e he'

theorem parseCols_evs_failure (step : Cell → ParseOut) (sect : String)
    (dtypeOut : DType) (rowIds : List Cell) (clk : ClockT) (names : List String)
    (df : Table) (n : Nat) (drops : List Nat) :
    ∀ e ∈ (parseCols step sect dtypeOut rowIds clk names df n drops).2.1,
      e.event_type = "parsing_failure" := by
  induction names generalizing df n drops with
  | nil => simp [parseCols]
  | cons nm rest ih =>
      rw [parseCols]
      dsimp only
      intro e he
      rcases List.mem_append.1 he with h | h
      · exact parseColGo_evs_failure step nm sect rowIds clk (colCells df nm) 0 n drops e h
      · exact ih _ _ _ e h

theorem parsingDropPhase_spec (df' : Table) (rowIds : List Cell) (clk : ClockT)
    (drops : List Nat) (n : Nat) :
    (parsingDropPhase df' rowIds clk drops n).2.1 = drops.map (fun i =>
        mkValueChange "row_dropped" (rowIds.getD i .null) "__row__"
          (some "row_present".toList) none "parsing_on_failure_drop_row"
          "parsing.on_failure.drop_row" (clk n)) ∧
    (parsingDropPhase df' rowIds clk drops n).1 =
      (if drops.isEmpty then df'
        else filterRows df' ((List.range (numRows df')).map fun i =>
          ! drops.contains i)) := by
  rw [parsingDropPhase]
  by_cases h : drops.isEmpty
  · have hnil : drops = [] := List.isEmpty_iff.1 h
    subst hnil
    simp
  · rw [if_neg h, if_neg h]
    exact ⟨rfl, rfl⟩


unseal Rat.add Rat.mul Rat.inv Rat.sub in
/-- C5: `apply_parsing` batches all row drops: its event stream is the
per-cell `parsing_failure` events of all declared columns followed by one
`row_dropped` event per dropped row (strictly increasing row positions, so
each row at most once), each keyed by the row's original `_row_id` value
and sharing a single timestamp, and the drop itself is applied once at the
very end by filtering every column of the fully parsed table with one
shared keep-mask; on the two-column overlapping-failure fixture the stream
is the two failures then the two drops and only the third row survives. -/
theorem parsing_batched_drop (df : Table) (p : Policy) (clock : Option ClockT)
    (env : ClockT) (n0 : Nat) :
    ((apply_parsing dropDf dropPolicy (some fixedClock) wallClockA 0).2.1.map
        (fun e => (e.event_type, e.column, e.row_id)) =
      [("parsing_failure", some "b", some (Cell.num 20)),
       ("parsing_failure", some "a", some (Cell.num 10)),
       ("row_dropped", some "__row__", some (Cell.num 10)),
       ("row_dropped", some "__row__", some (Cell.num 20))] ∧
      colCells (apply_parsing dropDf dropPolicy (some fixedClock) wallClockA 0).1
        "_row_id" = [Cell.num 30]) ∧
    ∃ pre drops evA ts,
      List.Pairwise (· < ·) drops ∧
      (apply_parsing df p clock env n0).2.1 = evA ++ drops.map (fun i =>
        mkValueChange "row_dropped" ((colCells df "_row_id").getD i .null) "__row__"
          (some "row_present".toList) none "parsing_on_failure_drop_row"
          "parsing.on_failure.drop_row" ts) ∧
      (∀ e ∈ evA, e.event_type = "parsing_failure") ∧
      (apply_parsing df p clock env n0).1 =
        (if drops.isEmpty then pre
          else filterRows pre ((List.range (numRows pre)).map fun i =>
            ! drops.contains i)) := by
  refine ⟨⟨by decide, by decide⟩, ?_⟩
  rw [apply_parsing]
  dsimp only
  set clk := clock.getD env with hclk
  set rowIds := colCells df "_row_id" with hrow
  set rb := parseCols (booleanCellStep p.parsing.boolean) "parsing.boolean"
    (if p.parsing.boolean.on_failure = "keep_raw" then DType.object else DType.boolean)
    rowIds clk (declaredCols p df ["boolean"]) df n0 [] with hrb
  set rn := parseCols (numericCellStep p.parsing.numeric) "parsing.numeric"
    (if p.parsing.numeric.on_failure = "keep_raw" then DType.object else DType.float64)
    rowIds clk (declaredCols p df ["numeric", "integer", "float"]) rb.1 rb.2.2.2 rb.2.2.1
    with hrn
  set rd := parseCols (datetimeCellStep p.parsing.datetime) "parsing.datetime"
    (if p.parsing.datetime.on_failure = "keep_raw" then DType.object else DType.datetime64)
    rowIds clk (declaredCols p df ["datetime", "date", "timestamp"]) rn.1 rn.2.2.2 rn.2.2.1
    with hrd
  refine ⟨rd.1, rd.2.2.1, rb.2.1 ++ rn.2.1 ++ rd.2.1, clk rd.2.2.2, ?_, ?_, ?_, ?_⟩
  · rw [hrd]
    apply parseCols_sorted
    rw [hrn]
    apply parseCols_sorted
    rw [hrb]
    apply parseCols_sorted
    exact List.Pairwise.nil
  · rw [(parsingDropPhase_spec rd.1 rowIds clk rd.2.2.1 rd.2.2.2).1]
  · intro e he
    rcases List.mem_append.1 he with he1 | he3
    · rcases List.mem_append.1 he1 with he1 | he2
      · rw [hrb] at he1
        exact parseCols_evs_failure _ _ _ _ _ _ _ _ _ e he1
      · rw [hrn] at he2
        exact parseCols_evs_failure _ _ _ _ _ _ _ _ _ e he2
    · rw [hrd] at he3
      exact parseCols_evs_failure _ _ _ _ _ _ _ _ _ e he3
  · exact (parsingDropPhase_spec rd.1 rowIds clk rd.2.2.1 rd.2.2.2).2


/-! C2 development -/

theorem char_toNat_ofNat (n : Nat) (h : n < 0xD800) : (Char.ofNat n).toNat = n := by
  unfold Char.ofNat
  rw [dif_pos (Or.inl h)]
  simp [Char.ofNatAux, Char.toNat, UInt32.toNat]

theorem digitChar_toNat (d : Nat) (h : d < 10) : (digitChar d).toNat = 48 + d := by
  rw [digitChar, char_toNat_ofNat]
  omega

theorem digitChar_isDigit (d : Nat) (h : d < 10) : isDigitC (digitChar d) = true := by
  rw [isDigitC]
  rw [digitChar_toNat d h]
  simp
  omega

theorem digitVal_digitChar (d : Nat) (h : d < 10) : digitVal (digitChar d) = d := by
  rw [digitVal, digitChar_toNat d h]
  omega

theorem natDigitsGo_digits (f n : Nat) : ∀ c ∈ natDigitsGo f n, isDigitC c = true := by
  induction f generalizing n with
  | zero => simp [natDigitsGo]
  | succ f ih =>
      rw [natDigitsGo]
      by_cases h : n < 10
      · rw [if_pos h]
        intro c hc
        rcases List.mem_singleton.1 hc with rfl
        exact digitChar_isDigit n h
      · rw [if_neg h]
        intro c hc
        rcases List.mem_append.1 hc with h1 | h1
        · exact ih (n / 10) c h1
        · rcases List.mem_singleton.1 h1 with rfl
          exact digitChar_isDigit (n % 10) (Nat.mod_lt n (by norm_num))

theorem natDigits_digits (n : Nat) : ∀ c ∈ natDigits n, isDigitC c = true :=
  natDigitsGo_digits (n + 1) n

theorem natDigitsGo_ne_nil (f n : Nat) (h : 0 < f) : natDigitsGo f n ≠ [] := by
  cases f with
  | zero => omega
  | succ f =>
      rw [natDigitsGo]
      by_cases h1 : n < 10
      · rw [if_pos h1]; simp
      · rw [if_neg h1]; simp

theorem natDigits_ne_nil (n : Nat) : natDigits n ≠ [] :=
  natDigitsGo_ne_nil (n + 1) n (by omega)

theorem digitsVal_append_digit (xs : List Char) (c : Char) :
    digitsVal (xs ++ [c]) = 10 * digitsVal xs + digitVal c := by
  rw [digitsVal, digitsVal, List.foldl_append]
  simp [Nat.mul_comm]

theorem digitsVal_natDigitsGo (f n : Nat) (h : n < f) :
    digitsVal (natDigitsGo f n) = n := by
  induction f generalizing n with
  | zero => omega
  | succ f ih =>
      rw [natDigitsGo]
      by_cases h1 : n < 10
      · rw [if_pos h1]
        rw [digitsVal]
        simp [digitVal_digitChar n h1]
      · rw [if_neg h1]
        rw [digitsVal_append_digit, ih (n / 10) (by omega), digitVal_digitChar (n % 10)
          (Nat.mod_lt n (by norm_num))]
        omega

theorem digitsVal_natDigits (n : Nat) : digitsVal (natDigits n) = n :=
  digitsVal_natDigitsGo (n + 1) n (by omega)

theorem natDigitsGo_length (f n j : Nat) (h : n < 10 ^ j) (hj : 1 ≤ j) (hf : n < f) :
    (natDigitsGo f n).length ≤ j := by
  induction f generalizing n j with
  | zero => omega
  | succ f ih =>
      rw [natDigitsGo]
      by_cases h1 : n < 10
      · rw [if_pos h1]
        simpa using hj
      · rw [if_neg h1]
        rw [List.length_append]
        have hj2 : 2 ≤ j := by
          by_contra hc
          have : j = 1 := by omega
          subst this
          simp at h
          omega
        have hdiv : n / 10 < 10 ^ (j - 1) := by
          have h10 : (10 : Nat) ^ j = 10 ^ (j - 1) * 10 := by
            conv_lhs => rw [show j = (j - 1) + 1 by omega]
            ring
          rw [h10] at h
          omega
        have := ih (n / 10) (j - 1) hdiv (by omega) (by omega)
        simp only [List.length_cons, List.length_nil]
        omega

theorem digitsVal_zeros_append (k : Nat) (xs : List Char) :
    digitsVal (List.replicate k '0' ++ xs) = digitsVal xs := by
  induction k with
  | zero => simp
  | succ k ih =>
      rw [List.replicate_succ, List.cons_append]
      rw [digitsVal] at *
      simp only [List.foldl_cons]
      have : digitVal '0' = 0 := by decide
      simpa [this] using ih

/-- The character alphabet of rendered numbers. -/
def NumChar (c : Char) : Prop := isDigitC c = true ∨ c = '.' ∨ c = '-'

theorem digit_toNat_bounds (c : Char) (h : isDigitC c = true) :
    48 ≤ c.toNat ∧ c.toNat ≤ 57 := by
  rw [isDigitC] at h
  simpa using h

theorem numChar_not_space (c : Char) (h : NumChar c) : isSpaceC c = false := by
  rcases h with hd | rfl | rfl
  · rw [isSpaceC]
    simp only [decide_eq_false_iff_not]
    rintro (rfl | rfl | rfl | rfl | rfl | rfl | rfl | rfl | rfl | rfl) <;>
      exact absurd hd (by decide)
  · decide
  · decide

theorem numChar_ne_pct (c : Char) (h : NumChar c) : c ≠ '%' := by
  rcases h with hd | rfl | rfl
  · rintro rfl
    exact absurd hd (by decide)
  · decide
  · decide

theorem numChar_ne_comma (c : Char) (h : NumChar c) : c ≠ ',' := by
  rcases h with hd | rfl | rfl
  · rintro rfl
    exact absurd hd (by decide)
  · decide
  · decide

theorem numChar_ne_space (c : Char) (h : NumChar c) : c ≠ ' ' := by
  rcases h with hd | rfl | rfl
  · rintro rfl
    exact absurd hd (by decide)
  · decide
  · decide

theorem numChar_toLower (c : Char) (h : NumChar c) : c.toLower = c := by
  rcases h with hd | rfl | rfl
  · rcases digit_toNat_bounds c hd with ⟨h1, h2⟩
    rw [Char.toLower]
    rw [if_neg]
    intro hc
    have : 65 ≤ c.toNat := by simpa [Char.le_def] using hc.1
    omega
  · decide
  · decide

theorem numChar_toUpper (c : Char) (h : NumChar c) : c.toUpper = c := by
  rcases h with hd | rfl | rfl
  · rcases digit_toNat_bounds c hd with ⟨h1, h2⟩
    rw [Char.toUpper]
    rw [if_neg]
    intro hc
    have : 97 ≤ c.toNat := by simpa [Char.le_def] using hc.1
    omega
  · decide
  · decide

theorem dropWhile_eq_self_of (p : Char → Bool) (s : List Char)
    (h : ∀ c ∈ s, p c = false) : s.dropWhile p = s := by
  cases s with
  | nil => rfl
  | cons c rest =>
      rw [List.dropWhile_cons, if_neg]
      rw [h c (List.mem_cons_self _ _)]
      simp

theorem trimChars_eq_self (s : List Char) (h : ∀ c ∈ s, isSpaceC c = false) :
    trimChars s = s := by
  rw [trimChars, dropWhile_eq_self_of _ s h, dropWhile_eq_self_of, List.reverse_reverse]
  intro c hc
  exact h c (List.mem_reverse.1 hc)

theorem lowerChars_eq_self (s : List Char) (h : ∀ c ∈ s, NumChar c) :
    lowerChars s = s := by
  rw [lowerChars]
  conv_rhs => rw [← List.map_id s]
  exact List.map_congr_left fun c hc => numChar_toLower c (h c hc)

theorem upperChars_eq_self (s : List Char) (h : ∀ c ∈ s, NumChar c) :
    upperChars s = s := by
  rw [upperChars]
  conv_rhs => rw [← List.map_id s]
  exact List.map_congr_left fun c hc => numChar_toUpper c (h c hc)

theorem collapseWsGo_eq_self (f : Nat) (s : List Char) (h : ∀ c ∈ s, isSpaceC c = false)
    (hf : s.length ≤ f) : collapseWsGo f s = s := by
  induction f generalizing s with
  | zero =>
      cases s with
      | nil => rfl
      | cons c rest => simp at hf
  | succ f ih =>
      cases s with
      | nil => rfl
      | cons c rest =>
          rw [collapseWsGo]
          rw [if_neg (by rw [h c (List.mem_cons_self _ _)]; simp)]
          rw [ih rest (fun x hx => h x (List.mem_cons_of_mem _ hx)) (by simpa using hf)]

theorem collapseWsChars_eq_self (s : List Char) (h : ∀ c ∈ s, isSpaceC c = false) :
    collapseWsChars s = s := collapseWsGo_eq_self s.length s h le_rfl

theorem removeChar_eq_self (x : Char) (s : List Char) (h : ∀ c ∈ s, c ≠ x) :
    removeChar x s = s := by
  rw [removeChar]
  refine List.filter_eq_self.2 fun c hc => ?_
  simpa using h c hc

theorem removeDigitSpacesGo_eq_self (f : Nat) (s : List Char)
    (h : ∀ c ∈ s, c ≠ ' ') (hf : s.length ≤ f) : removeDigitSpacesGo f s = s := by
  induction f generalizing s with
  | zero => rfl
  | succ f ih =>
      match s, h, hf with
      | [], _, _ => rfl
      | [c], _, _ => rfl
      | a :: b :: rest, h, hf =>
          simp only [removeDigitSpacesGo]
          rw [if_neg]
          · rw [ih (b :: rest) (fun x hx => h x (List.mem_cons_of_mem _ hx))
              (by simpa using hf)]
          · have hb : b ≠ ' ' := h b (List.mem_cons_of_mem _ (List.mem_cons_self _ _))
            simp [hb]

theorem removeDigitSpaces_eq_self (s : List Char) (h : ∀ c ∈ s, c ≠ ' ') :
    removeDigitSpaces s = s := removeDigitSpacesGo_eq_self s.length s h le_rfl

theorem contains_eq_false_of (x : Char) (s : List Char) (h : ∀ c ∈ s, c ≠ x) :
    s.contains x = false := by
  rw [← Bool.not_eq_true]
  intro hx
  rw [List.contains_eq_any_beq] at hx
  rcases List.any_eq_true.1 hx with ⟨c, hc, hbc⟩
  have hxc : x = c := by simpa using hbc
  exact h c hc hxc.symm

theorem ratDigitsStr_alphabet (n k : Nat) :
    ∀ c ∈ ratDigitsStr n k, isDigitC c = true ∨ c = '.' := by
  rw [ratDigitsStr]
  by_cases hk : k = 0
  · rw [if_pos hk]
    intro c hc
    rcases List.mem_append.1 hc with h | h
    · exact Or.inl (natDigits_digits _ c h)
    · rcases List.mem_cons.1 h with rfl | h
      · exact Or.inr rfl
      · rcases List.mem_singleton.1 h with rfl
        exact Or.inl (by decide)
  · rw [if_neg hk]
    intro c hc
    rcases List.mem_append.1 hc with h | h
    · exact Or.inl (natDigits_digits _ c h)
    · rcases List.mem_cons.1 h with rfl | h
      · exact Or.inr rfl
      · rcases List.mem_append.1 h with h | h
        · rcases List.eq_of_mem_replicate h with rfl
          exact Or.inl (by decide)
        · exact Or.inl (natDigits_digits _ c h)

theorem ratToPyStr_alphabet (q : ℚ) : ∀ c ∈ ratToPyStr q, NumChar c := by
  rw [ratToPyStr]
  by_cases hq : q < 0
  · rw [if_pos hq]
    intro c hc
    rcases List.mem_cons.1 hc with rfl | h
    · exact Or.inr (Or.inr rfl)
    · rcases ratDigitsStr_alphabet _ _ c h with h | h
      · exact Or.inl h
      · exact Or.inr (Or.inl h)
  · rw [if_neg hq]
    intro c hc
    rcases ratDigitsStr_alphabet _ _ c hc with h | h
    · exact Or.inl h
    · exact Or.inr (Or.inl h)

theorem dot_mem_ratDigitsStr (n k : Nat) : '.' ∈ ratDigitsStr n k := by
  rw [ratDigitsStr]
  by_cases hk : k = 0
  · rw [if_pos hk]
    exact List.mem_append.2 (Or.inr (List.mem_cons_self _ _))
  · rw [if_neg hk]
    exact List.mem_append.2 (Or.inr (List.mem_cons_self _ _))

theorem dot_mem_ratToPyStr (q : ℚ) : '.' ∈ ratToPyStr q := by
  rw [ratToPyStr]
  by_cases hq : q < 0
  · rw [if_pos hq]
    exact List.mem_cons_of_mem _ (dot_mem_ratDigitsStr _ _)
  · rw [if_neg hq]
    exact dot_mem_ratDigitsStr _ _

theorem ratDigitsStr_head (n k : Nat) :
    ∃ d rest, ratDigitsStr n k = d :: rest ∧ isDigitC d = true := by
  rw [ratDigitsStr]
  by_cases hk : k = 0
  · rw [if_pos hk]
    rcases hD : natDigits n with _ | ⟨d, t⟩
    · exact absurd hD (natDigits_ne_nil n)
    · exact ⟨d, t ++ ['.', '0'], by simp, natDigits_digits n d (by rw [hD]; simp)⟩
  · rw [if_neg hk]
    rcases hD : natDigits (n / 10 ^ k) with _ | ⟨d, t⟩
    · exact absurd hD (natDigits_ne_nil _)
    · refine ⟨d, t ++ '.' :: (List.replicate (k - (natDigits (n % 10 ^ k)).length) '0' ++
        natDigits (n % 10 ^ k)), by simp, natDigits_digits _ d (by rw [hD]; simp)⟩

theorem last_digit_ratDigitsStr (n k : Nat) :
    ∃ d rest, (ratDigitsStr n k).reverse = d :: rest ∧ isDigitC d = true := by
  rw [ratDigitsStr]
  by_cases hk : k = 0
  · rw [if_pos hk]
    refine ⟨'0', '.' :: (natDigits n).reverse, ?_, by decide⟩
    rw [List.reverse_append]
    rfl
  · rw [if_neg hk]
    rcases hD : (natDigits (n % 10 ^ k)).reverse with _ | ⟨d, t⟩
    · exact absurd (by simpa using hD) (natDigits_ne_nil (n % 10 ^ k))
    · refine ⟨d, t ++ (List.replicate (k - (natDigits (n % 10 ^ k)).length) '0').reverse ++
        '.' :: (natDigits (n / 10 ^ k)).reverse, ?_,
        natDigits_digits _ d (by
          have : d ∈ (natDigits (n % 10 ^ k)).reverse := by rw [hD]; simp
          exact List.mem_reverse.1 this)⟩
      rw [List.reverse_append, List.reverse_cons, List.reverse_append, hD]
      simp

theorem multGo_two_ge (f i l : Nat) (h : 2 ^ i * 5 ^ l ≤ f) :
    i ≤ multiplicityGo 2 f (2 ^ i * 5 ^ l) := by
  induction f generalizing i l with
  | zero =>
      have hp : 0 < 2 ^ i * 5 ^ l := by positivity
      omega
  | succ f ih =>
      cases i with
      | zero => exact Nat.zero_le _
      | succ i =>
          have hp : 0 < 2 ^ i * 5 ^ l := by positivity
          have heq : 2 ^ (i + 1) * 5 ^ l = (2 ^ i * 5 ^ l) * 2 := by ring
          rw [multiplicityGo, if_pos]
          · have hdiv : 2 ^ (i + 1) * 5 ^ l / 2 = 2 ^ i * 5 ^ l := by
              rw [heq, Nat.mul_div_cancel _ (by norm_num)]
            rw [hdiv]
            exact Nat.succ_le_succ (ih i l (by omega))
          · refine ⟨by norm_num, by omega, by omega⟩

theorem multGo_five_ge (f i l : Nat) (h : 2 ^ i * 5 ^ l ≤ f) :
    l ≤ multiplicityGo 5 f (2 ^ i * 5 ^ l) := by
  induction f generalizing i l with
  | zero =>
      have hp : 0 < 2 ^ i * 5 ^ l := by positivity
      omega
  | succ f ih =>
      cases l with
      | zero => exact Nat.zero_le _
      | succ l =>
          have hp : 0 < 2 ^ i * 5 ^ l := by positivity
          have heq : 2 ^ i * 5 ^ (l + 1) = (2 ^ i * 5 ^ l) * 5 := by ring
          rw [multiplicityGo, if_pos]
          · have hdiv : 2 ^ i * 5 ^ (l + 1) / 5 = 2 ^ i * 5 ^ l := by
              rw [heq, Nat.mul_div_cancel _ (by norm_num)]
            rw [hdiv]
            exact Nat.succ_le_succ (ih i l (by omega))
          · refine ⟨by norm_num, by omega, by omega⟩

theorem den_dvd_ten_decExp (q : ℚ) (h : IsDec q) : (q.den : ℕ) ∣ 10 ^ decExp q := by
  rcases h with ⟨j, hj⟩
  have h25 : (q.den : ℕ) ∣ 2 ^ j * 5 ^ j := by
    rwa [show (10 : ℕ) = 2 * 5 from rfl, mul_pow] at hj
  rcases Nat.dvd_mul.1 h25 with ⟨a, b, ha, hb, hab⟩
  rcases (Nat.dvd_prime_pow Nat.prime_two).1 ha with ⟨i, hi, rfl⟩
  rcases (Nat.dvd_prime_pow Nat.prime_five).1 hb with ⟨l, hl, rfl⟩
  have hden : q.den = 2 ^ i * 5 ^ l := hab.symm
  have h2 : i ≤ multiplicityOf 2 q.den := by
    rw [multiplicityOf]
    conv_rhs => rw [hden]
    exact multGo_two_ge _ i l le_rfl
  have h5 : l ≤ multiplicityOf 5 q.den := by
    rw [multiplicityOf]
    conv_rhs => rw [hden]
    exact multGo_five_ge _ i l le_rfl
  rw [decExp]
  rw [show (10 : ℕ) = 2 * 5 from rfl, mul_pow]
  conv_lhs => rw [hden]
  exact mul_dvd_mul
    (pow_dvd_pow 2 (h2.trans (le_max_left _ _)))
    (pow_dvd_pow 5 (h5.trans (le_max_right _ _)))

theorem takeWhile_append_of_all (p : Char → Bool) (xs ys : List Char)
    (h : ∀ c ∈ xs, p c = true) :
    (xs ++ ys).takeWhile p = xs ++ ys.takeWhile p := by
  induction xs with
  | nil => rfl
  | cons x t ih =>
      rw [List.cons_append, List.takeWhile_cons, if_pos (h x (List.mem_cons_self _ _)),
        List.cons_append, ih (fun c hc => h c (List.mem_cons_of_mem _ hc))]

theorem takeWhile_eq_self_of_all (p : Char → Bool) (xs : List Char)
    (h : ∀ c ∈ xs, p c = true) : xs.takeWhile p = xs := by
  induction xs with
  | nil => rfl
  | cons x t ih =>
      rw [List.takeWhile_cons, if_pos (h x (List.mem_cons_self _ _)),
        ih (fun c hc => h c (List.mem_cons_of_mem _ hc))]

theorem parse_ratDigitsStr (neg : Bool) (n k : Nat) :
    parsePyMantissa neg (ratDigitsStr n k) =
      some (.fin (if neg then -((n : ℚ) / 10 ^ k) else (n : ℚ) / 10 ^ k)) := by
  by_cases hk : k = 0
  · subst hk
    rw [ratDigitsStr]
    rw [if_pos rfl, parsePyMantissa]
    rw [takeWhile_append_of_all _ _ _ (natDigits_digits n)]
    rw [show (['.', '0'] : List Char).takeWhile isDigitC = [] from by decide, List.append_nil]
    dsimp only
    rw [List.drop_left]
    have hne : (natDigits n).length ≠ 0 := by
      simpa [List.length_eq_zero] using natDigits_ne_nil n
    simp only [show List.takeWhile isDigitC ['0'] = ['0'] from by decide,
      show digitsVal (['0'] : List Char) = 0 from by decide]
    rw [if_neg (by simp [hne])]
    simp only [List.length_singleton, List.drop_one, List.tail_cons]
    rw [digitsVal_natDigits]
    norm_num
  · rw [ratDigitsStr, if_neg hk, parsePyMantissa]
    have hBdig : ∀ c ∈ List.replicate (k - (natDigits (n % 10 ^ k)).length) '0' ++
        natDigits (n % 10 ^ k), isDigitC c = true := by
      intro c hc
      rcases List.mem_append.1 hc with h | h
      · rcases List.eq_of_mem_replicate h with rfl
        decide
      · exact natDigits_digits _ c h
    rw [takeWhile_append_of_all _ _ _ (natDigits_digits _)]
    have hdot : (('.' :: (List.replicate (k - (natDigits (n % 10 ^ k)).length) '0' ++
        natDigits (n % 10 ^ k))).takeWhile isDigitC) = [] := by
      rw [List.takeWhile_cons, if_neg (by decide)]
    rw [hdot, List.append_nil]
    dsimp only
    rw [List.drop_left]
    have hne : (natDigits (n / 10 ^ k)).length ≠ 0 := by
      simpa [List.length_eq_zero] using natDigits_ne_nil (n / 10 ^ k)
    rw [if_neg (by simp [hne])]
    have hred : (match '.' :: (List.replicate (k - (natDigits (n % 10 ^ k)).length) '0' ++
        natDigits (n % 10 ^ k)) with
      | '.' :: r => (List.takeWhile isDigitC r, List.drop (List.takeWhile isDigitC r).length r)
      | x => (([] : List Char), '.' :: (List.replicate (k - (natDigits (n % 10 ^ k)).length) '0' ++
          natDigits (n % 10 ^ k)))) =
      (List.takeWhile isDigitC (List.replicate (k - (natDigits (n % 10 ^ k)).length) '0' ++
        natDigits (n % 10 ^ k)),
       List.drop (List.takeWhile isDigitC (List.replicate (k - (natDigits (n % 10 ^ k)).length)
        '0' ++ natDigits (n % 10 ^ k))).length
        (List.replicate (k - (natDigits (n % 10 ^ k)).length) '0' ++
          natDigits (n % 10 ^ k))) := rfl
    rw [hred]
    dsimp only
    rw [takeWhile_eq_self_of_all _ _ hBdig, List.drop_length]
    dsimp only
    rw [digitsVal_natDigits, digitsVal_zeros_append, digitsVal_natDigits]
    have hlenB : (List.replicate (k - (natDigits (n % 10 ^ k)).length) '0' ++
        natDigits (n % 10 ^ k)).length = k := by
      rw [List.length_append, List.length_replicate]
      have hlen : (natDigits (n % 10 ^ k)).length ≤ k :=
        natDigitsGo_length _ _ k (Nat.mod_lt _ (by positivity)) (by omega) (by omega)
      omega
    rw [hlenB]
    have hval : ((n / 10 ^ k : Nat) : ℚ) + ((n % 10 ^ k : Nat) : ℚ) / (10 : ℚ) ^ k =
        (n : ℚ) / 10 ^ k := by
      have hsplit : (10 : ℕ) ^ k * (n / 10 ^ k) + n % 10 ^ k = n := Nat.div_add_mod n _
      have hcast : ((10 : ℕ) ^ k : ℚ) * ((n / 10 ^ k : Nat) : ℚ) +
          ((n % 10 ^ k : Nat) : ℚ) = (n : ℚ) := by exact_mod_cast congrArg Nat.cast hsplit
      have hpow : (0 : ℚ) < 10 ^ k := by positivity
      field_simp
      push_cast at hcast ⊢
      linarith
    rw [hval]

theorem digit_ne_of (d c : Char) (hd : isDigitC d = true) (hc : isDigitC c = false) :
    d ≠ c := fun h => by rw [h, hc] at hd; exact absurd hd (by simp)

theorem readSign_of_head (d : Char) (r : List Char) (h1 : d ≠ '-') (h2 : d ≠ '+') :
    readSign (d :: r) = (false, d :: r) := by
  rw [readSign.eq_def]
  split
  · rename_i rest heq
    rw [List.cons.injEq] at heq
    exact absurd heq.1 h1
  · rename_i rest heq
    rw [List.cons.injEq] at heq
    exact absurd heq.1 h2
  · rfl

theorem natAbs_div_pow_eq (q : ℚ) (h : IsDec q) :
    ((q.num.natAbs * 10 ^ decExp q / q.den : ℕ) : ℚ) / 10 ^ decExp q =
      (q.num.natAbs : ℚ) / (q.den : ℚ) := by
  rcases den_dvd_ten_decExp q h with ⟨m, hm⟩
  have hden : 0 < q.den := q.den_pos
  have hm0 : m ≠ 0 := by
    intro hm0
    rw [hm0, Nat.mul_zero] at hm
    have : (0 : ℕ) < 10 ^ decExp q := by positivity
    omega
  have hnat : q.num.natAbs * 10 ^ decExp q / q.den = q.num.natAbs * m := by
    rw [hm]
    rw [show q.num.natAbs * (q.den * m) = q.den * (q.num.natAbs * m) by ring]
    exact Nat.mul_div_cancel_left _ hden
  rw [hnat]
  have hcast : ((10 : ℚ)) ^ decExp q = (q.den : ℚ) * (m : ℚ) := by
    have := congrArg (Nat.cast : ℕ → ℚ) hm
    push_cast at this
    exact this
  rw [hcast]
  push_cast
  rw [mul_div_mul_right _ _ (by exact_mod_cast hm0)]

theorem pyFloat_ratToPyStr (q : ℚ) (h : IsDec q) :
    pyFloatOfChars (ratToPyStr q) = some (.fin q) := by
  have halpha := ratToPyStr_alphabet q
  have htrim : trimChars (ratToPyStr q) = ratToPyStr q :=
    trimChars_eq_self _ fun c hc => numChar_not_space c (halpha c hc)
  rw [pyFloatOfChars]
  rw [htrim]
  rcases ratDigitsStr_head (q.num.natAbs * 10 ^ decExp q / q.den) (decExp q) with
    ⟨d, rest, hds, hdd⟩
  by_cases hq : q < 0
  · have hs : ratToPyStr q = '-' :: ratDigitsStr (q.num.natAbs * 10 ^ decExp q / q.den)
        (decExp q) := by rw [ratToPyStr, if_pos hq]
    rw [hs]
    rw [if_neg (by simp)]
    have hread : readSign ('-' :: ratDigitsStr (q.num.natAbs * 10 ^ decExp q / q.den)
        (decExp q)) = (true, ratDigitsStr (q.num.natAbs * 10 ^ decExp q / q.den)
        (decExp q)) := rfl
    rw [hread]
    dsimp only
    rw [hds]
    rw [lowerChars, List.map_cons]
    rw [numChar_toLower d (Or.inl hdd)]
    rw [if_neg, if_neg]
    · rw [← hds, parse_ratDigitsStr]
      rw [if_pos rfl, natAbs_div_pow_eq q h]
      have habs : (q.num.natAbs : ℚ) / (q.den : ℚ) = |q| := by
        rw [Int.cast_natAbs]
        rw [← abs_of_pos (show (0 : ℚ) < (q.den : ℚ) by exact_mod_cast q.den_pos)]
        push_cast
        rw [← abs_div, Rat.num_div_den]
      rw [habs, abs_of_neg hq, neg_neg]
    · intro hcontra
      rw [List.cons.injEq] at hcontra
      exact digit_ne_of d 'n' hdd (by decide) hcontra.1
    · intro hcontra
      rcases hcontra with hcontra | hcontra <;>
        · rw [List.cons.injEq] at hcontra
          exact digit_ne_of d 'i' hdd (by decide) hcontra.1
  · have hs : ratToPyStr q = ratDigitsStr (q.num.natAbs * 10 ^ decExp q / q.den)
        (decExp q) := by rw [ratToPyStr, if_neg hq]
    rw [hs, hds]
    rw [if_neg (by simp)]
    rw [readSign_of_head d rest (digit_ne_of d '-' hdd (by decide))
      (digit_ne_of d '+' hdd (by decide))]
    dsimp only
    rw [lowerChars, List.map_cons]
    rw [numChar_toLower d (Or.inl hdd)]
    rw [if_neg, if_neg]
    · rw [← hds, parse_ratDigitsStr]
      rw [if_neg (by simp), natAbs_div_pow_eq q h]
      have habs : (q.num.natAbs : ℚ) / (q.den : ℚ) = |q| := by
        rw [Int.cast_natAbs]
        rw [← abs_of_pos (show (0 : ℚ) < (q.den : ℚ) by exact_mod_cast q.den_pos)]
        push_cast
        rw [← abs_div, Rat.num_div_den]
      rw [habs, abs_of_nonneg (le_of_not_lt hq)]
    · intro hcontra
      rw [List.cons.injEq] at hcontra
      exact digit_ne_of d 'n' hdd (by decide) hcontra.1
    · intro hcontra
      rcases hcontra with hcontra | hcontra <;>
        · rw [List.cons.injEq] at hcontra
          exact digit_ne_of d 'i' hdd (by decide) hcontra.1

theorem numChar_ne_syms (c : Char) (h : NumChar c) :
    c ≠ '$' ∧ c ≠ '€' ∧ c ≠ '£' ∧ c ≠ '₹' ∧ c ≠ '¥' ∧ c ≠ '(' ∧ c ≠ ')' := by
  rcases h with hd | rfl | rfl
  · refine ⟨?_, ?_, ?_, ?_, ?_, ?_, ?_⟩ <;>
      · rintro rfl
        exact absurd hd (by decide)
  · refine ⟨by decide, by decide, by decide, by decide, by decide, by decide, by decide⟩
  · refine ⟨by decide, by decide, by decide, by decide, by decide, by decide, by decide⟩

theorem token_contains_false (s : List Char) (hdot : '.' ∈ s) :
    missingTokens.contains s = false := by
  rw [← Bool.not_eq_true]
  intro hmem
  rw [List.contains_eq_any_beq] at hmem
  rcases List.any_eq_true.1 hmem with ⟨t, ht, hbt⟩
  have hst : s = t := by simpa using hbt
  subst hst
  simp only [missingTokens, List.mem_cons, List.not_mem_nil, or_false] at ht
  rcases ht with rfl | rfl | rfl | rfl | rfl | rfl | rfl | rfl | rfl | rfl <;>
    exact absurd hdot (by decide)

theorem nanInf_contains_false (s : List Char) (hdot : '.' ∈ s) :
    nanInfSpellings.contains s = false := by
  rw [← Bool.not_eq_true]
  intro hmem
  rw [List.contains_eq_any_beq] at hmem
  rcases List.any_eq_true.1 hmem with ⟨t, ht, hbt⟩
  have hst : s = t := by simpa using hbt
  subst hst
  simp only [nanInfSpellings, List.mem_cons, List.not_mem_nil, or_false] at ht
  rcases ht with rfl | rfl | rfl | rfl | rfl | rfl | rfl | rfl | rfl <;>
    exact absurd hdot (by decide)

theorem not_missing_num (q : ℚ) : is_effectively_missing (.num q) = false := by
  have halpha := ratToPyStr_alphabet q
  have hred : is_effectively_missing (.num q) =
      missingTokens.contains (lowerChars (trimChars (pyStrCell (.num q)))) := rfl
  rw [hred]
  have h1 : pyStrCell (.num q) = ratToPyStr q := rfl
  rw [h1, trimChars_eq_self _ fun c hc => numChar_not_space c (halpha c hc),
    lowerChars_eq_self _ halpha]
  exact token_contains_false _ (dot_mem_ratToPyStr q)

theorem startsWith_false_of_head (c0 : Char) (cs u : List Char)
    (hne : ∀ d t, u = d :: t → d ≠ c0) : startsWithChars (c0 :: cs) u = false := by
  rw [startsWithChars]
  rw [← Bool.not_eq_true]
  intro hmem
  have htake : u.take (c0 :: cs).length = c0 :: cs := by simpa using hmem
  cases u with
  | nil => simp at htake
  | cons x t =>
      rw [List.length_cons, List.take_succ_cons, List.cons.injEq] at htake
      exact hne x t rfl htake.1

theorem endsWith_false_of_last (code u : List Char) (cl : Char) (csl : List Char)
    (hrev : code.reverse = cl :: csl)
    (hne : ∀ d t, u.reverse = d :: t → d ≠ cl) : endsWithChars code u = false := by
  rw [endsWithChars]
  rw [← Bool.not_eq_true]
  intro hmem
  have htake : u.reverse.take code.length = code.reverse := by simpa using hmem
  rw [hrev] at htake
  have hlen : code.length = csl.length + 1 := by
    have := congrArg List.length hrev
    simpa [Nat.add_comm] using this
  rw [hlen] at htake
  cases hu : u.reverse with
  | nil => rw [hu] at htake; simp at htake
  | cons x t =>
      rw [hu, List.take_succ_cons, List.cons.injEq] at htake
      exact hne x t hu htake.1

theorem stripCurrencyCodes_none (sStripped : List Char) (codes : List (List Char))
    (hh : ∀ d t, upperChars sStripped = d :: t → isDigitC d = true ∨ d = '-')
    (hl : ∀ d t, (upperChars sStripped).reverse = d :: t → isDigitC d = true)
    (hcodes : ∀ code ∈ codes,
      ((match code with
        | c0 :: _ => !(isDigitC c0) && !(c0 = '-' : Bool)
        | [] => false) = true) ∧
      ((match code.reverse with
        | cl :: _ => !(isDigitC cl)
        | [] => false) = true)) :
    stripCurrencyCodes sStripped codes = none := by
  induction codes with
  | nil => rfl
  | cons code rest ih =>
      rcases hcodes code (List.mem_cons_self _ _) with ⟨hch, hcl⟩
      rcases code with _ | ⟨c0, cs⟩
      · exact absurd hch (by simp)
      rcases hrev : (c0 :: cs).reverse with _ | ⟨cl, csl⟩
      · exact absurd hrev (by simp)
      rw [hrev] at hcl
      simp only [Bool.and_eq_true, Bool.not_eq_true', decide_eq_false_iff_not] at hch hcl
      rw [stripCurrencyCodes]
      have hstart : startsWithChars (c0 :: cs) (upperChars sStripped) = false := by
        refine startsWith_false_of_head c0 cs _ fun d t hdt hdc => ?_
        subst hdc
        rcases hh d t hdt with h1 | h1
        · rw [h1] at hch; exact absurd hch.1 (by simp)
        · exact hch.2 h1
      have hend : endsWithChars (c0 :: cs) (upperChars sStripped) = false := by
        refine endsWith_false_of_last (c0 :: cs) _ cl csl hrev fun d t hdt hdc => ?_
        subst hdc
        rw [hl d t hdt] at hcl
        exact absurd hcl (by simp)
      rw [if_neg (by simp [hstart]), if_neg (by simp [hend])]
      exact ih fun c hc => hcodes c (List.mem_cons_of_mem _ hc)

theorem ratToPyStr_head_cases (q : ℚ) (d : Char) (t : List Char)
    (h : ratToPyStr q = d :: t) : isDigitC d = true ∨ d = '-' := by
  rcases ratDigitsStr_head (q.num.natAbs * 10 ^ decExp q / q.den) (decExp q) with
    ⟨d0, r0, hds, hdd⟩
  by_cases hq : q < 0
  · rw [ratToPyStr, if_pos hq] at h
    rw [List.cons.injEq] at h
    exact Or.inr h.1.symm
  · rw [ratToPyStr, if_neg hq, hds, List.cons.injEq] at h
    exact Or.inl (h.1 ▸ hdd)

theorem ratToPyStr_last_digit (q : ℚ) (d : Char) (t : List Char)
    (h : (ratToPyStr q).reverse = d :: t) : isDigitC d = true := by
  rcases last_digit_ratDigitsStr (q.num.natAbs * 10 ^ decExp q / q.den) (decExp q) with
    ⟨d0, r0, hds, hdd⟩
  by_cases hq : q < 0
  · rw [ratToPyStr, if_pos hq, List.reverse_cons, hds, List.cons_append,
      List.cons.injEq] at h
    exact h.1 ▸ hdd
  · rw [ratToPyStr, if_neg hq, hds, List.cons.injEq] at h
    exact h.1 ▸ hdd

set_option maxHeartbeats 2000000 in
theorem stripCurrency_ratToPyStr (q : ℚ) (a b : Bool) :
    stripCurrencyAndCommas (ratToPyStr q) a b = ratToPyStr q := by
  have halpha := ratToPyStr_alphabet q
  have hupper : upperChars (ratToPyStr q) = ratToPyStr q := upperChars_eq_self _ halpha
  have htrim : trimChars (ratToPyStr q) = ratToPyStr q :=
    trimChars_eq_self _ fun c hc => numChar_not_space c (halpha c hc)
  have hrm : ∀ x : Char, (∀ c ∈ ratToPyStr q, c ≠ x) →
      removeChar x (ratToPyStr q) = ratToPyStr q := fun x hx => removeChar_eq_self x _ hx
  have hcomma : removeChar ',' (ratToPyStr q) = ratToPyStr q :=
    hrm ',' fun c hc => numChar_ne_comma c (halpha c hc)
  have hsyms : removeChar '¥' (removeChar '₹' (removeChar '£' (removeChar '€'
      (removeChar '$' (ratToPyStr q))))) = ratToPyStr q := by
    rw [hrm '$' fun c hc => (numChar_ne_syms c (halpha c hc)).1,
      hrm '€' fun c hc => (numChar_ne_syms c (halpha c hc)).2.1,
      hrm '£' fun c hc => (numChar_ne_syms c (halpha c hc)).2.2.1,
      hrm '₹' fun c hc => (numChar_ne_syms c (halpha c hc)).2.2.2.1,
      hrm '¥' fun c hc => (numChar_ne_syms c (halpha c hc)).2.2.2.2.1]
  have hstrip : stripCurrencyCodes (trimChars (ratToPyStr q)) currencyCodes = none := by
    rw [htrim]
    refine stripCurrencyCodes_none _ _ ?_ ?_ (by decide)
    · intro d t hdt
      rw [hupper] at hdt
      exact ratToPyStr_head_cases q d t hdt
    · intro d t hdt
      rw [hupper] at hdt
      exact ratToPyStr_last_digit q d t hdt
  rw [stripCurrencyAndCommas]
  cases a <;> cases b
  · rw [if_neg (show ¬(false = true) by simp), if_neg (show ¬(false = true) by simp)]
    exact htrim
  · rw [if_pos (show (true = true) from rfl), if_neg (show ¬(false = true) by simp)]
    rw [hsyms]
    dsimp only
    rw [hstrip]
    exact htrim
  · rw [if_neg (show ¬(false = true) by simp), if_pos (show (true = true) from rfl)]
    rw [hcomma]
    exact htrim
  · rw [if_pos (show (true = true) from rfl), if_pos (show (true = true) from rfl)]
    rw [hcomma, hsyms]
    dsimp only
    rw [hstrip]
    exact htrim

theorem normalize_ratToPyStr (q : ℚ) :
    normalizeNumericChars (ratToPyStr q) = some (ratToPyStr q) := by
  have halpha := ratToPyStr_alphabet q
  have htrim : trimChars (ratToPyStr q) = ratToPyStr q :=
    trimChars_eq_self _ fun c hc => numChar_not_space c (halpha c hc)
  have hlower : lowerChars (ratToPyStr q) = ratToPyStr q := lowerChars_eq_self _ halpha
  have hnospace : ∀ c ∈ ratToPyStr q, c ≠ ' ' := fun c hc => numChar_ne_space c (halpha c hc)
  have hrs : removeChar ' ' (ratToPyStr q) = ratToPyStr q := removeChar_eq_self _ _ hnospace
  have hcons : ∃ d t, ratToPyStr q = d :: t := by
    rcases ratDigitsStr_head (q.num.natAbs * 10 ^ decExp q / q.den) (decExp q) with
      ⟨d0, r0, hds, -⟩
    by_cases hq : q < 0
    · exact ⟨'-', _, by rw [ratToPyStr, if_pos hq]⟩
    · exact ⟨d0, r0, by rw [ratToPyStr, if_neg hq, hds]⟩
  rcases hcons with ⟨h0, t0, hcons⟩
  have hhead : isDigitC h0 = true ∨ h0 = '-' := ratToPyStr_head_cases q h0 t0 hcons
  have hparen : startsWithChars ['('] (ratToPyStr q) = false := by
    refine startsWith_false_of_head '(' [] _ fun d t hdt hdc => ?_
    subst hdc
    rcases ratToPyStr_head_cases q '(' t hdt with h1 | h1
    · exact absurd h1 (by decide)
    · exact absurd h1 (by decide)
  rw [normalizeNumericChars]
  rw [htrim, hlower, hrs]
  rw [if_neg (by rw [nanInf_contains_false _ (dot_mem_ratToPyStr q)]; simp)]
  rw [if_neg (by simp [hparen])]
  rw [hcons]
  dsimp only
  rw [if_neg]
  · split
    · rename_i c rest heq
      rw [List.cons.injEq] at heq
      rcases hhead with h1 | h1
      · exact absurd (heq.1 ▸ h1) (by decide)
      · exact absurd (h1 ▸ heq.1) (by decide)
    · rw [removeDigitSpaces_eq_self (h0 :: t0) (by rw [← hcons]; exact hnospace)]
  · rintro (h1 | h1) <;>
      rcases hhead with h2 | h2 <;>
        exact absurd (h1 ▸ h2) (by decide)

theorem numericCellStep_fix (cfg : NumCfg) (q : ℚ) (h : IsDec q) :
    numericCellStep cfg (.num q) = .ok (.num q) := by
  have halpha := ratToPyStr_alphabet q
  have htrim : trimChars (ratToPyStr q) = ratToPyStr q :=
    trimChars_eq_self _ fun c hc => numChar_not_space c (halpha c hc)
  have hcollapse : collapseWsChars (ratToPyStr q) = ratToPyStr q :=
    collapseWsChars_eq_self _ fun c hc => numChar_not_space c (halpha c hc)
  have hpct : (ratToPyStr q).contains '%' = false :=
    contains_eq_false_of '%' _ fun c hc => numChar_ne_pct c (halpha c hc)
  have hpctm : '%' ∉ ratToPyStr q := fun hc => numChar_ne_pct '%' (halpha '%' hc) rfl
  rw [numericCellStep]
  dsimp only
  rw [if_neg (by simp [not_missing_num q])]
  rw [show pyStrCell (.num q) = ratToPyStr q from rfl]
  rw [htrim, hcollapse]
  rw [if_neg (by simp [hpctm])]
  rw [stripCurrency_ratToPyStr q cfg.allow_commas cfg.allow_currency_symbols]
  rw [normalize_ratToPyStr q, Option.getD_some]
  rw [pyFloat_ratToPyStr q h]
  dsimp only
  rw [if_neg (by simp [hpctm])]

theorem numericCellStep_null (cfg : NumCfg) (h : cfg.on_failure ≠ "keep_raw") :
    numericCellStep cfg (.null) = .ok .null := by
  rw [numericCellStep]
  dsimp only
  rw [if_pos (by decide), if_neg h]

theorem isDec_iff (x : ℚ) : IsDec x ↔ ∃ (m : ℤ) (k : ℕ), x = (m : ℚ) / 10 ^ k := by
  constructor
  · rintro ⟨j, hj⟩
    rcases hj with ⟨m', hm'⟩
    refine ⟨x.num * m', j, ?_⟩
    have hm0 : (m' : ℚ) ≠ 0 := by
      intro h0
      have hm0' : m' = 0 := by exact_mod_cast h0
      rw [hm0', Nat.mul_zero] at hm'
      have : (0 : ℕ) < 10 ^ j := by positivity
      omega
    have key : ((x.num : ℚ) * (m' : ℚ)) / ((x.den : ℚ) * (m' : ℚ)) =
        (x.num : ℚ) / (x.den : ℚ) := mul_div_mul_right _ _ hm0
    rw [show ((10 : ℚ)) ^ j = ((x.den * m' : ℕ) : ℚ) by rw [← hm']; push_cast; ring]
    push_cast
    rw [key, Rat.num_div_den]
  · rintro ⟨m, k, rfl⟩
    refine ⟨k, ?_⟩
    have h1 := Rat.den_dvd m ((10 ^ k : ℕ) : ℤ)
    rw [Rat.divInt_eq_div] at h1
    have h10 : ((m : ℚ) / 10 ^ k) = ((m : ℚ) / (((10 ^ k : ℕ) : ℤ) : ℚ)) := by
      push_cast
      ring_nf
    rw [h10]
    exact_mod_cast h1

theorem isDec_base (a b l : ℕ) : IsDec ((a : ℚ) + (b : ℚ) / 10 ^ l) := by
  rw [isDec_iff]
  refine ⟨a * 10 ^ l + b, l, ?_⟩
  have hpow : ((10 : ℚ) ^ l) ≠ 0 := by positivity
  field_simp

theorem isDec_neg (x : ℚ) (h : IsDec x) : IsDec (-x) := by
  rw [isDec_iff] at h ⊢
  rcases h with ⟨m, k, rfl⟩
  exact ⟨-m, k, by push_cast; ring⟩

theorem isDec_div_pow (x : ℚ) (e : ℕ) (h : IsDec x) : IsDec (x / 10 ^ e) := by
  rw [isDec_iff] at h ⊢
  rcases h with ⟨m, k, rfl⟩
  refine ⟨m, k + e, ?_⟩
  rw [div_div, ← pow_add]

theorem isDec_mul_pow (x : ℚ) (e : ℕ) (h : IsDec x) : IsDec (x * 10 ^ e) := by
  rw [isDec_iff] at h ⊢
  rcases h with ⟨m, k, rfl⟩
  refine ⟨m * 10 ^ e, k, ?_⟩
  push_cast
  ring

theorem isDec_signed (neg : Bool) (x : ℚ) (h : IsDec x) :
    IsDec (if neg then -x else x) := by
  cases neg with
  | false => simpa using h
  | true => simpa using isDec_neg x h

theorem parsePyMantissa_isDec (neg : Bool) (s : List Char) (v : ℚ)
    (h : parsePyMantissa neg s = some (.fin v)) : IsDec v := by
  rw [parsePyMantissa] at h
  dsimp only at h
  split at h
  · exact absurd h (by simp)
  · split at h
    · have hv := PyVal.fin.inj (Option.some.inj h)
      rw [← hv]
      exact isDec_signed neg _ (isDec_base _ _ _)
    · split at h
      · split at h
        · exact absurd h (by simp)
        · split at h
          · have hv := PyVal.fin.inj (Option.some.inj h)
            rw [← hv]
            exact isDec_signed neg _ (isDec_div_pow _ _ (isDec_base _ _ _))
          · have hv := PyVal.fin.inj (Option.some.inj h)
            rw [← hv]
            exact isDec_signed neg _ (isDec_mul_pow _ _ (isDec_base _ _ _))
      · exact absurd h (by simp)

theorem pyFloat_fin_isDec (s : List Char) (v : ℚ)
    (h : pyFloatOfChars s = some (.fin v)) : IsDec v := by
  rw [pyFloatOfChars] at h
  dsimp only at h
  split at h
  · exact absurd h (by simp)
  · split at h
    · exact absurd (Option.some.inj h) (by simp)
    · split at h
      · exact absurd (Option.some.inj h) (by simp)
      · exact parsePyMantissa_isDec _ _ _ h

theorem failureOut_null (onf : String) (val : Cell) (h : onf ≠ "keep_raw") :
    (failureOut onf val).1 = .null := by
  rw [failureOut]
  by_cases h1 : onf = "drop_row"
  · rw [if_pos h1, if_neg h]
  · rw [if_neg h1]
    by_cases h2 : onf = "null"
    · rw [if_pos h2]
    · rw [if_neg h2, if_neg h]

theorem numericCellStep_clean (cfg : NumCfg) (hko : cfg.on_failure ≠ "keep_raw")
    (val : Cell) :
    (∀ out, numericCellStep cfg val = .ok out → CleanCell out) ∧
    (∀ out b r, numericCellStep cfg val = .fail out b r → CleanCell out) := by
  have hq100 : (100 : ℚ) = 10 ^ 2 := by norm_num
  rw [numericCellStep]
  dsimp only
  constructor
  · intro out hout
    split at hout
    · exact Or.inl (ParseOut.ok.inj hout).symm
    · split at hout
      · rename_i q heq
        have hdec : IsDec q := pyFloat_fin_isDec _ q heq
        have hv := ParseOut.ok.inj hout
        rw [← hv]
        refine Or.inr ⟨_, rfl, ?_⟩
        split
        · split
          · rw [hq100]
            exact isDec_div_pow _ _ hdec
          · split
            · exact hdec
            · split
              · rw [hq100]
                exact isDec_div_pow _ _ hdec
              · exact hdec
        · exact hdec
      · exact absurd hout (by simp)
      · exact absurd hout (by simp)
  · intro out b r hout
    split at hout
    · exact absurd hout (by simp)
    · split at hout
      · exact absurd hout (by simp)
      · have := (ParseOut.fail.inj hout).1
        rw [← this]
        exact Or.inl (failureOut_null _ _ hko)
      · have := (ParseOut.fail.inj hout).1
        rw [← this]
        exact Or.inl (failureOut_null _ _ hko)

theorem parseColGo_cells_clean (step : Cell → ParseOut) (name sect : String)
    (rowIds : List Cell) (clk : ClockT)
    (hstep : ∀ c, (∀ out, step c = .ok out → CleanCell out) ∧
      (∀ out b r, step c = .fail out b r → CleanCell out))
    (cells : List Cell) (idx n : Nat) (drops : List Nat) :
    ∀ x ∈ (parseColGo step name sect rowIds clk cells idx n drops).1, CleanCell x := by
  induction cells generalizing idx n drops with
  | nil => simp [parseColGo]
  | cons c rest ih =>
      rw [parseColGo]
      cases hsc : step c with
      | ok out =>
          dsimp only
          intro x hx
          rcases List.mem_cons.1 hx with rfl | hx
          · exact (hstep c).1 x hsc
          · exact ih (idx + 1) n drops x hx
      | fail out dropFlag reason =>
          dsimp only
          intro x hx
          rcases List.mem_cons.1 hx with rfl | hx
          · exact (hstep c).2 x dropFlag reason hsc
          · exact ih (idx + 1) (n + 1) _ x hx

theorem parseColGo_fix (step : Cell → ParseOut) (name sect : String)
    (rowIds : List Cell) (clk : ClockT) (cells : List Cell)
    (h : ∀ c ∈ cells, step c = .ok c) (idx n : Nat) (drops : List Nat) :
    parseColGo step name sect rowIds clk cells idx n drops = (cells, [], drops, n) := by
  induction cells generalizing idx n drops with
  | nil => rfl
  | cons c rest ih =>
      rw [parseColGo]
      rw [h c (List.mem_cons_self _ _)]
      dsimp only
      rw [ih (fun x hx => h x (List.mem_cons_of_mem _ hx)) (idx + 1) n drops]

theorem setColumn_absent (t : Table) (nm : String) (d : DType) (cells : List Cell)
    (h : getColumn t nm = none) : setColumn t nm d cells = t := by
  induction t with
  | nil => rfl
  | cons col rest ih =>
      rw [getColumn, List.find?_cons] at h
      by_cases h1 : col.name = nm
      · simp [h1] at h
      · simp [h1] at h
        show (if col.name = nm then _ else col) :: setColumn rest nm d cells = col :: rest
        rw [if_neg h1, ih (by rw [getColumn, List.find?_eq_none]; intro x hx; simpa using h x hx)]

theorem setColumn_eq_self (t : Table) (nm : String) (col : Column)
    (hnd : (colNames t).Nodup) (h : getColumn t nm = some col) :
    setColumn t nm col.dtype col.cells = t := by
  induction t with
  | nil => rfl
  | cons c0 rest ih =>
      rw [getColumn, List.find?_cons] at h
      rw [colNames, List.map_cons, List.nodup_cons] at hnd
      by_cases h1 : c0.name = nm
      · simp [h1] at h
        have hc : c0 = col := h
        subst hc
        show (if c0.name = nm then { c0 with dtype := c0.dtype, cells := c0.cells }
          else c0) :: setColumn rest nm c0.dtype c0.cells = c0 :: rest
        rw [if_pos h1]
        have habs : getColumn rest nm = none := by
          cases hg : getColumn rest nm with
          | none => rfl
          | some c2 =>
              exact absurd (h1 ▸ mem_colNames_of_getColumn rest nm c2 hg) hnd.1
        rw [setColumn_absent rest nm _ _ habs]
      · simp [h1] at h
        show (if c0.name = nm then _ else c0) :: setColumn rest nm col.dtype col.cells =
          c0 :: rest
        rw [if_neg h1, ih hnd.2 h]

theorem getColumn_of_mem (t : Table) (hnd : (colNames t).Nodup) (col : Column)
    (h : col ∈ t) : getColumn t col.name = some col := by
  induction t with
  | nil => cases h
  | cons c0 rest ih =>
      rw [colNames, List.map_cons, List.nodup_cons] at hnd
      rcases List.mem_cons.1 h with rfl | h
      · rw [getColumn, List.find?_cons_of_pos _ (by simp)]
      · have hne : ¬ c0.name = col.name := fun he =>
          hnd.1 (he ▸ List.mem_map_of_mem _ h)
        rw [getColumn, List.find?_cons_of_neg _ (by simpa using hne)]
        exact ih hnd.2 h

theorem alistGet_keys_ne (l : List (String × α)) (k : String)
    (h : alistGet l k = none) : ∀ pr ∈ l, pr.1 ≠ k := by
  intro pr hpr hk
  rw [alistGet] at h
  rw [Option.map_eq_none'] at h
  rw [List.find?_eq_none] at h
  exact absurd (by simpa using hk) (h pr hpr)

theorem colNames_filterRows (t : Table) (keep : List Bool) :
    colNames (filterRows t keep) = colNames t := by
  simp only [colNames, filterRows, List.map_map]
  exact List.map_congr_left fun a _ => rfl

theorem getColumn_filterRows (t : Table) (keep : List Bool) (nm : String) :
    getColumn (filterRows t keep) nm =
      (getColumn t nm).map fun col => { col with cells := filterCells keep col.cells } := by
  induction t with
  | nil => rfl
  | cons col rest ih =>
      show getColumn ({ col with cells := filterCells keep col.cells } :: filterRows rest keep)
        nm = _
      by_cases h : col.name = nm
      · rw [getColumn, List.find?_cons_of_pos _ (by simpa using h), getColumn,
          List.find?_cons_of_pos _ (by simpa using h)]
        rfl
      · rw [getColumn, List.find?_cons_of_neg _ (by simpa using h), getColumn,
          List.find?_cons_of_neg _ (by simpa using h)]
        exact ih

theorem mem_filterCells (keep : List Bool) (cells : List Cell) (x : Cell)
    (h : x ∈ filterCells keep cells) : x ∈ cells := by
  rw [filterCells] at h
  rcases List.mem_map.1 h with ⟨pr, hpr, rfl⟩
  exact (List.of_mem_zip (List.mem_of_mem_filter hpr)).1

theorem parsingDropPhase_preserve (df : Table) (rowIds : List Cell) (clk : ClockT)
    (drops : List Nat) (n : Nat) :
    colNames (parsingDropPhase df rowIds clk drops n).1 = colNames df ∧
    (∀ c, colDtype (parsingDropPhase df rowIds clk drops n).1 c = colDtype df c) ∧
    (∀ c x, x ∈ colCells (parsingDropPhase df rowIds clk drops n).1 c →
      x ∈ colCells df c) := by
  rw [parsingDropPhase]
  split
  · exact ⟨rfl, fun _ => rfl, fun _ _ h => h⟩
  · dsimp only
    refine ⟨colNames_filterRows _ _, fun c => ?_, fun c x hx => ?_⟩
    · rw [colDtype, colDtype, getColumn_filterRows]
      cases getColumn df c <;> rfl
    · rw [colCells, getColumn_filterRows] at hx
      cases hg : getColumn df c with
      | none => rw [hg] at hx; cases hx
      | some col =>
          rw [hg] at hx
          rw [colCells, hg]
          exact mem_filterCells _ _ _ hx

theorem stdPass_noop (prot : List String) (rowIds : List Cell) (f : Cell → Cell)
    (reason sect : String) (clk : ClockT) (names : List String) (df : Table) (n : Nat)
    (hstr : ∀ c ∈ df, isStringLike c.dtype = false) :
    stdPass prot rowIds f reason sect clk names df n = (df, [], n) := by
  induction names with
  | nil => rfl
  | cons name rest ih =>
      rw [stdPass]
      cases hg : getColumn df name with
      | none => exact ih
      | some col =>
          dsimp only
          rw [if_pos (Or.inr (by
            rw [hstr col (List.mem_of_find?_eq_some hg)]
            simp))]
          exact ih

theorem stdPass_shape (prot : List String) (rowIds : List Cell) (f : Cell → Cell)
    (reason sect : String) (clk : ClockT) (names : List String) (df : Table) (n : Nat) :
    ShapeEq (stdPass prot rowIds f reason sect clk names df n).1 df := by
  induction names generalizing df n with
  | nil => exact shapeEq_refl df
  | cons name rest ih =>
      rw [stdPass]
      cases hg : getColumn df name with
      | none => exact ih df n
      | some col =>
          dsimp only
          split
          · exact ih df n
          · split
            · exact ih df n
            · dsimp only
              exact shapeEq_trans (ih _ _) (shapeEq_setColumn df name col _ hg)

theorem stdMappingPass_shape (prot : List String) (rowIds : List Cell) (clk : ClockT)
    (maps : List (String × List (List Char × List Char))) (df : Table) (n : Nat) :
    ShapeEq (stdMappingPass prot rowIds clk maps df n).1 df := by
  induction maps generalizing df n with
  | nil => exact shapeEq_refl df
  | cons pr rest ih =>
      rcases pr with ⟨name, mapping⟩
      rw [stdMappingPass]
      cases hg : getColumn df name with
      | none => exact ih df n
      | some col =>
          dsimp only
          split
          · exact ih df n
          · split
            · exact ih df n
            · dsimp only
              exact shapeEq_trans (ih _ _) (shapeEq_setColumn df name col _ hg)

theorem shape_if (c : Prop) [Decidable c] (a : Table × List Event × Nat) (t : Table)
    (n : Nat) (h : ShapeEq a.1 t) :
    ShapeEq (if c then a else (t, [], n)).1 t := by
  split
  · exact h
  · exact shapeEq_refl t

theorem apply_standardization_shape (df : Table) (p : Policy) (clock : Option ClockT)
    (env : ClockT) (n : Nat) :
    ShapeEq (apply_standardization df p clock env n).1 df := by
  rw [apply_standardization]
  dsimp only
  refine shapeEq_trans (stdMappingPass_shape _ _ _ _ _ _) ?_
  refine shapeEq_trans (shape_if _ _ _ _ (stdPass_shape _ _ _ _ _ _ _ _ _)) ?_
  refine shapeEq_trans (shape_if _ _ _ _ (stdPass_shape _ _ _ _ _ _ _ _ _)) ?_
  refine shapeEq_trans (shape_if _ _ _ _ (stdPass_shape _ _ _ _ _ _ _ _ _)) ?_
  exact shape_if _ _ _ _ (stdPass_shape _ _ _ _ _ _ _ _ _)

theorem apply_standardization_noop (df : Table) (p : Policy) (clock : Option ClockT)
    (env : ClockT) (n : Nat) (hstr : ∀ c ∈ df, isStringLike c.dtype = false)
    (hmap : p.standardization.mappings = []) :
    apply_standardization df p clock env n = (df, [], n) := by
  rw [apply_standardization]
  rw [hmap]
  have noop_if : ∀ (c : Prop) (inst : Decidable c) (f : Cell → Cell)
      (reason sect : String) (names : List String),
      (if c then stdPass p.roles.protected_columns (colCells df "_row_id") f reason sect
        (clock.getD env) names df n else (df, [], n)) = (df, [], n) := by
    intro c inst f reason sect names
    split
    · exact stdPass_noop _ _ _ _ _ _ _ _ _ hstr
    · rfl
  rw [noop_if]
  dsimp only
  rw [noop_if]
  dsimp only
  rw [noop_if]
  dsimp only
  rw [noop_if]
  rfl

theorem mem_declaredCols (p : Policy) (df : Table) (tags : List String) (c : String) :
    c ∈ declaredCols p df tags ↔ ∃ pr ∈ p.parsing.column_types, pr.1 = c ∧
      tags.contains pr.2 = true ∧ hasColumn df c = true ∧
      p.roles.protected_columns.contains c = false := by
  rw [declaredCols, sortStrs]
  rw [(perm_sortLe _ _).mem_iff]
  rw [List.mem_map]
  constructor
  · rintro ⟨pr, hpr, rfl⟩
    have h1 := List.mem_of_mem_filter hpr
    have h2 := List.of_mem_filter hpr
    simp only [decide_eq_true_eq] at h2
    refine ⟨pr, h1, rfl, h2.1, h2.2.1, ?_⟩
    simpa using h2.2.2
  · rintro ⟨pr, hpr, rfl, h1, h2, h3⟩
    refine ⟨pr, List.mem_filter.2 ⟨hpr, ?_⟩, rfl⟩
    simp only [decide_eq_true_eq]
    refine ⟨h1, h2, ?_⟩
    intro hm
    rw [h3] at hm
    cases hm

theorem declaredCols_nil_of_tags (p : Policy) (df : Table) (tags : List String)
    (h : ∀ pr ∈ p.parsing.column_types, tags.contains pr.2 = false) :
    declaredCols p df tags = [] := by
  rw [declaredCols, sortStrs]
  have hf : (p.parsing.column_types.filter fun pr =>
      tags.contains pr.2 ∧ hasColumn df pr.1 ∧
        ¬ p.roles.protected_columns.contains pr.1) = [] := by
    rw [List.filter_eq_nil]
    intro pr hpr
    simp only [decide_eq_true_eq]
    rintro ⟨h1, -⟩
    rw [h pr hpr] at h1
    cases h1
  rw [hf]
  rfl

theorem hasColumn_of_mem_declaredCols (p : Policy) (df : Table) (tags : List String)
    (c : String) (h : c ∈ declaredCols p df tags) : hasColumn df c = true :=
  ((mem_declaredCols p df tags c).1 h).choose_spec.2.2.2.1

theorem ne_rowid_of_mem_declaredCols (p : Policy) (df : Table) (tags : List String)
    (c : String) (hrow : alistGet p.parsing.column_types "_row_id" = none)
    (h : c ∈ declaredCols p df tags) : c ≠ "_row_id" := by
  rcases (mem_declaredCols p df tags c).1 h with ⟨pr, hpr, rfl, -, -, -⟩
  exact alistGet_keys_ne _ _ hrow pr hpr

theorem parseCols_effect (step : Cell → ParseOut) (sect : String) (dtypeOut : DType)
    (rowIds : List Cell) (clk : ClockT)
    (hclean : ∀ c, (∀ out, step c = .ok out → CleanCell out) ∧
      (∀ out b r, step c = .fail out b r → CleanCell out))
    (names : List String) (df : Table) (n : Nat) (drops : List Nat) :
    colNames (parseCols step sect dtypeOut rowIds clk names df n drops).1 = colNames df ∧
    (∀ c ∈ names, c ∈ colNames df →
      colDtype (parseCols step sect dtypeOut rowIds clk names df n drops).1 c =
        some dtypeOut ∧
      ∀ x ∈ colCells (parseCols step sect dtypeOut rowIds clk names df n drops).1 c,
        CleanCell x) ∧
    (∀ c, c ∉ names →
      getColumn (parseCols step sect dtypeOut rowIds clk names df n drops).1 c =
        getColumn df c) := by
  induction names generalizing df n drops with
  | nil => exact ⟨rfl, by simp, fun c _ => rfl⟩
  | cons name rest ih =>
      rw [parseCols]
      dsimp only
      obtain ⟨ihn, ihdecl, ihframe⟩ := ih
        (setColumn df name dtypeOut
          (parseColGo step name sect rowIds clk (colCells df name) 0 n drops).1)
        (parseColGo step name sect rowIds clk (colCells df name) 0 n drops).2.2.2
        (parseColGo step name sect rowIds clk (colCells df name) 0 n drops).2.2.1
      refine ⟨ihn.trans (colNames_setColumn _ _ _ _), ?_, ?_⟩
      · intro c hc hcn
        by_cases hcr : c ∈ rest
        · exact ihdecl c hcr (by rw [colNames_setColumn]; exact hcn)
        · have hcname : c = name := by
            rcases List.mem_cons.1 hc with h | h
            · exact h
            · exact absurd h hcr
          subst hcname
          rcases Option.isSome_iff_exists.1 ((getColumn_isSome_iff df c).2 hcn) with
            ⟨col, hcol⟩
          have hget := ihframe c hcr
          rw [getColumn_setColumn_self df c dtypeOut _ col hcol] at hget
          constructor
          · rw [colDtype, hget]
            rfl
          · intro x hx
            rw [colCells, hget] at hx
            exact parseColGo_cells_clean step c sect rowIds clk hclean
              (colCells df c) 0 n drops x hx
      · intro c hc
        have hcr : c ∉ rest := fun h => hc (List.mem_cons_of_mem _ h)
        have hcn : c ≠ name := fun h => hc (h ▸ List.mem_cons_self _ _)
        rw [ihframe c hcr, getColumn_setColumn_ne df name c _ _ hcn]

theorem parseCols_fix (step : Cell → ParseOut) (sect : String) (dtypeOut : DType)
    (rowIds : List Cell) (clk : ClockT) (names : List String) (df : Table)
    (n : Nat) (drops : List Nat) (hnd : (colNames df).Nodup)
    (hfix : ∀ c ∈ names, ∀ x ∈ colCells df c, step x = .ok x)
    (hdt : ∀ c ∈ names, ∀ col, getColumn df c = some col → col.dtype = dtypeOut) :
    parseCols step sect dtypeOut rowIds clk names df n drops = (df, [], drops, n) := by
  induction names generalizing df n drops with
  | nil => rfl
  | cons name rest ih =>
      rw [parseCols]
      rw [parseColGo_fix step name sect rowIds clk (colCells df name)
        (hfix name (List.mem_cons_self _ _)) 0 n drops]
      dsimp only
      have hset : setColumn df name dtypeOut (colCells df name) = df := by
        cases hg : getColumn df name with
        | none => exact setColumn_absent df name _ _ hg
        | some col =>
            have h1 : colCells df name = col.cells := colCells_eq_of_getColumn df name col hg
            have h2 : col.dtype = dtypeOut := hdt name (List.mem_cons_self _ _) col hg
            rw [h1, ← h2]
            exact setColumn_eq_self df name col hnd hg
      rw [hset]
      rw [ih df n drops hnd (fun c hc => hfix c (List.mem_cons_of_mem _ hc))
        (fun c hc => hdt c (List.mem_cons_of_mem _ hc))]
      rfl

theorem apply_parsing_run1 (df : Table) (p : Policy) (clock : Option ClockT)
    (env : ClockT) (n : Nat) (hkr : p.parsing.numeric.on_failure ≠ "keep_raw")
    (htags : ∀ pr ∈ p.parsing.column_types,
      pr.2 = "numeric" ∨ pr.2 = "integer" ∨ pr.2 = "float") :
    colNames (apply_parsing df p clock env n).1 = colNames df ∧
    (∀ c ∈ declaredCols p df ["numeric", "integer", "float"],
      colDtype (apply_parsing df p clock env n).1 c = some .float64 ∧
      ∀ x ∈ colCells (apply_parsing df p clock env n).1 c, CleanCell x) ∧
    (∀ c, c ∉ declaredCols p df ["numeric", "integer", "float"] →
      colDtype (apply_parsing df p clock env n).1 c = colDtype df c) := by
  have hb : declaredCols p df ["boolean"] = [] :=
    declaredCols_nil_of_tags p df _ (fun pr hpr => by
      rcases htags pr hpr with h | h | h <;> rw [h] <;> decide)
  have hd : declaredCols p df ["datetime", "date", "timestamp"] = [] :=
    declaredCols_nil_of_tags p df _ (fun pr hpr => by
      rcases htags pr hpr with h | h | h <;> rw [h] <;> decide)
  rw [apply_parsing, hb, hd, if_neg hkr]
  simp only [parseCols]
  obtain ⟨hn1, hdecl1, hframe1⟩ := parseCols_effect (numericCellStep p.parsing.numeric)
    "parsing.numeric" DType.float64 (colCells df "_row_id") (clock.getD env)
    (fun c => numericCellStep_clean p.parsing.numeric hkr c)
    (declaredCols p df ["numeric", "integer", "float"]) df n []
  obtain ⟨hdn, hddt, hdcell⟩ := parsingDropPhase_preserve
    (parseCols (numericCellStep p.parsing.numeric) "parsing.numeric" DType.float64
      (colCells df "_row_id") (clock.getD env)
      (declaredCols p df ["numeric", "integer", "float"]) df n []).1
    (colCells df "_row_id") (clock.getD env)
    (parseCols (numericCellStep p.parsing.numeric) "parsing.numeric" DType.float64
      (colCells df "_row_id") (clock.getD env)
      (declaredCols p df ["numeric", "integer", "float"]) df n []).2.2.1
    (parseCols (numericCellStep p.parsing.numeric) "parsing.numeric" DType.float64
      (colCells df "_row_id") (clock.getD env)
      (declaredCols p df ["numeric", "integer", "float"]) df n []).2.2.2
  refine ⟨hdn.trans hn1, ?_, ?_⟩
  · intro c hc
    have hcn : c ∈ colNames df := by
      have h1 := hasColumn_of_mem_declaredCols p df _ c hc
      rw [hasColumn] at h1
      exact (getColumn_isSome_iff df c).1 h1
    obtain ⟨hdt1, hclean1⟩ := hdecl1 c hc hcn
    refine ⟨(hddt c).trans hdt1, fun x hx => hclean1 x (hdcell c x hx)⟩
  · intro c hc
    rw [hddt c, colDtype, colDtype, hframe1 c hc]

theorem apply_parsing_fix (df : Table) (p : Policy) (clock : Option ClockT)
    (env : ClockT) (n : Nat) (hnd : (colNames df).Nodup)
    (hkr : p.parsing.numeric.on_failure ≠ "keep_raw")
    (htags : ∀ pr ∈ p.parsing.column_types,
      pr.2 = "numeric" ∨ pr.2 = "integer" ∨ pr.2 = "float")
    (hcols : ∀ c ∈ declaredCols p df ["numeric", "integer", "float"],
      colDtype df c = some .float64 ∧ ∀ x ∈ colCells df c, CleanCell x) :
    apply_parsing df p clock env n = (df, [], n) := by
  have hb : declaredCols p df ["boolean"] = [] :=
    declaredCols_nil_of_tags p df _ (fun pr hpr => by
      rcases htags pr hpr with h | h | h <;> rw [h] <;> decide)
  have hd : declaredCols p df ["datetime", "date", "timestamp"] = [] :=
    declaredCols_nil_of_tags p df _ (fun pr hpr => by
      rcases htags pr hpr with h | h | h <;> rw [h] <;> decide)
  rw [apply_parsing, hb, hd, if_neg hkr]
  simp only [parseCols]
  have hfix : ∀ c ∈ declaredCols p df ["numeric", "integer", "float"],
      ∀ x ∈ colCells df c, numericCellStep p.parsing.numeric x = .ok x := by
    intro c hc x hx
    rcases (hcols c hc).2 x hx with rfl | ⟨v, rfl, hv⟩
    · exact numericCellStep_null _ hkr
    · exact numericCellStep_fix _ v hv
  have hdt : ∀ c ∈ declaredCols p df ["numeric", "integer", "float"],
      ∀ col, getColumn df c = some col → col.dtype = DType.float64 := by
    intro c hc col hcol
    have h1 := (hcols c hc).1
    rw [colDtype, hcol] at h1
    simpa using h1
  rw [parseCols_fix (numericCellStep p.parsing.numeric) "parsing.numeric" DType.float64
    (colCells df "_row_id") (clock.getD env)
    (declaredCols p df ["numeric", "integer", "float"]) df n [] hnd hfix hdt]
  rfl

theorem apply_validity_disabled (df : Table) (p : Policy) (clock : Option ClockT)
    (n : Nat) (h : p.validity_rules.enabled = false) :
    apply_validity df p clock n = (df, [], n) := by
  rw [apply_validity]
  rw [if_pos (by simp [h])]

theorem drop_critical_disabled (df : Table) (p : Policy) (clock : Option ClockT)
    (env : ClockT) (n : Nat) (h : p.missing_data.enabled = false) :
    drop_critical_missing df p clock env n = (df, [], n) := by
  rw [drop_critical_missing]
  rw [if_pos (Or.inl (by simp [h]))]

theorem apply_imputation_disabled (df : Table) (p : Policy) (clock : Option ClockT)
    (env : ClockT) (n : Nat) (h : p.missing_data.enabled = false) :
    apply_imputation df p clock env n = (df, [], n) := by
  rw [apply_imputation]
  rw [if_pos (by simp [h])]

/-- **C2** (amended).  The pipeline is not idempotent in general (see the
counterexample), but it is a projection under the side conditions that make
the spec's claim precise: with duplicate-free column names, an `int64`
`_row_id`, no protected columns, every policy-declared column carrying a
numeric type tag, `_row_id` undeclared, numeric `on_failure` other than
`keep_raw`, validity and missing-data handling disabled, and no
standardization mappings, a second run on the first run's output returns
that output unchanged, emits no events, and the audit footer built from the
second run's (empty) event stream reports `total_events = 0`. -/
theorem pipeline_idempotent_amended (df out : Table) (p : Policy)
    (clock : Option ClockT) (env : ClockT) (n0 n1 : Nat) (evs1 : List Event)
    (hnd : (colNames df).Nodup)
    (hrid : colDtype df "_row_id" = some .int64)
    (hprot : p.roles.protected_columns = [])
    (htags : ∀ pr ∈ p.parsing.column_types,
      pr.2 = "numeric" ∨ pr.2 = "integer" ∨ pr.2 = "float")
    (hdecl : ∀ c ∈ colNames df, c ≠ "_row_id" →
      c ∈ p.parsing.column_types.map Prod.fst)
    (hrowid : alistGet p.parsing.column_types "_row_id" = none)
    (hkr : p.parsing.numeric.on_failure ≠ "keep_raw")
    (hval : p.validity_rules.enabled = false)
    (hmiss : p.missing_data.enabled = false)
    (hmap : p.standardization.mappings = [])
    (hrun : run_correction_pipeline df p clock env n0 = some (out, evs1, n1)) :
    (∀ m, run_correction_pipeline out p clock env m = some (out, [], m)) ∧
    (∀ detail ctx, (auditRun detail ctx []).lines.filterMap recTotalEvents = [0]) := by
  have hhas : hasColumn df "_row_id" = true := by
    by_contra hh
    rw [run_correction_pipeline, if_pos hh] at hrun
    cases hrun
  rw [run_correction_pipeline, if_neg (by simp [hhas])] at hrun
  dsimp only at hrun
  rw [apply_validity_disabled _ _ _ _ hval] at hrun
  dsimp only at hrun
  rw [drop_critical_disabled _ _ _ _ _ hmiss] at hrun
  dsimp only at hrun
  rw [apply_imputation_disabled _ _ _ _ _ hmiss] at hrun
  dsimp only at hrun
  have hout : (apply_parsing (apply_standardization df p clock env n0).1 p clock env
      (apply_standardization df p clock env n0).2.2).1 = out :=
    congrArg Prod.fst (Option.some.inj hrun)
  have shape1 := apply_standardization_shape df p clock env n0
  obtain ⟨hpn, hpdecl, hpframe⟩ := apply_parsing_run1
    (apply_standardization df p clock env n0).1 p clock env
    (apply_standardization df p clock env n0).2.2 hkr htags
  have hOn : colNames out = colNames df := by
    rw [← hout]
    exact hpn.trans shape1.1
  have hOnd : (colNames out).Nodup := hOn ▸ hnd
  have hridout : colDtype out "_row_id" = some .int64 := by
    rw [← hout]
    rw [hpframe "_row_id"
      (fun hmem => ne_rowid_of_mem_declaredCols p _ _ _ hrowid hmem rfl)]
    rw [shape1.2 "_row_id", hrid]
  have hcolfact : ∀ c ∈ colNames out, c ≠ "_row_id" →
      colDtype out c = some .float64 ∧ ∀ x ∈ colCells out c, CleanCell x := by
    intro c hcmem hcne
    have hcdf : c ∈ colNames df := hOn ▸ hcmem
    have hdc : c ∈ declaredCols p (apply_standardization df p clock env n0).1
        ["numeric", "integer", "float"] := by
      rcases List.mem_map.1 (hdecl c hcdf hcne) with ⟨pr, hpr, hpr1⟩
      apply (mem_declaredCols p _ _ c).2
      refine ⟨pr, hpr, hpr1, ?_, ?_, ?_⟩
      · rcases htags pr hpr with h | h | h <;> rw [h] <;> decide
      · rw [hasColumn]
        exact (getColumn_isSome_iff _ c).2 (shape1.1 ▸ hcdf)
      · rw [hprot]
        rfl
    rw [← hout]
    exact hpdecl c hdc
  constructor
  · intro m
    have hhas2 : hasColumn out "_row_id" = true := by
      rw [hasColumn]
      apply (getColumn_isSome_iff out _).2
      rw [hOn]
      rw [hasColumn] at hhas
      exact (getColumn_isSome_iff df _).1 hhas
    have hstr2 : ∀ c ∈ out, isStringLike c.dtype = false := by
      intro col hcol
      have hget : getColumn out col.name = some col := getColumn_of_mem out hOnd col hcol
      by_cases hrn : col.name = "_row_id"
      · have h1 := hridout
        rw [← hrn, colDtype, hget] at h1
        have hd : col.dtype = DType.int64 := by simpa using h1
        rw [hd]
        rfl
      · have hmem : col.name ∈ colNames out := List.mem_map_of_mem _ hcol
        have h1 := (hcolfact col.name hmem hrn).1
        rw [colDtype, hget] at h1
        have hd : col.dtype = DType.float64 := by simpa using h1
        rw [hd]
        rfl
    have hcols2 : ∀ c ∈ declaredCols p out ["numeric", "integer", "float"],
        colDtype out c = some .float64 ∧ ∀ x ∈ colCells out c, CleanCell x := by
      intro c hc
      have hne := ne_rowid_of_mem_declaredCols p out _ c hrowid hc
      have hmem : c ∈ colNames out := by
        have h1 := hasColumn_of_mem_declaredCols p out _ c hc
        rw [hasColumn] at h1
        exact (getColumn_isSome_iff out c).1 h1
      exact hcolfact c hmem hne
    rw [run_correction_pipeline, if_neg (by simp [hhas2])]
    dsimp only
    rw [apply_standardization_noop out p clock env m hstr2 hmap]
    dsimp only
    rw [apply_parsing_fix out p clock env m hOnd hkr htags hcols2]
    dsimp only
    rw [apply_validity_disabled out p clock m hval]
    dsimp only
    rw [drop_critical_disabled out p clock env m hmiss]
    dsimp only
    rw [apply_imputation_disabled out p clock env m hmiss]
    rfl
  · intro detail ctx
    rw [auditRun, List.foldl_nil, closeAudit]
    rw [if_neg (by simp [mkAuditState])]
    split <;> rfl

unseal Rat.add Rat.mul Rat.inv Rat.sub in
theorem pipeline_idempotent_amended_witness :
    run_correction_pipeline idemWDf idemWPolicy (some fixedClock) fixedClock 3 =
      some (idemWDf, [], 3) ∧
    (auditRun "summary" [] []).lines.filterMap recTotalEvents = [0] :=
  ⟨(pipeline_idempotent_amended idemWDf idemWDf idemWPolicy (some fixedClock) fixedClock
      0 0 [] (by decide) (by decide) rfl (by decide) (by decide) (by decide)
      (by decide) rfl rfl rfl (by decide)).1 3,
   (pipeline_idempotent_amended idemWDf idemWDf idemWPolicy (some fixedClock) fixedClock
      0 0 [] (by decide) (by decide) rfl (by decide) (by decide) (by decide)
      (by decide) rfl rfl rfl (by decide)).2 "summary" []⟩

end IRA
